import Mathlib

/-!
Verification of the orgpressor interaction and layout engine.

This file gives a shallow embedding of the core of the repository
(`apps/orgpressor-ui/src`): the hierarchy validator (`utils/hierarchy.ts`),
the subtree extractor and rigid transform (`utils/subtree.ts`), position
helpers (`utils/positions.ts`), the layout pass (`hooks/useLayout.ts`,
`arrangeNodes`) and the drag interaction state machine
(`hooks/useNodeDrag.ts`), together with theorems settling the frozen claims.

Modelling conventions:
* 2D coordinates are rationals (the source uses JS numbers; no claim is
  about float rounding).
* `DataSet` contents are lists in dataset order; `DataSet.update` merges an
  update item into the node with the same id (adding it if absent), which is
  the observable behaviour of vis-data `DataSet.update` together with the
  repository's `updateNode` helper (pinned by `src/types.test.ts`:
  `updateNode` preserves id/name/label/metadata and applies the changes
  object; fields absent from an update item are left unchanged).
  Display-only fields (name, label, metadata) carry no claim content and are
  not modelled; the highlight colour is modelled as a boolean flag
  (`HIGHLIGHT_COLOR` versus `DEFAULT_NODE_COLOR`).
* The rendering collaborator's position store (`network.getPositions` /
  position updates) is a total map `NodeId → Pt`: every node in the network
  has a position, and position updates write to it.
* JS `Set` insertion order is modelled by `insertOnce` on lists; JS `Map`
  by function update.
-/

namespace Org

abbrev NodeId := String

/-- A 2D point in the shared canvas coordinate space. -/
structure Pt where
  x : ℚ
  y : ℚ
deriving DecidableEq, Repr

/-- A node as stored in the nodes `DataSet` (display fields omitted; the
highlight colour is abstracted to the boolean `highlighted`). -/
structure VisNode where
  id : NodeId
  isRoot : Bool
  highlighted : Bool
deriving DecidableEq, Repr

/-- An edge as stored in the edges `DataSet`: `fromId` is the parent
(`from` in the source, a Lean keyword), `toId` the child. -/
structure VisEdge where
  eid : String
  fromId : NodeId
  toId : NodeId
deriving DecidableEq, Repr

/-- An axis-aligned bounding box, as returned by `network.getBoundingBox`. -/
structure Box where
  top : ℚ
  left : ℚ
  right : ℚ
  bottom : ℚ
deriving DecidableEq, Repr

/-- One item of a `nodesDataSet.update` batch.  Fields that are `none` are
absent from the update object and leave the node unchanged. -/
structure NodeUpdate where
  id : NodeId
  ux : Option ℚ
  uy : Option ℚ
  uIsRoot : Option Bool
  uHighlighted : Option Bool
deriving DecidableEq, Repr

/-- The shared mutable state of the two `DataSet`s and the network's
position store. -/
structure GraphState where
  nodes : List VisNode
  edges : List VisEdge
  pos : NodeId → Pt

/-- Modelled from the spec: the reserved internal top-bar node id
(`TOP_BAR_NODE_ID` in `config.ts`, whose source is not under `src/`).  Only
its distinctness from ordinary graph node ids matters to the claims. -/
def TOP_BAR_NODE_ID : NodeId := "##top-bar##"

/-- JS `Set.add`: append if not already present (insertion order kept). -/
def insertOnce (xs : List NodeId) (x : NodeId) : List NodeId :=
  if x ∈ xs then xs else xs ++ [x]

/-- Application of one update item: merge into the node with the same id
(vis-data `DataSet.update`), appending a fresh node when the id is absent,
and write any supplied coordinates to the position store. -/
def applyUpdate (s : GraphState) (u : NodeUpdate) : GraphState :=
  let nodes :=
    if s.nodes.any (fun n => n.id = u.id) then
      s.nodes.map (fun n =>
        if n.id = u.id then
          { n with isRoot := u.uIsRoot.getD n.isRoot,
                   highlighted := u.uHighlighted.getD n.highlighted }
        else n)
    else
      s.nodes ++ [⟨u.id, u.uIsRoot.getD false, u.uHighlighted.getD false⟩]
  { s with
      nodes := nodes
      pos := fun id =>
        if id = u.id then
          ⟨u.ux.getD (s.pos id).x, u.uy.getD (s.pos id).y⟩
        else s.pos id }

/-- One `nodesDataSet.update(updates)` call applies the batch in order. -/
def applyUpdates (s : GraphState) (us : List NodeUpdate) : GraphState :=
  us.foldl applyUpdate s

/-- Removal of an edge by id, `edgesDataSet.remove(id)`. -/
def removeEdgeById (edges : List VisEdge) (eid : String) : List VisEdge :=
  edges.filter (fun e => e.eid ≠ eid)

/-! ## utils/hierarchy.ts (pure helpers) -/

/-- Source `getParentEdge`: the first edge whose target is `nodeId`. -/
def getParentEdge (nodeId : NodeId) (edges : List VisEdge) : Option VisEdge :=
  (edges.filter (fun e => e.toId = nodeId)).head?

/-- Source `getChildNodeIds`: targets of the edges out of `parentId`. -/
def getChildNodeIds (parentId : NodeId) (edges : List VisEdge) : List NodeId :=
  (edges.filter (fun e => e.fromId = parentId)).map (fun e => e.toId)

/-- All ids touched by the edge list, in JS `Set` insertion order
(per edge: source then target). -/
def connectedIdsList (edges : List VisEdge) : List NodeId :=
  edges.foldl (fun acc e => insertOnce (insertOnce acc e.fromId) e.toId) []

/-- All edge targets (the `childNodeIds` set, membership only). -/
def childIdsList (edges : List VisEdge) : List NodeId :=
  edges.map (fun e => e.toId)

/-- Source `getRootNodeIds`: connected ids that are nobody's child, in
insertion order. -/
def getRootNodeIds (edges : List VisEdge) : List NodeId :=
  (connectedIdsList edges).filter (fun id => id ∉ childIdsList edges)

/-- Source `getSnappedNodeIds`: ids with an edge (in edge order, source then
target, skipping the top-bar node) followed by `isRoot`-flagged nodes, in JS
`Set` insertion order. -/
def getSnappedNodeIds (nodes : List VisNode) (edges : List VisEdge) : List NodeId :=
  let fromEdges := edges.foldl
    (fun acc e =>
      let acc1 := if e.fromId = TOP_BAR_NODE_ID then acc else insertOnce acc e.fromId
      if e.toId = TOP_BAR_NODE_ID then acc1 else insertOnce acc1 e.toId)
    []
  nodes.foldl
    (fun acc n =>
      if n.isRoot = true ∧ n.id ≠ TOP_BAR_NODE_ID then insertOnce acc n.id else acc)
    fromEdges

/-- Source `isNodeFree`: not `isRoot` and with no incoming edge (a missing
node reads as not `isRoot`, as `node?.isRoot` does). -/
def isNodeFree (nodeId : NodeId) (nodes : List VisNode) (edges : List VisEdge) : Bool :=
  let nodeIsRoot := ((nodes.find? (fun n => n.id = nodeId)).map (fun n => n.isRoot)).getD false
  if nodeIsRoot then false
  else (edges.filter (fun e => e.toId = nodeId)).length = 0

/-! ### getAllDescendantIds (breadth-first walk with a defensive cycle guard)

The source walk is a `while` loop over a growing queue; it is embedded with
explicit fuel.  The fuel only bounds the loop: `descFuel` below always
suffices on inputs on which the source loop terminates (each queue push adds
a previously unvisited node, so iterations are bounded by the number of edge
targets plus one), and running out of fuel is reported as an error, merged
with the cycle error the source throws, so an `ok` result always matches a
terminating source run. -/

inductive HErr where
  | cycleGuard (n : NodeId)
  | fuelOut
deriving DecidableEq, Repr

/-- The `children.forEach` body: visit each child in order, throwing the
defensive cycle error on an already-visited child (also on a duplicate
inside the same children list, as the source adds to `visited` per child).
Returns the grown visited set. -/
def visitChildren (visited : List NodeId) : List NodeId → Except HErr (List NodeId)
  | [] => .ok visited
  | c :: cs =>
      if c ∈ visited then .error (.cycleGuard c)
      else visitChildren (visited ++ [c]) cs

/-- One BFS loop: pop the queue head, push its children, accumulate them as
descendants. -/
def bfsDesc (edges : List VisEdge) :
    Nat → List NodeId → List NodeId → Except HErr (List NodeId)
  | 0, _, queue =>
      match queue with
      | [] => .ok []
      | _ :: _ => .error .fuelOut
  | _ + 1, _, [] => .ok []
  | fuel + 1, visited, currentId :: queue =>
      let children := getChildNodeIds currentId edges
      match visitChildren visited children with
      | .error e => .error e
      | .ok visited1 =>
          match bfsDesc edges fuel visited1 (queue ++ children) with
          | .error e => .error e
          | .ok rest => .ok (children ++ rest)

/-- Fuel that always covers a terminating source run of the walk. -/
def descFuel (edges : List VisEdge) : Nat :=
  edges.length + 2

/-- Source `getAllDescendantIds`: all descendants of `nodeId` in BFS order;
errors when a node is reached twice (the defensive cycle guard). -/
def getAllDescendantIds (nodeId : NodeId) (edges : List VisEdge) :
    Except HErr (List NodeId) :=
  bfsDesc edges (descFuel edges) [nodeId] [nodeId]

/-! ## utils/subtree.ts -/

/-- A `SubtreeContext`: the dragged root, its descendants in capture order,
and each descendant's position relative to the root at capture time
(`relativePositions`, an assoc list standing for the JS record). -/
structure Subtree where
  rootId : NodeId
  descendantIds : List NodeId
  rel : List (NodeId × Pt)
deriving DecidableEq, Repr

/-- Lookup in `relativePositions`. -/
def Subtree.relOf (st : Subtree) (id : NodeId) : Option Pt :=
  (st.rel.find? (fun p => p.1 = id)).map (fun p => p.2)

/-- Source `captureSubtree`: walk the descendants and record each one's
offset from the root (every descendant has a position, the position store
being total). -/
def captureSubtree (pos : NodeId → Pt) (edges : List VisEdge) (nodeId : NodeId) :
    Except HErr Subtree := do
  let descendantIds ← getAllDescendantIds nodeId edges
  let rootPos := pos nodeId
  let rel := descendantIds.map (fun id =>
    (id, Pt.mk ((pos id).x - rootPos.x) ((pos id).y - rootPos.y)))
  pure ⟨nodeId, descendantIds, rel⟩

/-- Source `createSubtreeMoveUpdates`: the root update (optionally carrying
`isRoot` from `rootProps`) followed by one update per descendant that has a
captured offset, each at root plus offset. -/
def createSubtreeMoveUpdates (st : Subtree) (newX newY : ℚ)
    (rootIsRoot : Option Bool) : List NodeUpdate :=
  ⟨st.rootId, some newX, some newY, rootIsRoot, none⟩ ::
    st.descendantIds.filterMap (fun id =>
      (st.relOf id).map (fun d =>
        NodeUpdate.mk id (some (newX + d.x)) (some (newY + d.y)) none none))

/-- Source `getSubtreeNodeIds` (membership view of the subtree). -/
def getSubtreeNodeIds (st : Subtree) : List NodeId :=
  st.rootId :: st.descendantIds

/-! ## utils/positions.ts -/

/-- Source `findRightmostX`: the largest x among the given nodes, `0` when
none is found (the `-Infinity` sentinel case). -/
def findRightmostX (nodeIds : List NodeId) (pos : NodeId → Pt) : ℚ :=
  match nodeIds.foldl
      (fun acc id =>
        match acc with
        | none => some (pos id).x
        | some m => if (pos id).x > m then some (pos id).x else some m)
      none with
  | none => 0
  | some m => m

/-- Source `createPositionUpdates`: write the captured position back to
every node outside `excludeIds` (only coordinates, no flag changes). -/
def createPositionUpdates (nodes : List VisNode) (pos : NodeId → Pt)
    (excludeIds : List NodeId) : List NodeUpdate :=
  (nodes.filter (fun n => n.id ∉ excludeIds)).map (fun n =>
    ⟨n.id, some (pos n.id).x, some (pos n.id).y, none, none⟩)

/-- Source `boxesOverlap`: closed-rectangle intersection. -/
def boxesOverlap (a b : Box) : Bool :=
  !(a.right < b.left || a.left > b.right || a.bottom < b.top || a.top > b.bottom)

/-- The rendering collaborator's per-node box extents: `getBoundingBox`
returns an axis-aligned box centred on the node's current position whose
half-width and half-height depend only on the node (its label). -/
structure Extents where
  halfW : NodeId → ℚ
  halfH : NodeId → ℚ

/-- The box `network.getBoundingBox(id)` reports at position `p`. -/
def nodeBox (ext : Extents) (pos : NodeId → Pt) (id : NodeId) : Box :=
  ⟨(pos id).y - ext.halfH id, (pos id).x - ext.halfW id,
   (pos id).x + ext.halfW id, (pos id).y + ext.halfH id⟩

/-- Source `findRootNodesMinY` (utils/network.ts): least y over edge-based
roots and `isRoot`-flagged nodes, `none` when there is neither. -/
def findRootNodesMinY (nodes : List VisNode) (edges : List VisEdge)
    (pos : NodeId → Pt) : Option ℚ :=
  let step : Option ℚ → NodeId → Option ℚ := fun acc id =>
    match acc with
    | none => some (pos id).y
    | some m => if (pos id).y < m then some (pos id).y else some m
  let afterRoots := (getRootNodeIds edges).foldl step none
  (nodes.filter (fun n => n.isRoot)).foldl (fun acc n => step acc n.id) afterRoots

/-! ## utils/hierarchy.ts: validateNoCycles

Three-colour DFS (0 unvisited, 1 visiting, 2 done).  The source recursion
terminates because each recursive call targets an unvisited node; the
embedding threads the colour map explicitly and spends one unit of fuel per
`dfs` call, reporting exhaustion as a distinct error (`validateFuel` below
always suffices, proved where needed).  The write-only `parent` map of the
source does not influence behaviour and is not modelled. -/

inductive VErr where
  | selfLoop (n : NodeId)
  | cycleFound (path : List NodeId)
  | fuelOut
deriving DecidableEq, Repr

/-- Adjacency list of the validator: targets of the edges out of `v`, in
edge order (only consulted after the self-loop check has passed). -/
def vAdj (edges : List VisEdge) (v : NodeId) : List NodeId :=
  (edges.filter (fun e => e.fromId = v)).map (fun e => e.toId)

/-- All ids the validator ranges over, in JS `Set` insertion order. -/
def vAllNodes (edges : List VisEdge) : List NodeId :=
  connectedIdsList edges

/-- The cycle payload the source builds from the visiting path. -/
def cycleOfPath (path : List NodeId) (n : NodeId) : List NodeId :=
  (path.drop (path.indexOf n)) ++ [n]

/-- The `for (const neighbor of neighbors)` loop body: a visiting neighbour
is a back edge (cycle), an unvisited one is recursed into (the recursive
`dfs` call is the `visit` parameter), a done one is skipped. -/
def dfsNeighbors
    (visit : NodeId → List NodeId → (NodeId → Nat) → Except VErr (NodeId → Nat)) :
    List NodeId → List NodeId → (NodeId → Nat) → Except VErr (NodeId → Nat)
  | [], _, st => .ok st
  | n :: ns', path, st =>
      if st n = 1 then .error (.cycleFound (cycleOfPath path n))
      else if st n = 0 then
        match visit n path st with
        | .error e => .error e
        | .ok st' => dfsNeighbors visit ns' path st'
      else dfsNeighbors visit ns' path st

/-- The source `dfs(nodeId, path)`: mark visiting, walk the neighbours,
mark done. -/
def dfsVisit (adj : NodeId → List NodeId) :
    Nat → NodeId → List NodeId → (NodeId → Nat) → Except VErr (NodeId → Nat)
  | 0, _, _, _ => .error .fuelOut
  | fuel' + 1, v, path, st =>
      match dfsNeighbors (fun n p s => dfsVisit adj fuel' n p s) (adj v)
          (path ++ [v]) (fun n => if n = v then 1 else st n) with
      | .error e => .error e
      | .ok st2 => .ok (fun n => if n = v then 2 else st2 n)

/-- The outer loop of the source: restart the DFS from every still-unvisited
node. -/
def validateLoop (adj : NodeId → List NodeId) (fuel : Nat) :
    List NodeId → (NodeId → Nat) → Except VErr (NodeId → Nat)
  | [], st => .ok st
  | n :: ns, st =>
      if st n = 0 then
        match dfsVisit adj fuel n [] st with
        | .error e => .error e
        | .ok st' => validateLoop adj fuel ns st'
      else validateLoop adj fuel ns st

/-- Fuel that always covers the source recursion (depth is bounded by the
number of distinct nodes). -/
def validateFuel (edges : List VisEdge) : Nat :=
  (vAllNodes edges).length + 1

/-- Source `validateNoCycles`: fail on the first self-loop while building
the adjacency, then run the three-colour DFS from every node. -/
def validateNoCycles (edges : List VisEdge) : Except VErr Unit :=
  match edges.find? (fun e => e.fromId = e.toId) with
  | some e => .error (.selfLoop e.fromId)
  | none =>
      match validateLoop (vAdj edges) (validateFuel edges) (vAllNodes edges)
          (fun _ => 0) with
      | .error e => .error e
      | .ok _ => .ok ()

/-! ### The graph-theoretic specification the validator is checked against -/

/-- The supervision relation generated by the edge list. -/
def EdgeRel (edges : List VisEdge) (u v : NodeId) : Prop :=
  ∃ e ∈ edges, e.fromId = u ∧ e.toId = v

/-- A cycle: a nonempty directed walk from some node back to itself. -/
def HasCycle (edges : List VisEdge) : Prop :=
  ∃ v, Relation.TransGen (EdgeRel edges) v v

/-- Every neighbour of a `done` (state 2) node is itself done. -/
def DoneClosed (edges : List VisEdge) (st : NodeId → Nat) : Prop :=
  ∀ x, st x = 2 → ∀ y ∈ vAdj edges x, st y = 2

/-- Count of still-unvisited ids: the measure showing `validateFuel`
suffices. -/
def zeroCount (edges : List VisEdge) (st : NodeId → Nat) : Nat :=
  ((vAllNodes edges).filter (fun x => st x = 0)).length

/-! ## hooks/useLayout.ts -/

/-- Ceiling division on naturals (`Math.ceil(nodeCount / rows)` on the
integer inputs the source feeds it). -/
def ceilDivN (n d : Nat) : Nat :=
  (n + d - 1) / d

/-- The `while (cols < rows && rows > 1)` adjustment loop of
`calculateFreeNodesGrid`. -/
def gridShrink (n : Nat) (rows cols : Nat) : Nat × Nat :=
  if cols < rows ∧ 1 < rows then gridShrink n (rows - 1) (ceilDivN n (rows - 1))
  else (cols, rows)
termination_by rows
decreasing_by omega

/-- Source `calculateFreeNodesGrid`: a square-ish grid with `cols ≥ rows`
(`Nat.sqrt` agrees with `Math.floor(Math.sqrt(n))` on these inputs).
Returns `(cols, rows)`. -/
def calculateFreeNodesGrid (nodeCount : Nat) : Nat × Nat :=
  if nodeCount = 0 then (0, 0)
  else
    let rows0 := Nat.sqrt nodeCount
    let cols0 := ceilDivN nodeCount rows0
    let p := gridShrink nodeCount rows0 cols0
    let rows1 := if p.2 < 1 then 1 else p.2
    let cols1 := if p.1 < 1 then nodeCount else p.1
    (cols1, rows1)

/-- Positions folded to a least / greatest y over a node list (`Infinity` /
`-Infinity` sentinels become `none`). -/
def foldMinY (pos : NodeId → Pt) (ns : List VisNode) : Option ℚ :=
  ns.foldl
    (fun acc n =>
      match acc with
      | none => some (pos n.id).y
      | some m => if (pos n.id).y < m then some (pos n.id).y else some m)
    none

/-- The same minimum fold at the level of the y list. -/
def foldMinQ (ys : List ℚ) : Option ℚ :=
  ys.foldl
    (fun acc y =>
      match acc with
      | none => some y
      | some m => if y < m then some y else some m)
    none

def foldMaxY (ys : List ℚ) : Option ℚ :=
  ys.foldl
    (fun acc y =>
      match acc with
      | none => some y
      | some m => if y > m then some y else some m)
    none

/-- One iteration of the `for (const rootId of rootNodeIds)` loop of the
multi-root branch: record the root's shift and override every descendant's
entry with it (later roots overwrite earlier entries, as `Map.set` does). -/
def shiftStep (ty : ℚ) (g : GraphState) (sh : NodeId → Option ℚ)
    (rootId : NodeId) : Except HErr (NodeId → Option ℚ) := do
  let yShift := ty - (g.pos rootId).y
  let ds ← getAllDescendantIds rootId g.edges
  let sh1 : NodeId → Option ℚ := fun id => if id = rootId then some yShift else sh id
  pure (ds.foldl (fun acc d => fun id => if id = d then some yShift else acc id) sh1)

/-- The `connectedUpdates` batch: keep x, shift y per node, promote
edge-based roots' `isRoot` flag.  The multi-root branch passes
`fun id => (shifts id).getD 0`, the single-branch the constant shift. -/
def connUpdates (g : GraphState) (rootIds : List NodeId)
    (connectedNodes : List VisNode) (shift : NodeId → ℚ) : List NodeUpdate :=
  connectedNodes.map (fun n =>
    NodeUpdate.mk n.id (some (g.pos n.id).x)
      (some ((g.pos n.id).y + shift n.id))
      (some (decide (n.id ∈ rootIds) || n.isRoot)) none)

/-- The `freeUpdates` batch: grid below the hierarchy, centred at `x = 0`,
row-major (`row = ⌊index / cols⌋`, `col = index % cols`). -/
def freeUpdatesOf (startY fs : ℚ) (cols : Nat) (freeNodes : List VisNode) :
    List NodeUpdate :=
  (freeNodes.enum).map (fun p =>
    NodeUpdate.mk p.2.id
      (some (-(((cols : ℚ) - 1) * fs) / 2 + ((p.1 % cols : Nat) : ℚ) * fs))
      (some (startY + ((p.1 / cols : Nat) : ℚ) * fs)) none none)

/-- Source `arrangeNodes` (the layout pass), parameterised by the canvas
target y for roots (`domToCanvasY(network, ROOT_Y_IN_TOP_BAR)`, a
camera-dependent input) and the free-grid constants.  The position store is
total, so the source's `if (pos)` / `?? 0` guards never fire; the one JS
`-Infinity` corner (several edge-based roots, none of which is a dataset
node, leaving the recomputed bottom at `-Infinity`) is pinned to the
pre-branch default instead of modelling extended reals — every claim about
the layout assumes edge endpoints are dataset nodes, which excludes it. -/
def arrangeNodes (freeTopMargin freeSpacing targetRootY : ℚ) (g : GraphState) :
    Except HErr GraphState := do
  let rootIds := getRootNodeIds g.edges
  let connected := fun (id : NodeId) => id ∈ connectedIdsList g.edges
  let freeNodes := g.nodes.filter (fun n => ¬ connected n.id ∧ n.isRoot = false)
  let connectedNodes := g.nodes.filter (fun n => connected n.id ∨ n.isRoot = true)
  if connectedNodes.isEmpty ∧ freeNodes.isEmpty then
    pure g
  else
    let hierarchyTop := (foldMinY g.pos connectedNodes).getD 0
    let hierarchyBottom :=
      (foldMaxY (connectedNodes.map (fun n => (g.pos n.id).y))).getD 0
    let branch ←
      if 1 < rootIds.length then do
        let shifts ← rootIds.foldlM (shiftStep targetRootY g) (fun _ => none)
        let newBottom :=
          (foldMaxY (connectedNodes.map (fun n =>
            (g.pos n.id).y + ((shifts n.id).getD 0)))).getD hierarchyBottom
        pure (connUpdates g rootIds connectedNodes
          (fun id => (shifts id).getD 0), newBottom)
      else
        pure (connUpdates g rootIds connectedNodes
            (fun _ => targetRootY - hierarchyTop),
          hierarchyBottom + (targetRootY - hierarchyTop))
    let freeNodesStartY := branch.2 + freeTopMargin
    let cols := (calculateFreeNodesGrid freeNodes.length).1
    pure (applyUpdates g
      (branch.1 ++ freeUpdatesOf freeNodesStartY freeSpacing cols freeNodes))

/-! ## hooks/useNodeDrag.ts — the drag interaction state machine -/

/-- The per-gesture session (`dragState.current`). -/
structure DragState where
  originalX : ℚ
  originalY : ℚ
  snappedOut : Bool
  highlightedNodeId : Option NodeId
  isOverTopBar : Bool
  subtree : Subtree
  pointerOffset : Option Pt
deriving DecidableEq, Repr

/-- Configuration constants of `config.ts` (known values:
`SNAP_OUT_THRESHOLD = 150`, `RUBBER_BAND_FACTOR = 0.15`,
`TOP_BAR_HEIGHT = 60`), plus the camera-dependent DOM-to-canvas conversion
of `utils/network.ts` abstracted as a function. -/
structure Config where
  snapOutThreshold : ℚ
  rubberBandFactor : ℚ
  topBarHeight : ℚ
  rootYInTopBar : ℚ
  levelSeparation : ℚ
  nodeSpacing : ℚ
  domToCanvasY : ℚ → ℚ

/-- The machine: shared graph state, at most one active drag session, and
the number of times the `onHierarchyChange` host notification has fired. -/
structure MachineState where
  graph : GraphState
  drag : Option DragState
  hierarchyChanges : Nat

/-- Source `setNodeHighlight` / `resetNodeHighlight`: recolour a node if it
exists (colour abstracted to the `highlighted` flag). -/
def setNodeHighlight (g : GraphState) (nodeId : NodeId) (hl : Bool) : GraphState :=
  if (g.nodes.find? (fun n => n.id = nodeId)).isSome then
    applyUpdates g [⟨nodeId, none, none, none, some hl⟩]
  else g

/-- The `updates.forEach((update, index) => ...)` descendant-x override the
source performs in `handleSnapBack` and in the rubber-band branch of
`handleConnectedDragging`: every entry after the root entry whose id has a
captured offset gets its x replaced. -/
def overrideDescX (st : Subtree) (f : Pt → ℚ) (updates : List NodeUpdate) :
    List NodeUpdate :=
  updates.enum.map (fun p =>
    if 0 < p.1 then
      match st.relOf p.2.id with
      | some rel => { p.2 with ux := some (f rel) }
      | none => p.2
    else p.2)

/-- Source `handleSnapBack`: keep the achieved x, restore the original y,
shifting descendants' x by the achieved x offset. -/
def handleSnapBack (g : GraphState) (ds : DragState) (currentX : ℚ) : GraphState :=
  let xOffset := currentX - ds.originalX
  let updates := createSubtreeMoveUpdates ds.subtree currentX ds.originalY none
  applyUpdates g
    (overrideDescX ds.subtree (fun rel => ds.originalX + rel.x + xOffset) updates)

/-- Source `handleCreateRoot`: mark the dragged node a root at its current
x, at the first existing root's y (or the canvas image of the top-bar
centre when no root exists), moving the subtree rigidly. -/
def handleCreateRoot (cfg : Config) (g : GraphState) (ds : DragState) : GraphState :=
  let existingRoots := g.nodes.filter (fun n => n.isRoot)
  let newRootX := (g.pos ds.subtree.rootId).x
  let rootY :=
    match existingRoots.head? with
    | some r => (g.pos r.id).y
    | none => cfg.domToCanvasY (cfg.topBarHeight / 2)
  applyUpdates g (createSubtreeMoveUpdates ds.subtree newRootX rootY (some true))

/-- Source `handleSnapToParent`: add the edge `parentId → dragged`, place
the dragged node one level below the parent and right of its children,
restore every non-subtree node's captured position, move the subtree
rigidly. -/
def handleSnapToParent (cfg : Config) (g : GraphState) (ds : DragState)
    (parentId : NodeId) : GraphState :=
  let parentPos := g.pos parentId
  let existingChildIds := getChildNodeIds parentId g.edges
  let newChildX :=
    if 0 < existingChildIds.length then
      findRightmostX existingChildIds g.pos + cfg.nodeSpacing
    else parentPos.x
  let g1 := { g with
    edges := g.edges ++
      [⟨parentId ++ "-" ++ ds.subtree.rootId, parentId, ds.subtree.rootId⟩] }
  let newNodeY := parentPos.y + cfg.levelSeparation
  let positionUpdates :=
    createPositionUpdates g1.nodes g.pos (getSubtreeNodeIds ds.subtree)
  let subtreeUpdates := createSubtreeMoveUpdates ds.subtree newChildX newNodeY none
  applyUpdates g1 (positionUpdates ++ subtreeUpdates)

/-- The highlight-update block of `handleFreeDragging`: reset the previous
highlight if it changed, apply the new one if it changed, atomically per
move event. -/
def updateHighlight (g : GraphState) (prev newH : Option NodeId) : GraphState :=
  let g2 :=
    match prev with
    | some p => if newH ≠ some p then setNodeHighlight g p false else g
    | none => g
  match newH with
  | some h => if some h ≠ prev then setNodeHighlight g2 h true else g2
  | none => g2

/-- Source `handleFreeDragging`: move the subtree to the offset-adjusted
pointer, pick the drop target as the first snapped node (outside the
dragged subtree) whose box overlaps the dragged node's box, update the
highlight atomically, and otherwise check the top-bar band with the box's
top edge. -/
def handleFreeDragging (ext : Extents) (cfg : Config) (g : GraphState)
    (ds : DragState) (nodeId : NodeId) (pointer : Pt) : GraphState × DragState :=
  let off := ds.pointerOffset.getD ⟨0, 0⟩
  let nodeX := pointer.x - off.x
  let nodeY := pointer.y - off.y
  let g1 := applyUpdates g (createSubtreeMoveUpdates ds.subtree nodeX nodeY none)
  let draggedBox := nodeBox ext g1.pos nodeId
  let snappedIds := getSnappedNodeIds g1.nodes g1.edges
  let subtreeIds := getSubtreeNodeIds ds.subtree
  let newHighlightedId := snappedIds.find? (fun sid =>
    sid ∉ subtreeIds ∧ boxesOverlap draggedBox (nodeBox ext g1.pos sid) = true)
  let g3 := updateHighlight g1 ds.highlightedNodeId newHighlightedId
  let ds3 := { ds with highlightedNodeId := newHighlightedId }
  match newHighlightedId with
  | some _ => (g3, { ds3 with isOverTopBar := false })
  | none =>
      let rootMinY := (findRootNodesMinY g3.nodes g3.edges g3.pos).getD 0
      let topBarBottom := rootMinY + (cfg.topBarHeight - cfg.rootYInTopBar)
      (g3, { ds3 with isOverTopBar := decide (draggedBox.top < topBarBottom) })

/-- The edge-removal statement of the detach branch: `getParentEdge` then
`edgesDataSet.remove(parentEdge.id)` when one exists. -/
def detachParentEdge (g : GraphState) (nodeId : NodeId) : GraphState :=
  match getParentEdge nodeId g.edges with
  | some pe => { g with edges := removeEdgeById g.edges pe.eid }
  | none => g

/-- The `isRoot`-clearing statement of the detach branch. -/
def clearRootFlag (g : GraphState) (nodeId : NodeId) : GraphState :=
  match g.nodes.find? (fun n => n.id = nodeId) with
  | some n =>
      if n.isRoot then applyUpdates g [⟨nodeId, none, none, some false, none⟩]
      else g
  | none => g

/-- The restore statement of the detach branch: write the captured
positions back to every node outside the subtree. -/
def restoreOutside (g : GraphState) (pos0 : NodeId → Pt) (st : Subtree) : GraphState :=
  applyUpdates g (createPositionUpdates g.nodes pos0 (getSubtreeNodeIds st))

/-- Source `handleConnectedDragging`: rubber-band within the snap-out
threshold, detach past it (remove the parent edge, clear `isRoot`, restore
non-subtree positions, go free).  The returned flag records whether the
`onHierarchyChange` notification fired. -/
def handleConnectedDragging (cfg : Config) (g : GraphState) (ds : DragState)
    (nodeId : NodeId) (pointer : Pt) : GraphState × DragState × Bool :=
  let off := ds.pointerOffset.getD ⟨0, 0⟩
  let nodeX := pointer.x - off.x
  let nodeY := pointer.y - off.y
  let yOffset := nodeY - ds.originalY
  if cfg.snapOutThreshold < |yOffset| then
    let g1 := detachParentEdge g nodeId
    let g2 := clearRootFlag g1 nodeId
    let g3 := restoreOutside g2 g.pos ds.subtree
    let g4 := applyUpdates g3 (createSubtreeMoveUpdates ds.subtree nodeX nodeY none)
    (g4, { ds with snappedOut := true }, true)
  else
    let rubberBandY := ds.originalY + yOffset * cfg.rubberBandFactor
    let xOffset := nodeX - ds.originalX
    let updates := createSubtreeMoveUpdates ds.subtree nodeX rubberBandY none
    (applyUpdates g
      (overrideDescX ds.subtree (fun rel => ds.originalX + xOffset + rel.x) updates),
     ds, false)

/-- Source `handleDragStart`: classify the node, capture its subtree, open
the session.  A throw of the defensive cycle guard aborts the handler
before the session is created, leaving the state unchanged. -/
def handleDragStart (s : MachineState) (nodeIds : List NodeId) : MachineState :=
  match nodeIds with
  | [nodeId] =>
      if nodeId = TOP_BAR_NODE_ID then s
      else
        let isFree := isNodeFree nodeId s.graph.nodes s.graph.edges
        match captureSubtree s.graph.pos s.graph.edges nodeId with
        | .error _ => s
        | .ok subtree =>
            let p := s.graph.pos nodeId
            { s with drag := some ⟨p.x, p.y, isFree, none, false, subtree, none⟩ }
  | _ => s

/-- The first-move calibration of `handleDragging`: the offset between the
pointer and the node centre, or zero when either axis exceeds
`MAX_OFFSET = 20` (the pointer then likely moved before the event fired). -/
def calibratedOffset (pointer cur : Pt) : Pt :=
  let dx := pointer.x - cur.x
  let dy := pointer.y - cur.y
  if 20 < |dx| ∨ 20 < |dy| then ⟨0, 0⟩ else ⟨dx, dy⟩

/-- Source `handleDragging`: ignore stale or multi-touch events, calibrate
`pointerOffset` on the first move (falling back to a zero offset when the
pointer is more than `MAX_OFFSET = 20` from the node centre on either
axis), then dispatch on `snappedOut`. -/
def handleDragging (ext : Extents) (cfg : Config) (s : MachineState)
    (nodeIds : List NodeId) (pointer : Pt) : MachineState :=
  match s.drag, nodeIds with
  | some ds, [nodeId] =>
      if nodeId ≠ ds.subtree.rootId then s
      else
        let ds1 :=
          match ds.pointerOffset with
          | some _ => ds
          | none =>
              { ds with pointerOffset := some (calibratedOffset pointer (s.graph.pos nodeId)) }
        if ds1.snappedOut then
          let r := handleFreeDragging ext cfg s.graph ds1 nodeId pointer
          { s with graph := r.1, drag := some r.2 }
        else
          let r := handleConnectedDragging cfg s.graph ds1 nodeId pointer
          { graph := r.1, drag := some r.2.1,
            hierarchyChanges := s.hierarchyChanges + (if r.2.2 then 1 else 0) }
  | _, _ => s

/-- Source `handleDragEnd`: reset highlights, then snap back / create a
root / attach to the highlighted target, firing the notification on the
latter two; the session is always destroyed. -/
def handleDragEnd (cfg : Config) (s : MachineState) (nodeIds : List NodeId) :
    MachineState :=
  match s.drag, nodeIds with
  | some ds, [nodeId] =>
      if nodeId ≠ ds.subtree.rootId then s
      else
        let g0 :=
          match ds.highlightedNodeId with
          | some h => setNodeHighlight s.graph h false
          | none => s.graph
        if ds.snappedOut = false then
          { graph := handleSnapBack g0 ds (g0.pos nodeId).x, drag := none,
            hierarchyChanges := s.hierarchyChanges }
        else if ds.isOverTopBar then
          { graph := handleCreateRoot cfg g0 ds, drag := none,
            hierarchyChanges := s.hierarchyChanges + 1 }
        else
          match ds.highlightedNodeId with
          | some h =>
              { graph := handleSnapToParent cfg g0 ds h, drag := none,
                hierarchyChanges := s.hierarchyChanges + 1 }
          | none => { s with drag := none }
  | _, _ => s

/-- A pointer event delivered to the machine. -/
inductive DragEvent where
  | start (nodeIds : List NodeId)
  | move (nodeIds : List NodeId) (pointer : Pt)
  | finish (nodeIds : List NodeId)
deriving DecidableEq, Repr

/-- One delivered event. -/
def step (ext : Extents) (cfg : Config) (s : MachineState) : DragEvent → MachineState
  | .start ids => handleDragStart s ids
  | .move ids p => handleDragging ext cfg s ids p
  | .finish ids => handleDragEnd cfg s ids

/-- A strictly ordered event sequence. -/
def runEvents (ext : Extents) (cfg : Config) (s : MachineState)
    (evs : List DragEvent) : MachineState :=
  evs.foldl (step ext cfg) s

/-! ## Concrete fixtures used by witnesses and counterexamples

The configuration uses the known constants (`SNAP_OUT_THRESHOLD = 150`,
`RUBBER_BAND_FACTOR = 0.15`, `TOP_BAR_HEIGHT = 60`) with plausible values
for the remaining host-tunable constants, and the identity camera
conversion. -/

def cfg0 : Config := ⟨150, 3/20, 60, 30, 100, 150, id⟩

def ext0 : Extents := ⟨fun _ => 50, fun _ => 20⟩

/-- Fixture: parent `P` with children `A` and `B`. -/
def gPAB : GraphState :=
  ⟨[⟨"P", false, false⟩, ⟨"A", false, false⟩, ⟨"B", false, false⟩],
   [⟨"pa", "P", "A"⟩, ⟨"pb", "P", "B"⟩],
   fun id => if id = "P" then ⟨0, 0⟩ else if id = "A" then ⟨-100, 100⟩ else ⟨100, 100⟩⟩

/-- Fixture: an attached, calibrated session dragging `A` (captured as a
leaf subtree) from `(-100, 100)`. -/
def dsA : DragState :=
  ⟨-100, 100, false, none, false, ⟨"A", [], []⟩, some ⟨0, 0⟩⟩

/-- Fixture: the chain `A → B → C` with known positions. -/
def pos5 : NodeId → Pt := fun id =>
  if id = "B" then ⟨3, 4⟩ else if id = "C" then ⟨5, 6⟩ else ⟨0, 0⟩

def edges5 : List VisEdge := [⟨"ab", "A", "B"⟩, ⟨"bc", "B", "C"⟩]

def st5 : Subtree := ⟨"A", ["B", "C"], [("B", ⟨3, 4⟩), ("C", ⟨5, 6⟩)]⟩

def g5 : GraphState := ⟨[], edges5, pos5⟩

/-- Fixture: a lone free node `F` at `(100, 200)`. -/
def gF : GraphState := ⟨[⟨"F", false, false⟩], [], fun _ => ⟨100, 200⟩⟩

/-- The session `dragStart` opens on `F`. -/
def dsF : DragState := ⟨100, 200, true, none, false, ⟨"F", [], []⟩, none⟩

/-- The same session after a first move calibrated the offset `(10, 5)`. -/
def dsF2 : DragState := ⟨100, 200, true, none, false, ⟨"F", [], []⟩, some ⟨10, 5⟩⟩

/-- Fixture for drop-target selection: `D` is dragged over both `A` and
`B`; `B`'s centre is nearer to the pointer, `A` comes first in insertion
order. -/
def gC10 : GraphState :=
  ⟨[⟨"P", false, false⟩, ⟨"A", false, false⟩, ⟨"B", false, false⟩, ⟨"D", false, false⟩],
   [⟨"pa", "P", "A"⟩, ⟨"pb", "P", "B"⟩],
   fun id => if id = "P" then ⟨0, -200⟩ else if id = "A" then ⟨0, 0⟩
     else if id = "B" then ⟨60, 0⟩ else ⟨300, 300⟩⟩

def dsD : DragState := ⟨300, 300, true, none, false, ⟨"D", [], []⟩, some ⟨0, 0⟩⟩

/-- The freshly opened (uncalibrated) session `dragStart` opens on `A` of
`gPAB`. -/
def dsA0 : DragState :=
  ⟨-100, 100, false, none, false, ⟨"A", [], []⟩, none⟩

/-- The same session right after the detaching move. -/
def dsA2 : DragState :=
  ⟨-100, 100, true, none, false, ⟨"A", [], []⟩, some ⟨0, 0⟩⟩

/-- Fixture for create-root: one flagged root `R` at the origin and a free
node `F` below it. -/
def g7 : GraphState :=
  ⟨[⟨"R", true, false⟩, ⟨"F", false, false⟩], [],
   fun id => if id = "F" then ⟨0, 300⟩ else ⟨0, 0⟩⟩

/-- The uncalibrated session `dragStart` opens on `F` of `g7`. -/
def ds70 : DragState :=
  ⟨0, 300, true, none, false, ⟨"F", [], []⟩, none⟩

/-- A calibrated free session on `F` of `g7` whose last move armed the root
band. -/
def ds7 : DragState :=
  ⟨0, 300, true, none, true, ⟨"F", [], []⟩, some ⟨0, 0⟩⟩

/-- The session of `ds70` right after its first move calibrates a zero
offset. -/
def ds71 : DragState :=
  ⟨0, 300, true, none, false, ⟨"F", [], []⟩, some ⟨0, 0⟩⟩

/-- The graph after the move `⟨0, -60⟩` of the C7 gesture (the rigid-move
batch of that `handleFreeDragging` call applied to `g7`). -/
def g71 : GraphState :=
  applyUpdates g7 (createSubtreeMoveUpdates ds71.subtree
    ((⟨0, -60⟩ : Pt).x - (ds71.pointerOffset.getD ⟨0, 0⟩).x)
    ((⟨0, -60⟩ : Pt).y - (ds71.pointerOffset.getD ⟨0, 0⟩).y) none)

/-- `gPAB` right after the detaching move of the C1 gesture: edge `pa`
removed, `A` at the pointer, everything else restored in place. -/
def gDet : GraphState :=
  ⟨gPAB.nodes, [⟨"pb", "P", "B"⟩],
   fun id => if id = "A" then ⟨-100, 400⟩ else gPAB.pos id⟩

/-- `gDet` after the second (free) move of the C1 gesture places `A` at the
pointer `⟨100, 100⟩`. -/
def gMove2 : GraphState :=
  applyUpdates gDet (createSubtreeMoveUpdates dsA2.subtree
    ((⟨100, 100⟩ : Pt).x - (dsA2.pointerOffset.getD ⟨0, 0⟩).x)
    ((⟨100, 100⟩ : Pt).y - (dsA2.pointerOffset.getD ⟨0, 0⟩).y) none)

/-- Layout fixture: `A → B` is one tree (its root `A` is edge-based), `E`
is an `isRoot`-flagged node with no edges — a claim-sense root the
edge-based root list misses. -/
def gC6 : GraphState :=
  ⟨[⟨"A", false, false⟩, ⟨"B", false, false⟩, ⟨"E", true, false⟩],
   [⟨"ab", "A", "B"⟩],
   fun id => if id = "A" then ⟨0, 0⟩ else if id = "B" then ⟨0, 100⟩
     else ⟨0, -50⟩⟩

/-- Layout fixture: two separate trees `R1 → C` and `R2 → D` whose roots
start at different heights. -/
def gC6w : GraphState :=
  ⟨[⟨"R1", false, false⟩, ⟨"C", false, false⟩, ⟨"R2", false, false⟩,
    ⟨"D", false, false⟩],
   [⟨"rc", "R1", "C"⟩, ⟨"rd", "R2", "D"⟩],
   fun id => if id = "R1" then ⟨0, 10⟩ else if id = "C" then ⟨0, 110⟩
     else if id = "R2" then ⟨50, 30⟩ else ⟨50, 130⟩⟩

/-! ## Basic algebra of update batches -/

theorem applyUpdates_nil (g : GraphState) : applyUpdates g [] = g := rfl

theorem applyUpdates_cons (g : GraphState) (u : NodeUpdate) (us : List NodeUpdate) :
    applyUpdates g (u :: us) = applyUpdates (applyUpdate g u) us := rfl

theorem applyUpdates_append (g : GraphState) (us vs : List NodeUpdate) :
    applyUpdates g (us ++ vs) = applyUpdates (applyUpdates g us) vs :=
  List.foldl_append ..

theorem applyUpdate_edges (g : GraphState) (u : NodeUpdate) :
    (applyUpdate g u).edges = g.edges := rfl

theorem applyUpdates_edges (g : GraphState) (us : List NodeUpdate) :
    (applyUpdates g us).edges = g.edges := by
  induction us generalizing g with
  | nil => rfl
  | cons u us ih => rw [applyUpdates_cons, ih, applyUpdate_edges]

theorem applyUpdate_pos (g : GraphState) (u : NodeUpdate) (i : NodeId) :
    (applyUpdate g u).pos i =
      if i = u.id then ⟨u.ux.getD (g.pos i).x, u.uy.getD (g.pos i).y⟩
      else g.pos i := rfl

/-- Positions of ids no update targets are untouched. -/
theorem applyUpdates_pos_frame (g : GraphState) (us : List NodeUpdate) (i : NodeId)
    (h : ∀ u ∈ us, u.id ≠ i) : (applyUpdates g us).pos i = g.pos i := by
  induction us generalizing g with
  | nil => rfl
  | cons u us ih =>
      rw [applyUpdates_cons, ih _ (fun v hv => h v (List.mem_cons_of_mem _ hv)),
        applyUpdate_pos]
      simp [(h u (List.mem_cons_self ..)).symm]

/-- A batch whose every item writes back the coordinates the store already
holds leaves every position unchanged. -/
theorem applyUpdates_pos_writeSame (g : GraphState) (us : List NodeUpdate)
    (h : ∀ u ∈ us,
      (⟨u.ux.getD (g.pos u.id).x, u.uy.getD (g.pos u.id).y⟩ : Pt) = g.pos u.id) :
    ∀ i, (applyUpdates g us).pos i = g.pos i := by
  induction us generalizing g with
  | nil => intro i; rfl
  | cons u us ih =>
      intro i
      have hpos : (applyUpdate g u).pos = g.pos := by
        funext j
        rw [applyUpdate_pos]
        split
        · next hj => subst hj; exact h u (List.mem_cons_self ..)
        · rfl
      rw [applyUpdates_cons]
      rw [ih (applyUpdate g u) (by rw [hpos]; exact fun v hv => h v (List.mem_cons_of_mem _ hv)), hpos]

/-- The position of an id is decided by the last update targeting it, when
that update carries both coordinates. -/
theorem applyUpdates_pos_lastWrite (g : GraphState) (l1 l2 : List NodeUpdate)
    (u : NodeUpdate) (x y : ℚ) (hx : u.ux = some x) (hy : u.uy = some y)
    (h2 : ∀ v ∈ l2, v.id ≠ u.id) :
    (applyUpdates g (l1 ++ u :: l2)).pos u.id = ⟨x, y⟩ := by
  rw [applyUpdates_append, applyUpdates_cons,
    applyUpdates_pos_frame _ _ _ h2, applyUpdate_pos]
  simp [hx, hy]

/-- The node-list patch an update performs when its target exists. -/
def patchNode (u : NodeUpdate) (n : VisNode) : VisNode :=
  if n.id = u.id then
    { n with isRoot := u.uIsRoot.getD n.isRoot,
             highlighted := u.uHighlighted.getD n.highlighted }
  else n

theorem applyUpdate_nodes_of_mem (g : GraphState) (u : NodeUpdate)
    (h : g.nodes.any (fun n => n.id = u.id)) :
    (applyUpdate g u).nodes = g.nodes.map (patchNode u) := by
  simp only [applyUpdate, h, if_true]
  rfl

theorem applyUpdate_nodes_of_notMem (g : GraphState) (u : NodeUpdate)
    (h : ¬ g.nodes.any (fun n => n.id = u.id)) :
    (applyUpdate g u).nodes =
      g.nodes ++ [⟨u.id, u.uIsRoot.getD false, u.uHighlighted.getD false⟩] := by
  simp [applyUpdate, h]

/-- An update with no flag fields leaves the node records unchanged when its
target exists. -/
theorem applyUpdate_nodes_flagFree (g : GraphState) (u : NodeUpdate)
    (hmem : g.nodes.any (fun n => n.id = u.id))
    (hr : u.uIsRoot = none) (hh : u.uHighlighted = none) :
    (applyUpdate g u).nodes = g.nodes := by
  rw [applyUpdate_nodes_of_mem _ _ hmem]
  have hpn : patchNode u = id := by
    funext n
    simp [patchNode, hr, hh]
  rw [hpn, List.map_id]

/-- Ids present in the node list. -/
def nodeIds (g : GraphState) : List NodeId :=
  g.nodes.map (fun n => n.id)

theorem any_id_of_mem_nodeIds {g : GraphState} {i : NodeId} (h : i ∈ nodeIds g) :
    g.nodes.any (fun n => n.id = i) := by
  rcases List.mem_map.mp h with ⟨n, hn, hid⟩
  exact List.any_eq_true.mpr ⟨n, hn, by simp [hid]⟩

/-- A flag-free batch whose targets all exist leaves the node records
unchanged. -/
theorem applyUpdates_nodes_flagFree (g : GraphState) (us : List NodeUpdate)
    (hmem : ∀ u ∈ us, u.id ∈ nodeIds g)
    (hfr : ∀ u ∈ us, u.uIsRoot = none ∧ u.uHighlighted = none) :
    (applyUpdates g us).nodes = g.nodes := by
  induction us generalizing g with
  | nil => rfl
  | cons u us ih =>
      rw [applyUpdates_cons]
      have h1 : (applyUpdate g u).nodes = g.nodes :=
        applyUpdate_nodes_flagFree g u
          (any_id_of_mem_nodeIds (hmem u (List.mem_cons_self ..)))
          (hfr u (List.mem_cons_self ..)).1 (hfr u (List.mem_cons_self ..)).2
      rw [ih (applyUpdate g u)
        (by rw [show nodeIds (applyUpdate g u) = nodeIds g from by
              unfold nodeIds; rw [h1]]
            exact fun v hv => hmem v (List.mem_cons_of_mem _ hv))
        (fun v hv => hfr v (List.mem_cons_of_mem _ hv)), h1]

/-! ## Facts about the breadth-first descendant walk -/

theorem visitChildren_ok_spec (cs : List NodeId) :
    ∀ visited visited1, visitChildren visited cs = .ok visited1 →
      visited1 = visited ++ cs ∧ (∀ c ∈ cs, c ∉ visited) ∧ cs.Nodup := by
  induction cs with
  | nil =>
      intro visited visited1 h
      simp only [visitChildren] at h
      cases h
      simp
  | cons c cs ih =>
      intro visited visited1 h
      simp only [visitChildren] at h
      split at h
      · cases h
      · next hc =>
          obtain ⟨h1, h2, h3⟩ := ih (visited ++ [c]) visited1 h
          refine ⟨by simp [h1], ?_, ?_⟩
          · intro d hd
            rcases List.mem_cons.mp hd with rfl | hd'
            · exact hc
            · intro hdv
              exact h2 d hd' (by simp [hdv])
          · refine List.nodup_cons.mpr ⟨?_, h3⟩
            intro hcc
            exact h2 c hcc (by simp)

/-- Every id a BFS step emits is the target of some edge. -/
theorem mem_getChildNodeIds_target {edges : List VisEdge} {p c : NodeId}
    (h : c ∈ getChildNodeIds p edges) : ∃ e ∈ edges, e.toId = c := by
  rcases List.mem_map.mp h with ⟨e, he, rfl⟩
  exact ⟨e, List.mem_of_mem_filter he, rfl⟩

theorem bfsDesc_ok_spec (edges : List VisEdge) :
    ∀ fuel visited queue ds, bfsDesc edges fuel visited queue = .ok ds →
      visited.Nodup →
      (visited ++ ds).Nodup ∧ (∀ d ∈ ds, ∃ e ∈ edges, e.toId = d) := by
  intro fuel
  induction fuel with
  | zero =>
      intro visited queue ds h hnd
      cases queue with
      | nil => simp only [bfsDesc] at h; cases h; simpa using hnd
      | cons a q => simp only [bfsDesc] at h; exact absurd h (by simp)
  | succ fuel ih =>
      intro visited queue ds h hnd
      cases queue with
      | nil => simp only [bfsDesc] at h; cases h; simpa using hnd
      | cons currentId queue =>
          simp only [bfsDesc] at h
          split at h
          · cases h
          · next visited1 hvc =>
              split at h
              · cases h
              · next rest hrest =>
                  cases h
                  obtain ⟨hv1, hfresh, hndc⟩ := visitChildren_ok_spec _ _ _ hvc
                  have hnd1 : visited1.Nodup := by
                    rw [hv1]
                    refine List.Nodup.append hnd hndc ?_
                    intro a ha hac
                    exact hfresh a hac ha
                  obtain ⟨hndr, htgt⟩ := ih visited1 _ rest hrest hnd1
                  constructor
                  · have : visited ++ getChildNodeIds currentId edges ++ rest = visited1 ++ rest := by
                      rw [hv1]
                    rw [← List.append_assoc, this]
                    exact hndr
                  · intro d hd
                    rcases List.mem_append.mp hd with hd1 | hd2
                    · exact mem_getChildNodeIds_target hd1
                    · exact htgt d hd2

/-- A successful capture yields distinct ids: the root plus pairwise
distinct descendants, the root among none of them. -/
theorem captureSubtree_nodup {pos : NodeId → Pt} {edges : List VisEdge}
    {nodeId : NodeId} {st : Subtree}
    (h : captureSubtree pos edges nodeId = .ok st) :
    st.rootId = nodeId ∧ (st.rootId :: st.descendantIds).Nodup ∧
      st.rel = st.descendantIds.map (fun id =>
        (id, Pt.mk ((pos id).x - (pos nodeId).x) ((pos id).y - (pos nodeId).y))) := by
  unfold captureSubtree at h
  cases hds : getAllDescendantIds nodeId edges with
  | error e => rw [hds] at h; cases h
  | ok ds =>
      rw [hds] at h
      simp only [Except.bind, bind, pure, Except.pure] at h
      cases h
      have := bfsDesc_ok_spec edges (descFuel edges) [nodeId] [nodeId] ds hds (by simp)
      exact ⟨rfl, by simpa using this.1, rfl⟩

/-! ## Lemmas about captured offsets -/

/-- On a mapped assoc list, lookup returns the mapped value. -/
theorem find_map_assoc (f : NodeId → Pt) (ds : List NodeId) (id : NodeId)
    (h : id ∈ ds) :
    ((ds.map (fun i => (i, f i))).find? (fun p => p.1 = id)).map (fun p => p.2) =
      some (f id) := by
  induction ds with
  | nil => cases h
  | cons a t ih =>
      by_cases ha : a = id
      · subst ha
        simp [List.find?]
      · rcases List.mem_cons.mp h with rfl | ht
        · exact absurd rfl ha
        · simp only [List.map_cons, List.find?]
          rw [show (decide ((a, f a).1 = id)) = false by simpa using ha]
          exact ih ht

/-- A filterMap by an everywhere-some function is a map. -/
theorem filterMap_eq_map_of_some {α β : Type} (f : α → Option β) (g : α → β)
    (l : List α) (h : ∀ a ∈ l, f a = some (g a)) :
    l.filterMap f = l.map g := by
  induction l with
  | nil => rfl
  | cons a t ih =>
      rw [List.filterMap_cons, h a (List.mem_cons_self ..), List.map_cons,
        ih (fun b hb => h b (List.mem_cons_of_mem _ hb))]

/-- C5.  For every subtree snapshot produced by `captureSubtree` and every
target `(newX, newY)`, the rigid-move updates place the snapshot's root
exactly at `(newX, newY)` and every descendant with captured offset
`(dx, dy)` exactly at `(newX + dx, newY + dy)`; consequently, after
applying the updates to any state, every descendant's position minus the
root's position equals the captured offset (the position difference at
capture time), for translations of any magnitude. -/
theorem C5_rigid_subtree_move (pos : NodeId → Pt) (edges : List VisEdge)
    (nodeId : NodeId) (st : Subtree) (newX newY : ℚ) (rp : Option Bool)
    (g : GraphState) (hcap : captureSubtree pos edges nodeId = .ok st) :
    let g' := applyUpdates g (createSubtreeMoveUpdates st newX newY rp)
    g'.pos st.rootId = ⟨newX, newY⟩ ∧
    (∀ id d, id ∈ st.descendantIds → st.relOf id = some d →
      g'.pos id = ⟨newX + d.x, newY + d.y⟩) ∧
    (∀ id, id ∈ st.descendantIds →
      (g'.pos id).x - (g'.pos st.rootId).x = (pos id).x - (pos nodeId).x ∧
      (g'.pos id).y - (g'.pos st.rootId).y = (pos id).y - (pos nodeId).y) := by
  intro g'
  obtain ⟨hroot, hnd, hrel⟩ := captureSubtree_nodup hcap
  have hndt : st.descendantIds.Nodup := (List.nodup_cons.mp hnd).2
  have hrootmem : st.rootId ∉ st.descendantIds := (List.nodup_cons.mp hnd).1
  set δ : NodeId → Pt := fun id =>
    Pt.mk ((pos id).x - (pos nodeId).x) ((pos id).y - (pos nodeId).y) with hδ
  have hrelOf : ∀ id ∈ st.descendantIds, st.relOf id = some (δ id) := by
    intro id hid
    unfold Subtree.relOf
    rw [hrel]
    exact find_map_assoc δ st.descendantIds id hid
  have hupds : createSubtreeMoveUpdates st newX newY rp =
      ⟨st.rootId, some newX, some newY, rp, none⟩ ::
        st.descendantIds.map (fun id =>
          NodeUpdate.mk id (some (newX + (δ id).x)) (some (newY + (δ id).y)) none none) := by
    unfold createSubtreeMoveUpdates
    congr 1
    refine filterMap_eq_map_of_some _ _ _ ?_
    intro id hid
    rw [hrelOf id hid]
    rfl
  have hrootpos : g'.pos st.rootId = ⟨newX, newY⟩ := by
    show (applyUpdates g _).pos st.rootId = _
    rw [hupds]
    have := applyUpdates_pos_lastWrite g []
      (st.descendantIds.map (fun id =>
        NodeUpdate.mk id (some (newX + (δ id).x)) (some (newY + (δ id).y)) none none))
      ⟨st.rootId, some newX, some newY, rp, none⟩ newX newY rfl rfl ?_
    · simpa using this
    · intro v hv
      rcases List.mem_map.mp hv with ⟨i, hi, rfl⟩
      show i ≠ st.rootId
      exact fun hc => hrootmem (hc ▸ hi)
  have hdescpos : ∀ id ∈ st.descendantIds, g'.pos id = ⟨newX + (δ id).x, newY + (δ id).y⟩ := by
    intro id hid
    obtain ⟨p, q, hpq⟩ := List.append_of_mem hid
    have hidq : id ∉ q := by
      have hsub : (id :: q).Sublist (p ++ id :: q) := List.sublist_append_right _ _
      have hnd2 : (id :: q).Nodup := List.Nodup.sublist hsub (hpq ▸ hndt)
      exact (List.nodup_cons.mp hnd2).1
    show (applyUpdates g _).pos id = _
    rw [hupds, hpq]
    rw [List.map_append, List.map_cons]
    have := applyUpdates_pos_lastWrite g
      (⟨st.rootId, some newX, some newY, rp, none⟩ ::
        p.map (fun i => NodeUpdate.mk i (some (newX + (δ i).x)) (some (newY + (δ i).y)) none none))
      (q.map (fun i => NodeUpdate.mk i (some (newX + (δ i).x)) (some (newY + (δ i).y)) none none))
      (NodeUpdate.mk id (some (newX + (δ id).x)) (some (newY + (δ id).y)) none none)
      (newX + (δ id).x) (newY + (δ id).y) rfl rfl ?_
    · simpa using this
    · intro v hv
      rcases List.mem_map.mp hv with ⟨i, hi, rfl⟩
      show i ≠ id
      exact fun hc => hidq (hc ▸ hi)
  refine ⟨hrootpos, ?_, ?_⟩
  · intro id d hid hd
    rw [hrelOf id hid] at hd
    cases hd
    exact hdescpos id hid
  · intro id hid
    rw [hdescpos id hid, hrootpos]
    constructor <;> simp [hδ]

/-! ## Shapes of the drag update batches -/

theorem applyUpdate_pos_of_noCoords (g : GraphState) (u : NodeUpdate)
    (hx : u.ux = none) (hy : u.uy = none) (i : NodeId) :
    (applyUpdate g u).pos i = g.pos i := by
  rw [applyUpdate_pos]
  split
  · simp [hx, hy]
  · rfl

theorem setNodeHighlight_pos (g : GraphState) (i : NodeId) (b : Bool) (j : NodeId) :
    (setNodeHighlight g i b).pos j = g.pos j := by
  unfold setNodeHighlight
  split
  · exact applyUpdate_pos_of_noCoords g _ rfl rfl j
  · rfl

theorem setNodeHighlight_edges (g : GraphState) (i : NodeId) (b : Bool) :
    (setNodeHighlight g i b).edges = g.edges := by
  unfold setNodeHighlight
  split
  · rfl
  · rfl

theorem updateHighlight_pos (g : GraphState) (prev newH : Option NodeId)
    (j : NodeId) : (updateHighlight g prev newH).pos j = g.pos j := by
  unfold updateHighlight
  cases prev <;> cases newH <;>
    · dsimp only
      repeat' split
      all_goals simp [setNodeHighlight_pos]

theorem updateHighlight_edges (g : GraphState) (prev newH : Option NodeId) :
    (updateHighlight g prev newH).edges = g.edges := by
  unfold updateHighlight
  cases prev <;> cases newH <;>
    · dsimp only
      repeat' split
      all_goals simp [setNodeHighlight_edges]

theorem enumFrom_map_highIdx {α : Type} (h : α → α) :
    ∀ (us : List α) (n : Nat),
      ((List.enumFrom (n + 1) us).map
        (fun p => if 0 < p.1 then h p.2 else p.2)) = us.map h := by
  intro us
  induction us with
  | nil => intro n; rfl
  | cons a t ih =>
      intro n
      simp only [List.enumFrom, List.map_cons]
      rw [if_pos (Nat.succ_pos n), ih (n + 1)]

/-- An override batch keeps the root entry and rewrites only the tail. -/
theorem overrideDescX_cons (st : Subtree) (f : Pt → ℚ) (u0 : NodeUpdate)
    (us : List NodeUpdate) :
    overrideDescX st f (u0 :: us) = u0 ::
      us.map (fun u =>
        match st.relOf u.id with
        | some rel => { u with ux := some (f rel) }
        | none => u) := by
  unfold overrideDescX
  show ((List.enumFrom 0 (u0 :: us)).map _) = _
  simp only [List.enumFrom, List.map_cons]
  rw [if_neg (by omega)]
  congr 1
  exact enumFrom_map_highIdx
    (fun u =>
      match st.relOf u.id with
      | some rel => { u with ux := some (f rel) }
      | none => u) us 0

/-- Characterisation of the rigid-move batch when every descendant has a
captured offset. -/
theorem createSubtreeMoveUpdates_eq_map (st : Subtree) (δ : NodeId → Pt)
    (hrelOf : ∀ id ∈ st.descendantIds, st.relOf id = some (δ id))
    (newX newY : ℚ) (rp : Option Bool) :
    createSubtreeMoveUpdates st newX newY rp =
      ⟨st.rootId, some newX, some newY, rp, none⟩ ::
        st.descendantIds.map (fun id =>
          NodeUpdate.mk id (some (newX + (δ id).x)) (some (newY + (δ id).y)) none none) := by
  unfold createSubtreeMoveUpdates
  congr 1
  refine filterMap_eq_map_of_some _ _ _ ?_
  intro id hid
  rw [hrelOf id hid]
  rfl

/-- Characterisation of the overridden batch. -/
theorem overrideDescX_createSubtree (st : Subtree) (δ : NodeId → Pt)
    (hrelOf : ∀ id ∈ st.descendantIds, st.relOf id = some (δ id))
    (newX newY : ℚ) (rp : Option Bool) (f : Pt → ℚ) :
    overrideDescX st f (createSubtreeMoveUpdates st newX newY rp) =
      ⟨st.rootId, some newX, some newY, rp, none⟩ ::
        st.descendantIds.map (fun id =>
          NodeUpdate.mk id (some (f (δ id))) (some (newY + (δ id).y)) none none) := by
  rw [createSubtreeMoveUpdates_eq_map st δ hrelOf, overrideDescX_cons, List.map_map]
  congr 1
  refine List.map_congr_left ?_
  intro id hid
  simp only [Function.comp_apply, hrelOf id hid]

/-- Every rigid-move update targets a subtree member. -/
theorem mem_createSubtreeMoveUpdates_ids (st : Subtree) (newX newY : ℚ)
    (rp : Option Bool) (u : NodeUpdate)
    (h : u ∈ createSubtreeMoveUpdates st newX newY rp) :
    u.id ∈ getSubtreeNodeIds st := by
  unfold createSubtreeMoveUpdates at h
  rcases List.mem_cons.mp h with rfl | htail
  · exact List.mem_cons_self ..
  · rcases List.mem_filterMap.mp htail with ⟨id, hid, hu⟩
    cases hrel : st.relOf id with
    | none => rw [hrel] at hu; cases hu
    | some d =>
        rw [hrel] at hu
        cases hu
        exact List.mem_cons_of_mem _ hid

/-- The override only rewrites x fields: ids are unchanged positionally. -/
theorem overrideDescX_ids (st : Subtree) (f : Pt → ℚ) (us : List NodeUpdate) :
    (overrideDescX st f us).map (fun u => u.id) = us.map (fun u => u.id) := by
  cases us with
  | nil => rfl
  | cons u0 t =>
      rw [overrideDescX_cons, List.map_cons, List.map_cons, List.map_map]
      congr 1
      refine List.map_congr_left ?_
      intro u _
      simp only [Function.comp_apply]
      cases st.relOf u.id <;> rfl

theorem mem_overrideDescX_ids (st : Subtree) (f : Pt → ℚ) (us : List NodeUpdate)
    (u : NodeUpdate) (h : u ∈ overrideDescX st f us) :
    ∃ v ∈ us, u.id = v.id := by
  have : u.id ∈ (overrideDescX st f us).map (fun u => u.id) :=
    List.mem_map_of_mem _ h
  rw [overrideDescX_ids] at this
  rcases List.mem_map.mp this with ⟨v, hv, hid⟩
  exact ⟨v, hv, hid.symm⟩

/-- Every restore update: an existing non-excluded node, written back at its
captured coordinates, with no flag fields. -/
theorem mem_createPositionUpdates (nodes : List VisNode) (pos : NodeId → Pt)
    (excl : List NodeId) (u : NodeUpdate) (h : u ∈ createPositionUpdates nodes pos excl) :
    ∃ n ∈ nodes, n.id ∉ excl ∧
      u = ⟨n.id, some (pos n.id).x, some (pos n.id).y, none, none⟩ := by
  unfold createPositionUpdates at h
  rcases List.mem_map.mp h with ⟨n, hn, rfl⟩
  exact ⟨n, List.mem_of_mem_filter hn, by simpa using (List.mem_filter.mp hn).2, rfl⟩

theorem createSubtreeMoveUpdates_flags (st : Subtree) (newX newY : ℚ)
    (u : NodeUpdate) (h : u ∈ createSubtreeMoveUpdates st newX newY none) :
    u.uIsRoot = none ∧ u.uHighlighted = none := by
  unfold createSubtreeMoveUpdates at h
  rcases List.mem_cons.mp h with rfl | htail
  · exact ⟨rfl, rfl⟩
  · rcases List.mem_filterMap.mp htail with ⟨id, _, hu⟩
    cases hrel : st.relOf id with
    | none => rw [hrel] at hu; cases hu
    | some d => rw [hrel] at hu; cases hu; exact ⟨rfl, rfl⟩

/-! ## Uniqueness helpers for dataset node lists -/

theorem patchNode_id (u : NodeUpdate) (n : VisNode) : (patchNode u n).id = n.id := by
  unfold patchNode
  split <;> rfl

theorem find_unique_of_nodup {nodes : List VisNode} {i : NodeId} {n : VisNode}
    (hnd : (nodes.map (fun m => m.id)).Nodup)
    (hfind : nodes.find? (fun m => m.id = i) = some n) :
    ∀ m ∈ nodes, m.id = i → m = n := by
  induction nodes with
  | nil => intro m hm; cases hm
  | cons a t ih =>
      intro m hm hmi
      by_cases ha : a.id = i
      · rw [List.find?_cons_of_pos _ (by simpa using ha)] at hfind
        cases hfind
        rcases List.mem_cons.mp hm with rfl | hmt
        · rfl
        · exfalso
          have hmem : m.id ∈ t.map (fun m => m.id) := List.mem_map_of_mem _ hmt
          rw [hmi, ← ha] at hmem
          exact (List.nodup_cons.mp (by simpa using hnd)).1 hmem
      · rw [List.find?_cons_of_neg _ (by simpa using ha)] at hfind
        rcases List.mem_cons.mp hm with rfl | hmt
        · exact absurd hmi ha
        · exact ih (List.nodup_cons.mp (by simpa using hnd)).2 hfind m hmt hmi

/-- Flag-free batches preserve the property that every node carrying a
given id has `isRoot = false` (appended nodes default to `false`). -/
theorem applyUpdates_isRootFalse_invariant (g : GraphState) (us : List NodeUpdate)
    (i : NodeId) (hus : ∀ u ∈ us, u.uIsRoot = none)
    (h : ∀ n ∈ g.nodes, n.id = i → n.isRoot = false) :
    ∀ n ∈ (applyUpdates g us).nodes, n.id = i → n.isRoot = false := by
  induction us generalizing g with
  | nil => exact h
  | cons u us ih =>
      rw [applyUpdates_cons]
      refine ih (applyUpdate g u) (fun v hv => hus v (List.mem_cons_of_mem _ hv)) ?_
      intro n hn hni
      by_cases hmem : g.nodes.any (fun m => m.id = u.id)
      · rw [applyUpdate_nodes_of_mem _ _ hmem] at hn
        rcases List.mem_map.mp hn with ⟨m, hm, rfl⟩
        have hmi : m.id = i := by rw [← patchNode_id u m]; exact hni
        have hmr : m.isRoot = false := h m hm hmi
        unfold patchNode
        split
        · rw [hus u (List.mem_cons_self ..)]
          simpa using hmr
        · exact hmr
      · rw [applyUpdate_nodes_of_notMem _ _ hmem] at hn
        rcases List.mem_append.mp hn with hg | hnew
        · exact h n hg hni
        · rw [List.mem_singleton.mp hnew, hus u (List.mem_cons_self ..)]
          rfl

/-! ## Effects of the move handlers -/

theorem handleFreeDragging_pos_frame (ext : Extents) (cfg : Config) (g : GraphState)
    (ds : DragState) (nodeId : NodeId) (ptr : Pt) (id : NodeId)
    (hid : id ∉ getSubtreeNodeIds ds.subtree) :
    (handleFreeDragging ext cfg g ds nodeId ptr).1.pos id = g.pos id := by
  have hbatch : ∀ (gb : GraphState) (nx ny : ℚ),
      (applyUpdates gb (createSubtreeMoveUpdates ds.subtree nx ny none)).pos id = gb.pos id := by
    intro gb nx ny
    refine applyUpdates_pos_frame _ _ _ ?_
    intro u hu hc
    exact hid (hc ▸ mem_createSubtreeMoveUpdates_ids _ _ _ _ _ hu)
  simp only [handleFreeDragging]
  repeat' split
  all_goals simp [updateHighlight_pos, hbatch]

theorem handleFreeDragging_edges (ext : Extents) (cfg : Config) (g : GraphState)
    (ds : DragState) (nodeId : NodeId) (ptr : Pt) :
    (handleFreeDragging ext cfg g ds nodeId ptr).1.edges = g.edges := by
  simp only [handleFreeDragging]
  repeat' split
  all_goals simp [updateHighlight_edges, applyUpdates_edges]

theorem handleFreeDragging_session (ext : Extents) (cfg : Config) (g : GraphState)
    (ds : DragState) (nodeId : NodeId) (ptr : Pt) :
    let r := handleFreeDragging ext cfg g ds nodeId ptr
    r.2.snappedOut = ds.snappedOut ∧ r.2.subtree = ds.subtree ∧
      r.2.originalX = ds.originalX ∧ r.2.originalY = ds.originalY ∧
      r.2.pointerOffset = ds.pointerOffset := by
  simp only [handleFreeDragging]
  repeat' split
  all_goals simp

theorem detachParentEdge_pos (g : GraphState) (nodeId : NodeId) (i : NodeId) :
    (detachParentEdge g nodeId).pos i = g.pos i := by
  unfold detachParentEdge
  split <;> rfl

theorem detachParentEdge_nodes (g : GraphState) (nodeId : NodeId) :
    (detachParentEdge g nodeId).nodes = g.nodes := by
  unfold detachParentEdge
  split <;> rfl

theorem clearRootFlag_pos (g : GraphState) (nodeId : NodeId) (i : NodeId) :
    (clearRootFlag g nodeId).pos i = g.pos i := by
  unfold clearRootFlag
  split
  · split
    · rw [show applyUpdates g [⟨nodeId, none, none, some false, none⟩] =
          applyUpdate g ⟨nodeId, none, none, some false, none⟩ from rfl]
      exact applyUpdate_pos_of_noCoords g _ rfl rfl i
    · rfl
  · rfl

theorem clearRootFlag_edges (g : GraphState) (nodeId : NodeId) :
    (clearRootFlag g nodeId).edges = g.edges := by
  unfold clearRootFlag
  split
  · split
    · exact applyUpdates_edges ..
    · rfl
  · rfl

/-- If the current positions agree with the captured ones, the restore
statement changes nothing. -/
theorem restoreOutside_pos (g : GraphState) (pos0 : NodeId → Pt) (st : Subtree)
    (hagree : ∀ i, g.pos i = pos0 i) :
    ∀ i, (restoreOutside g pos0 st).pos i = g.pos i := by
  intro i
  unfold restoreOutside
  refine applyUpdates_pos_writeSame _ _ ?_ i
  intro u hu
  rcases mem_createPositionUpdates _ _ _ _ hu with ⟨n, _, _, rfl⟩
  simp [hagree n.id]

theorem restoreOutside_edges (g : GraphState) (pos0 : NodeId → Pt) (st : Subtree) :
    (restoreOutside g pos0 st).edges = g.edges :=
  applyUpdates_edges ..

theorem handleConnectedDragging_pos_frame (cfg : Config) (g : GraphState)
    (ds : DragState) (nodeId : NodeId) (ptr : Pt) (id : NodeId)
    (hid : id ∉ getSubtreeNodeIds ds.subtree) :
    (handleConnectedDragging cfg g ds nodeId ptr).1.pos id = g.pos id := by
  have hbatch : ∀ (gb : GraphState) (nx ny : ℚ),
      (applyUpdates gb (createSubtreeMoveUpdates ds.subtree nx ny none)).pos id = gb.pos id := by
    intro gb nx ny
    refine applyUpdates_pos_frame _ _ _ ?_
    intro u hu hc
    exact hid (hc ▸ mem_createSubtreeMoveUpdates_ids _ _ _ _ _ hu)
  have hover : ∀ (gb : GraphState) (f : Pt → ℚ) (nx ny : ℚ),
      (applyUpdates gb (overrideDescX ds.subtree f
        (createSubtreeMoveUpdates ds.subtree nx ny none))).pos id = gb.pos id := by
    intro gb f nx ny
    refine applyUpdates_pos_frame _ _ _ ?_
    intro u hu hc
    rcases mem_overrideDescX_ids _ _ _ _ hu with ⟨v, hv, hvid⟩
    exact hid ((hvid ▸ hc) ▸ mem_createSubtreeMoveUpdates_ids _ _ _ _ _ hv)
  simp only [handleConnectedDragging]
  split
  · rw [hbatch]
    have h2 : ∀ i, (clearRootFlag (detachParentEdge g nodeId) nodeId).pos i = g.pos i := by
      intro i
      rw [clearRootFlag_pos, detachParentEdge_pos]
    rw [restoreOutside_pos _ _ _ h2]
    exact h2 id
  · exact hover g _ _ _

/-- Root position after an overridden rigid-move batch: the override leaves
the root entry alone, and no descendant entry shadows it. -/
theorem applyUpdates_overrideDescX_rootPos (g : GraphState) (st : Subtree)
    (f : Pt → ℚ) (newX newY : ℚ) (rp : Option Bool)
    (hroot : st.rootId ∉ st.descendantIds) :
    (applyUpdates g (overrideDescX st f
      (createSubtreeMoveUpdates st newX newY rp))).pos st.rootId = ⟨newX, newY⟩ := by
  unfold createSubtreeMoveUpdates
  rw [overrideDescX_cons]
  refine applyUpdates_pos_lastWrite g [] _ _ newX newY rfl rfl ?_
  intro v hv
  rcases List.mem_map.mp hv with ⟨u, hu, rfl⟩
  rcases List.mem_filterMap.mp hu with ⟨did, hdid, hu2⟩
  cases hrel : st.relOf did with
  | none => rw [hrel] at hu2; cases hu2
  | some d =>
      rw [hrel] at hu2
      cases hu2
      intro hc
      apply hroot
      have hdr : did = st.rootId := by
        have hid : ∀ w : NodeUpdate, (match st.relOf w.id with
            | some rel => { w with ux := some (f rel) }
            | none => w).id = w.id := by
          intro w
          cases st.relOf w.id <;> rfl
        rw [hid] at hc
        exact hc
      exact hdr ▸ hdid

/-- The rubber-band branch, as an equation. -/
theorem handleConnectedDragging_eq_rubber (cfg : Config) (g : GraphState)
    (ds : DragState) (nodeId : NodeId) (ptr : Pt)
    (hin : ¬ cfg.snapOutThreshold <
      |ptr.y - (ds.pointerOffset.getD ⟨0, 0⟩).y - ds.originalY|) :
    handleConnectedDragging cfg g ds nodeId ptr =
      (applyUpdates g (overrideDescX ds.subtree
        (fun rel => ds.originalX +
          (ptr.x - (ds.pointerOffset.getD ⟨0, 0⟩).x - ds.originalX) + rel.x)
        (createSubtreeMoveUpdates ds.subtree
          (ptr.x - (ds.pointerOffset.getD ⟨0, 0⟩).x)
          (ds.originalY + (ptr.y - (ds.pointerOffset.getD ⟨0, 0⟩).y - ds.originalY) *
            cfg.rubberBandFactor) none)),
       ds, false) := by
  simp only [handleConnectedDragging, if_neg hin]

/-- The detach branch, as an equation. -/
theorem handleConnectedDragging_eq_detach (cfg : Config) (g : GraphState)
    (ds : DragState) (nodeId : NodeId) (ptr : Pt)
    (hout : cfg.snapOutThreshold <
      |ptr.y - (ds.pointerOffset.getD ⟨0, 0⟩).y - ds.originalY|) :
    handleConnectedDragging cfg g ds nodeId ptr =
      (applyUpdates
        (restoreOutside (clearRootFlag (detachParentEdge g nodeId) nodeId)
          g.pos ds.subtree)
        (createSubtreeMoveUpdates ds.subtree
          (ptr.x - (ds.pointerOffset.getD ⟨0, 0⟩).x)
          (ptr.y - (ds.pointerOffset.getD ⟨0, 0⟩).y) none),
       { ds with snappedOut := true }, true) := by
  simp only [handleConnectedDragging, if_pos hout]

/-- After `clearRootFlag`, no node carrying the cleared id is flagged as a
root (given distinct dataset ids). -/
theorem clearRootFlag_isRootFalse (g : GraphState) (nodeId : NodeId)
    (hnd : (g.nodes.map (fun n => n.id)).Nodup) :
    ∀ n ∈ (clearRootFlag g nodeId).nodes, n.id = nodeId → n.isRoot = false := by
  unfold clearRootFlag
  cases hfind : g.nodes.find? (fun n => n.id = nodeId) with
  | none =>
      intro n hn hni
      exact absurd (List.find?_eq_none.mp hfind n hn) (by simp [hni])
  | some n0 =>
      dsimp only
      by_cases hr : n0.isRoot = true
      · rw [if_pos hr]
        intro n hn hni
        rw [show applyUpdates g [(⟨nodeId, none, none, some false, none⟩ : NodeUpdate)] =
            applyUpdate g ⟨nodeId, none, none, some false, none⟩ from rfl] at hn
        have hmem : g.nodes.any
            (fun m => m.id = (⟨nodeId, none, none, some false, none⟩ : NodeUpdate).id) := by
          refine List.any_eq_true.mpr ⟨n0, List.mem_of_find?_eq_some hfind, ?_⟩
          simpa using List.find?_some hfind
        rw [applyUpdate_nodes_of_mem _ _ hmem] at hn
        rcases List.mem_map.mp hn with ⟨m, hm, rfl⟩
        have hmi : m.id = nodeId := by rw [← patchNode_id _ m]; exact hni
        unfold patchNode
        rw [if_pos (by simpa using hmi)]
        rfl
      · rw [if_neg hr]
        intro n hn hni
        rw [find_unique_of_nodup hnd hfind n hn hni]
        simpa using hr

theorem clearRootFlag_nodeIds (g : GraphState) (nodeId : NodeId) :
    nodeIds (clearRootFlag g nodeId) = nodeIds g := by
  unfold clearRootFlag
  cases hfind : g.nodes.find? (fun n => n.id = nodeId) with
  | none => rfl
  | some n0 =>
      dsimp only
      by_cases hr : n0.isRoot = true
      · rw [if_pos hr]
        rw [show applyUpdates g [(⟨nodeId, none, none, some false, none⟩ : NodeUpdate)] =
            applyUpdate g ⟨nodeId, none, none, some false, none⟩ from rfl]
        have hmem : g.nodes.any
            (fun m => m.id = (⟨nodeId, none, none, some false, none⟩ : NodeUpdate).id) := by
          refine List.any_eq_true.mpr ⟨n0, List.mem_of_find?_eq_some hfind, ?_⟩
          simpa using List.find?_some hfind
        unfold nodeIds
        rw [applyUpdate_nodes_of_mem _ _ hmem, List.map_map]
        refine List.map_congr_left ?_
        intro n _
        simp [patchNode_id]
      · rw [if_neg hr]

/-! ## Step-level invariants of the machine -/

/-- No move event ever repositions a node outside the dragged subtree. -/
theorem step_move_pos_frame (ext : Extents) (cfg : Config) (s : MachineState)
    (ds : DragState) (ids : List NodeId) (ptr : Pt) (id : NodeId)
    (hds : s.drag = some ds) (hid : id ∉ getSubtreeNodeIds ds.subtree) :
    (step ext cfg s (.move ids ptr)).graph.pos id = s.graph.pos id := by
  show (handleDragging ext cfg s ids ptr).graph.pos id = _
  unfold handleDragging
  rw [hds]
  rcases ids with _ | ⟨n, _ | ⟨m, t⟩⟩
  · rfl
  · dsimp only
    split
    · rfl
    · cases hpo : ds.pointerOffset <;>
        · dsimp only
          split
          · exact handleFreeDragging_pos_frame ext cfg s.graph _ n ptr id hid
          · exact handleConnectedDragging_pos_frame cfg s.graph _ n ptr id hid
  · rfl

/-- Once a session is snapped out, every further move keeps it snapped out
with the same subtree, fires no notification, and never touches the edge
set. -/
theorem step_move_snapped (ext : Extents) (cfg : Config) (s : MachineState)
    (ds : DragState) (ids : List NodeId) (ptr : Pt)
    (hds : s.drag = some ds) (hsn : ds.snappedOut = true) :
    (step ext cfg s (.move ids ptr)).graph.edges = s.graph.edges ∧
    (step ext cfg s (.move ids ptr)).hierarchyChanges = s.hierarchyChanges ∧
    ∃ ds2, (step ext cfg s (.move ids ptr)).drag = some ds2 ∧
      ds2.snappedOut = true ∧ ds2.subtree = ds.subtree := by
  unfold step handleDragging
  rw [hds]
  rcases ids with _ | ⟨n, _ | ⟨m, t⟩⟩
  · exact ⟨rfl, rfl, ds, hds, hsn, rfl⟩
  · dsimp only
    split
    · exact ⟨rfl, rfl, ds, hds, hsn, rfl⟩
    · cases hpo : ds.pointerOffset with
      | some off =>
          dsimp only
          split
          · obtain ⟨h1, h2, _⟩ := handleFreeDragging_session ext cfg s.graph ds n ptr
            exact ⟨handleFreeDragging_edges .., rfl,
              (handleFreeDragging ext cfg s.graph ds n ptr).2, rfl, h1.trans hsn, h2⟩
          · next hcond => exact absurd hsn (by simpa using hcond)
      | none =>
          dsimp only
          split
          · next hcond =>
              obtain ⟨h1, h2, _⟩ := handleFreeDragging_session ext cfg s.graph _ n ptr
              exact ⟨handleFreeDragging_edges .., rfl,
                (handleFreeDragging ext cfg s.graph _ n ptr).2, rfl, h1.trans hsn, h2⟩
          · next hcond => exact absurd hsn (by simpa using hcond)
  · exact ⟨rfl, rfl, ds, hds, hsn, rfl⟩

/-- Iterated form of `step_move_snapped` over any sequence of moves. -/
theorem runMoves_snapped (ext : Extents) (cfg : Config) (moves : List DragEvent)
    (hmoves : ∀ ev ∈ moves, ∃ ids ptr, ev = .move ids ptr) :
    ∀ (s : MachineState) (ds : DragState), s.drag = some ds → ds.snappedOut = true →
      (runEvents ext cfg s moves).graph.edges = s.graph.edges ∧
      (runEvents ext cfg s moves).hierarchyChanges = s.hierarchyChanges ∧
        ∃ ds2, (runEvents ext cfg s moves).drag = some ds2 ∧
          ds2.snappedOut = true ∧ ds2.subtree = ds.subtree := by
  induction moves with
  | nil => intro s ds hds hsn; exact ⟨rfl, rfl, ds, hds, hsn, rfl⟩
  | cons ev evs ih =>
      intro s ds hds hsn
      rcases hmoves ev (List.mem_cons_self ..) with ⟨ids, ptr, rfl⟩
      obtain ⟨he, hc, ds2, hds2, hsn2, hsub2⟩ :=
        step_move_snapped ext cfg s ds ids ptr hds hsn
      obtain ⟨he2, hc2, ds3, hds3, hsn3, hsub3⟩ :=
        ih (fun e hev => hmoves e (List.mem_cons_of_mem _ hev))
          (step ext cfg s (.move ids ptr)) ds2 hds2 hsn2
      exact ⟨he2.trans he, hc2.trans hc, ds3, hds3, hsn3, hsub3.trans hsub2⟩

/-- C3.  Detachment (an attached move past the threshold) removes at most
one edge — the dragged node's first incoming edge, if it has one — and
leaves every other edge unchanged (in particular every edge not pointing at
the dragged node, which covers the dragged node's own subtree edges); every
node outside the captured subtree keeps its position — and since no move
event of the machine ever repositions a node outside the dragged subtree
(last conjunct), that position is the pre-drag one — and the dragged node's
`isRoot` flag is cleared; the session becomes snapped out. -/
theorem C3_detachment_effect (ext : Extents) (cfg : Config) (g : GraphState)
    (ds : DragState) (nodeId : NodeId) (ptr : Pt)
    (hnd : (g.nodes.map (fun n => n.id)).Nodup)
    (hout : cfg.snapOutThreshold <
      |ptr.y - (ds.pointerOffset.getD ⟨0, 0⟩).y - ds.originalY|) :
    (∀ pe, getParentEdge nodeId g.edges = some pe →
        (handleConnectedDragging cfg g ds nodeId ptr).1.edges =
          g.edges.filter (fun e => e.eid ≠ pe.eid) ∧
        pe.toId = nodeId ∧ pe ∈ g.edges) ∧
    (getParentEdge nodeId g.edges = none →
        (handleConnectedDragging cfg g ds nodeId ptr).1.edges = g.edges) ∧
    ((g.edges.map (fun e => e.eid)).Nodup →
      ∀ e ∈ g.edges, e.toId ≠ nodeId →
        e ∈ (handleConnectedDragging cfg g ds nodeId ptr).1.edges) ∧
    (∀ id, id ∉ getSubtreeNodeIds ds.subtree →
        (handleConnectedDragging cfg g ds nodeId ptr).1.pos id = g.pos id) ∧
    (∀ n ∈ (handleConnectedDragging cfg g ds nodeId ptr).1.nodes,
        n.id = nodeId → n.isRoot = false) ∧
    (handleConnectedDragging cfg g ds nodeId ptr).2.1.snappedOut = true ∧
    (∀ (s : MachineState) (ds2 : DragState) (ids : List NodeId) (p : Pt) (i : NodeId),
      s.drag = some ds2 → i ∉ getSubtreeNodeIds ds2.subtree →
      (step ext cfg s (.move ids p)).graph.pos i = s.graph.pos i) := by
  have heq := handleConnectedDragging_eq_detach cfg g ds nodeId ptr hout
  have hedges : (handleConnectedDragging cfg g ds nodeId ptr).1.edges =
      (detachParentEdge g nodeId).edges := by
    rw [heq]
    show (applyUpdates _ _).edges = _
    rw [applyUpdates_edges, restoreOutside_edges, clearRootFlag_edges]
  refine ⟨?_, ?_, ?_, ?_, ?_, ?_, ?_⟩
  · intro pe hpe
    refine ⟨?_, ?_, ?_⟩
    · rw [hedges]
      unfold detachParentEdge
      rw [hpe]
      rfl
    · have hmem : pe ∈ g.edges.filter (fun e => e.toId = nodeId) := by
        unfold getParentEdge at hpe
        exact List.mem_of_mem_head? hpe
      simpa using (List.mem_filter.mp hmem).2
    · have hmem : pe ∈ g.edges.filter (fun e => e.toId = nodeId) := by
        unfold getParentEdge at hpe
        exact List.mem_of_mem_head? hpe
      exact List.mem_of_mem_filter hmem
  · intro hpe
    rw [hedges]
    unfold detachParentEdge
    rw [hpe]
  · intro heidnd e he hetoId
    cases hpe : getParentEdge nodeId g.edges with
    | none =>
        rw [hedges]
        unfold detachParentEdge
        rw [hpe]
        exact he
    | some pe =>
        rw [hedges]
        unfold detachParentEdge
        rw [hpe]
        show e ∈ removeEdgeById g.edges pe.eid
        unfold removeEdgeById
        refine List.mem_filter.mpr ⟨he, ?_⟩
        have hpemem : pe ∈ g.edges := by
          have hmem0 : pe ∈ g.edges.filter (fun e => e.toId = nodeId) := by
            unfold getParentEdge at hpe
            exact List.mem_of_mem_head? hpe
          exact List.mem_of_mem_filter hmem0
        have hpeto : pe.toId = nodeId := by
          have hmem2 : pe ∈ g.edges.filter (fun e => e.toId = nodeId) := by
            unfold getParentEdge at hpe
            exact List.mem_of_mem_head? hpe
          simpa using (List.mem_filter.mp hmem2).2
        have hne : e.eid ≠ pe.eid := by
          intro hc
          have heq2 : e = pe := List.inj_on_of_nodup_map heidnd he hpemem hc
          exact hetoId (heq2 ▸ hpeto)
        simpa using hne
  · exact fun id hid => handleConnectedDragging_pos_frame cfg g ds nodeId ptr id hid
  · intro n hn hni
    rw [heq] at hn
    have h2 := clearRootFlag_isRootFalse (detachParentEdge g nodeId) nodeId
      (by rw [show (detachParentEdge g nodeId).nodes = g.nodes from detachParentEdge_nodes ..]
          exact hnd)
    have h3 := applyUpdates_isRootFalse_invariant
      (clearRootFlag (detachParentEdge g nodeId) nodeId)
      (createPositionUpdates (clearRootFlag (detachParentEdge g nodeId) nodeId).nodes
        g.pos (getSubtreeNodeIds ds.subtree)) nodeId
      (fun u hu => by
        rcases mem_createPositionUpdates _ _ _ _ hu with ⟨m, _, _, rfl⟩
        rfl) h2
    have h4 := applyUpdates_isRootFalse_invariant
      (restoreOutside (clearRootFlag (detachParentEdge g nodeId) nodeId) g.pos ds.subtree)
      (createSubtreeMoveUpdates ds.subtree
        (ptr.x - (ds.pointerOffset.getD ⟨0, 0⟩).x)
        (ptr.y - (ds.pointerOffset.getD ⟨0, 0⟩).y) none) nodeId
      (fun u hu => (createSubtreeMoveUpdates_flags _ _ _ _ hu).1) h3
    exact h4 n hn hni
  · rw [heq]
  · exact fun s ds2 ids p i hds2 hi => step_move_pos_frame ext cfg s ds2 ids p i hds2 hi

/-- The rubber-band branch: session and edge set unchanged, no
notification, the dragged root at the damped position. -/
theorem handleConnectedDragging_rubber_spec (cfg : Config) (g : GraphState)
    (ds : DragState) (nodeId : NodeId) (ptr : Pt)
    (hin : ¬ cfg.snapOutThreshold <
      |ptr.y - (ds.pointerOffset.getD ⟨0, 0⟩).y - ds.originalY|) :
    (handleConnectedDragging cfg g ds nodeId ptr).2.1 = ds ∧
    (handleConnectedDragging cfg g ds nodeId ptr).2.2 = false ∧
    (handleConnectedDragging cfg g ds nodeId ptr).1.edges = g.edges ∧
    (ds.subtree.rootId ∉ ds.subtree.descendantIds →
      (handleConnectedDragging cfg g ds nodeId ptr).1.pos ds.subtree.rootId =
        ⟨ptr.x - (ds.pointerOffset.getD ⟨0, 0⟩).x,
         ds.originalY + (ptr.y - (ds.pointerOffset.getD ⟨0, 0⟩).y - ds.originalY) *
           cfg.rubberBandFactor⟩) := by
  have heq := handleConnectedDragging_eq_rubber cfg g ds nodeId ptr hin
  refine ⟨by rw [heq], by rw [heq], ?_, ?_⟩
  · rw [heq]
    show (applyUpdates _ _).edges = _
    exact applyUpdates_edges ..
  · intro hroot
    rw [heq]
    show (applyUpdates _ _).pos _ = _
    exact applyUpdates_overrideDescX_rootPos g ds.subtree _ _ _ none hroot

/-- Witness for C3 at a concrete input: dragging `A` (child of `P`) down
by 300 > 150 removes exactly the edge `P → A`, keeps `B` in place, and
snaps the session out. -/
theorem C3_detachment_effect_witness :
    (handleConnectedDragging cfg0 gPAB dsA "A" ⟨-100, 400⟩).1.edges =
      [⟨"pb", "P", "B"⟩] ∧
    (handleConnectedDragging cfg0 gPAB dsA "A" ⟨-100, 400⟩).1.pos "B" = ⟨100, 100⟩ ∧
    (handleConnectedDragging cfg0 gPAB dsA "A" ⟨-100, 400⟩).2.1.snappedOut = true := by
  have h := C3_detachment_effect ext0 cfg0 gPAB dsA "A" ⟨-100, 400⟩
    (by decide) (by norm_num [cfg0, dsA])
  refine ⟨?_, ?_, h.2.2.2.2.2.1⟩
  · have h1 := (h.1 ⟨"pa", "P", "A"⟩ (by decide)).1
    rw [h1]
    decide
  · have h4 := h.2.2.2.1 "B" (by decide)
    rw [h4]
    decide

/-- C2.  For an attached, calibrated session: a move whose (offset-adjusted)
vertical displacement stays within `SNAP_OUT_THRESHOLD` sets the root to
`(pointerX - offsetX, start + displacement * RUBBER_BAND_FACTOR)` and leaves
edges and session untouched; the first move past the threshold removes the
dragged node's incoming edge and irreversibly snaps the session out; from a
snapped-out session, any sequence of further moves never changes the edge
set (so the removed edge is never re-added) and the session behaves as a
free drag for the rest of the gesture. -/
theorem C2_rubber_band_irreversible (ext : Extents) (cfg : Config)
    (s : MachineState) (ds : DragState) (nodeId : NodeId) (ptr : Pt) (off : Pt)
    (hds : s.drag = some ds)
    (hconn : ds.snappedOut = false)
    (hroot : ds.subtree.rootId = nodeId)
    (hoff : ds.pointerOffset = some off)
    (hnodup : ds.subtree.rootId ∉ ds.subtree.descendantIds) :
    (¬ cfg.snapOutThreshold < |ptr.y - off.y - ds.originalY| →
      (step ext cfg s (.move [nodeId] ptr)).graph.pos nodeId =
        ⟨ptr.x - off.x,
         ds.originalY + (ptr.y - off.y - ds.originalY) * cfg.rubberBandFactor⟩ ∧
      (step ext cfg s (.move [nodeId] ptr)).graph.edges = s.graph.edges ∧
      (step ext cfg s (.move [nodeId] ptr)).drag = some ds) ∧
    (cfg.snapOutThreshold < |ptr.y - off.y - ds.originalY| →
      (∀ pe, getParentEdge nodeId s.graph.edges = some pe →
        (step ext cfg s (.move [nodeId] ptr)).graph.edges =
          s.graph.edges.filter (fun e => e.eid ≠ pe.eid)) ∧
      ∃ ds2, (step ext cfg s (.move [nodeId] ptr)).drag = some ds2 ∧
        ds2.snappedOut = true ∧ ds2.subtree = ds.subtree) ∧
    (∀ (moves : List DragEvent), (∀ ev ∈ moves, ∃ ids p, ev = .move ids p) →
      ∀ (s2 : MachineState) (ds2 : DragState), s2.drag = some ds2 →
        ds2.snappedOut = true →
        (runEvents ext cfg s2 moves).graph.edges = s2.graph.edges ∧
        ∃ ds3, (runEvents ext cfg s2 moves).drag = some ds3 ∧
          ds3.snappedOut = true) := by
  have hgetD : ds.pointerOffset.getD ⟨0, 0⟩ = off := by rw [hoff]; rfl
  have hstep : step ext cfg s (.move [nodeId] ptr) =
      { graph := (handleConnectedDragging cfg s.graph ds nodeId ptr).1,
        drag := some (handleConnectedDragging cfg s.graph ds nodeId ptr).2.1,
        hierarchyChanges := s.hierarchyChanges +
          (if (handleConnectedDragging cfg s.graph ds nodeId ptr).2.2 then 1 else 0) } := by
    unfold step handleDragging
    rw [hds]
    dsimp only
    rw [if_neg (by rw [hroot]; exact fun hc => hc rfl), hoff]
    dsimp only
    rw [if_neg (by rw [hconn]; exact Bool.false_ne_true)]
  refine ⟨?_, ?_, ?_⟩
  · intro hin
    have hin2 : ¬ cfg.snapOutThreshold <
        |ptr.y - (ds.pointerOffset.getD ⟨0, 0⟩).y - ds.originalY| := by
      rw [hgetD]; exact hin
    obtain ⟨hds1, _, hedges1, hpos1⟩ :=
      handleConnectedDragging_rubber_spec cfg s.graph ds nodeId ptr hin2
    rw [hstep]
    refine ⟨?_, hedges1, by rw [hds1]⟩
    have := hpos1 hnodup
    rw [hgetD, hroot] at this
    exact this
  · intro hout
    have hout2 : cfg.snapOutThreshold <
        |ptr.y - (ds.pointerOffset.getD ⟨0, 0⟩).y - ds.originalY| := by
      rw [hgetD]; exact hout
    have heq := handleConnectedDragging_eq_detach cfg s.graph ds nodeId ptr hout2
    rw [hstep]
    constructor
    · intro pe hpe
      rw [heq]
      show (applyUpdates _ _).edges = _
      rw [applyUpdates_edges, restoreOutside_edges, clearRootFlag_edges]
      unfold detachParentEdge
      rw [hpe]
      rfl
    · exact ⟨(handleConnectedDragging cfg s.graph ds nodeId ptr).2.1, rfl,
        by rw [heq], by rw [heq]⟩
  · intro moves hmoves s2 ds2 hds2 hsn2
    obtain ⟨he, _, ds3, hds3, hsn3, _⟩ :=
      runMoves_snapped ext cfg moves hmoves s2 ds2 hds2 hsn2
    exact ⟨he, ds3, hds3, hsn3⟩

/-- Witness for C2 at concrete inputs: a 100-pixel pull gives the damped
position `(-60, 115)` with edges intact; a 300-pixel pull removes `P → A`. -/
theorem C2_rubber_band_irreversible_witness :
    (step ext0 cfg0 ⟨gPAB, some dsA, 0⟩ (.move ["A"] ⟨-60, 200⟩)).graph.pos "A" =
      ⟨-60, 115⟩ ∧
    (step ext0 cfg0 ⟨gPAB, some dsA, 0⟩ (.move ["A"] ⟨-60, 200⟩)).graph.edges =
      gPAB.edges ∧
    (step ext0 cfg0 ⟨gPAB, some dsA, 0⟩ (.move ["A"] ⟨-100, 400⟩)).graph.edges =
      [⟨"pb", "P", "B"⟩] := by
  have hwithin := C2_rubber_band_irreversible ext0 cfg0 ⟨gPAB, some dsA, 0⟩ dsA "A"
    ⟨-60, 200⟩ ⟨0, 0⟩ rfl rfl rfl rfl (by decide)
  have hcross := C2_rubber_band_irreversible ext0 cfg0 ⟨gPAB, some dsA, 0⟩ dsA "A"
    ⟨-100, 400⟩ ⟨0, 0⟩ rfl rfl rfl rfl (by decide)
  obtain ⟨hp, he, _⟩ := hwithin.1 (by norm_num [cfg0, dsA])
  refine ⟨?_, he, ?_⟩
  · rw [hp]
    norm_num [cfg0, dsA]
  · rw [(hcross.2.1 (by norm_num [cfg0, dsA])).1 ⟨"pa", "P", "A"⟩ (by decide)]
    decide

/-- Witness for C5 at a concrete input: capturing the chain `A → B → C` and
moving it rigidly to `(1000, 2000)` puts `A` there and `C` at
`(1005, 2006)`. -/
theorem C5_rigid_subtree_move_witness :
    captureSubtree pos5 edges5 "A" = .ok st5 ∧
    (applyUpdates g5 (createSubtreeMoveUpdates st5 1000 2000 none)).pos "A" =
      ⟨1000, 2000⟩ ∧
    (applyUpdates g5 (createSubtreeMoveUpdates st5 1000 2000 none)).pos "C" =
      ⟨1005, 2006⟩ := by
  have hcap : captureSubtree pos5 edges5 "A" = .ok st5 := by
    have h0 : captureSubtree pos5 edges5 "A" =
        .ok ⟨"A", ["B", "C"],
          [("B", ⟨3 - 0, 4 - 0⟩), ("C", ⟨5 - 0, 6 - 0⟩)]⟩ := rfl
    rw [h0]
    norm_num [st5]
  have h := C5_rigid_subtree_move pos5 edges5 "A" st5 1000 2000 none g5 hcap
  refine ⟨hcap, h.1, ?_⟩
  have h2 := h.2.1 "C" ⟨5, 6⟩ (by decide) (by decide)
  rw [h2]
  norm_num

/-- The rigid-move batch puts the root at the target whenever the root is
not among the descendants. -/
theorem applyUpdates_createSubtree_rootPos (g : GraphState) (st : Subtree)
    (newX newY : ℚ) (rp : Option Bool) (hroot : st.rootId ∉ st.descendantIds) :
    (applyUpdates g (createSubtreeMoveUpdates st newX newY rp)).pos st.rootId =
      ⟨newX, newY⟩ := by
  unfold createSubtreeMoveUpdates
  refine applyUpdates_pos_lastWrite g [] _ _ newX newY rfl rfl ?_
  intro v hv
  rcases List.mem_filterMap.mp hv with ⟨did, hdid, hu2⟩
  cases hrel : st.relOf did with
  | none => rw [hrel] at hu2; cases hu2
  | some d =>
      rw [hrel] at hu2
      cases hu2
      intro hc
      apply hroot
      have hdr : did = st.rootId := hc
      exact hdr ▸ hdid

/-- A free move places the dragged root at the offset-adjusted pointer. -/
theorem handleFreeDragging_rootPos (ext : Extents) (cfg : Config) (g : GraphState)
    (ds : DragState) (nodeId : NodeId) (ptr : Pt)
    (hnd : ds.subtree.rootId ∉ ds.subtree.descendantIds) :
    (handleFreeDragging ext cfg g ds nodeId ptr).1.pos ds.subtree.rootId =
      ⟨ptr.x - (ds.pointerOffset.getD ⟨0, 0⟩).x,
       ptr.y - (ds.pointerOffset.getD ⟨0, 0⟩).y⟩ := by
  simp only [handleFreeDragging]
  repeat' split
  all_goals
    first
    | exact applyUpdates_createSubtree_rootPos g ds.subtree _ _ none hnd
    | (simp only [updateHighlight_pos]
       exact applyUpdates_createSubtree_rootPos g ds.subtree _ _ none hnd)

/-- The session a connected move leaves behind differs at most in its
`snappedOut` flag. -/
theorem handleConnectedDragging_session (cfg : Config) (g : GraphState)
    (ds : DragState) (nodeId : NodeId) (ptr : Pt) :
    (handleConnectedDragging cfg g ds nodeId ptr).2.1.pointerOffset =
      ds.pointerOffset := by
  by_cases hc : cfg.snapOutThreshold <
      |ptr.y - (ds.pointerOffset.getD ⟨0, 0⟩).y - ds.originalY|
  · rw [handleConnectedDragging_eq_detach cfg g ds nodeId ptr hc]
  · rw [handleConnectedDragging_eq_rubber cfg g ds nodeId ptr hc]

/-- The first-move calibration and free placement, at step level: with no
recorded offset yet, the move records `pointer - centre` clamped to zero
past `MAX_OFFSET = 20`; with a recorded offset and a snapped-out session,
the move places the root exactly at `pointer - offset`. -/
theorem step_move_eq_hasOffset (ext : Extents) (cfg : Config) (s : MachineState)
    (ds : DragState) (nodeId : NodeId) (ptr : Pt) (off : Pt)
    (hds : s.drag = some ds) (hroot : ds.subtree.rootId = nodeId)
    (hoff : ds.pointerOffset = some off) :
    step ext cfg s (.move [nodeId] ptr) =
      if ds.snappedOut then
        ⟨(handleFreeDragging ext cfg s.graph ds nodeId ptr).1,
         some (handleFreeDragging ext cfg s.graph ds nodeId ptr).2,
         s.hierarchyChanges⟩
      else
        ⟨(handleConnectedDragging cfg s.graph ds nodeId ptr).1,
         some (handleConnectedDragging cfg s.graph ds nodeId ptr).2.1,
         s.hierarchyChanges +
           (if (handleConnectedDragging cfg s.graph ds nodeId ptr).2.2
            then 1 else 0)⟩ := by
  unfold step handleDragging
  rw [hds]
  dsimp only
  rw [if_neg (by rw [hroot]; exact fun hc => hc rfl), hoff]

theorem step_move_eq_noOffset (ext : Extents) (cfg : Config) (s : MachineState)
    (ds : DragState) (nodeId : NodeId) (ptr : Pt)
    (hds : s.drag = some ds) (hroot : ds.subtree.rootId = nodeId)
    (hnone : ds.pointerOffset = none) :
    step ext cfg s (.move [nodeId] ptr) =
      if ds.snappedOut then
        ⟨(handleFreeDragging ext cfg s.graph
            { ds with pointerOffset := some (calibratedOffset ptr (s.graph.pos nodeId)) }
            nodeId ptr).1,
         some (handleFreeDragging ext cfg s.graph
            { ds with pointerOffset := some (calibratedOffset ptr (s.graph.pos nodeId)) }
            nodeId ptr).2,
         s.hierarchyChanges⟩
      else
        ⟨(handleConnectedDragging cfg s.graph
            { ds with pointerOffset := some (calibratedOffset ptr (s.graph.pos nodeId)) }
            nodeId ptr).1,
         some (handleConnectedDragging cfg s.graph
            { ds with pointerOffset := some (calibratedOffset ptr (s.graph.pos nodeId)) }
            nodeId ptr).2.1,
         s.hierarchyChanges +
           (if (handleConnectedDragging cfg s.graph
               { ds with pointerOffset := some (calibratedOffset ptr (s.graph.pos nodeId)) }
               nodeId ptr).2.2
            then 1 else 0)⟩ := by
  unfold step handleDragging
  rw [hds]
  dsimp only
  rw [if_neg (by rw [hroot]; exact fun hc => hc rfl), hnone]

/-- The first-move calibration and free placement, at step level: with no
recorded offset yet, the move records `pointer - centre` clamped to zero
past `MAX_OFFSET = 20`; with a recorded offset and a snapped-out session,
the move places the root exactly at `pointer - offset`. -/
theorem step_move_free_spec (ext : Extents) (cfg : Config) (s : MachineState)
    (ds : DragState) (nodeId : NodeId) (ptr : Pt)
    (hds : s.drag = some ds) (hroot : ds.subtree.rootId = nodeId)
    (hnd : ds.subtree.rootId ∉ ds.subtree.descendantIds) :
    (∀ off, ds.pointerOffset = some off → ds.snappedOut = true →
      (step ext cfg s (.move [nodeId] ptr)).graph.pos nodeId =
        ⟨ptr.x - off.x, ptr.y - off.y⟩) ∧
    (ds.pointerOffset = none →
      (∃ ds2, (step ext cfg s (.move [nodeId] ptr)).drag = some ds2 ∧
        ds2.pointerOffset = some (calibratedOffset ptr (s.graph.pos nodeId))) ∧
      (ds.snappedOut = true →
        (step ext cfg s (.move [nodeId] ptr)).graph.pos nodeId =
          ⟨ptr.x - (calibratedOffset ptr (s.graph.pos nodeId)).x,
           ptr.y - (calibratedOffset ptr (s.graph.pos nodeId)).y⟩)) := by
  constructor
  · intro off hoff hsn
    rw [step_move_eq_hasOffset ext cfg s ds nodeId ptr off hds hroot hoff,
      if_pos hsn]
    have hfp := handleFreeDragging_rootPos ext cfg s.graph ds nodeId ptr hnd
    rw [hoff] at hfp
    rw [hroot] at hfp
    exact hfp
  · intro hnone
    rw [step_move_eq_noOffset ext cfg s ds nodeId ptr hds hroot hnone]
    constructor
    · split
      · refine ⟨_, rfl, ?_⟩
        exact (handleFreeDragging_session ext cfg s.graph _ nodeId ptr).2.2.2.2
      · refine ⟨_, rfl, ?_⟩
        rw [handleConnectedDragging_session]
    · intro hsn
      rw [if_pos hsn]
      have hfp := handleFreeDragging_rootPos ext cfg s.graph
        { ds with pointerOffset := some (calibratedOffset ptr (s.graph.pos nodeId)) }
        nodeId ptr hnd
      rw [hroot] at hfp
      exact hfp

/-- C9 counterexample.  A free drag of `F` (centre `(100, 200)`) whose
first move carries the pointer at `(125, 200)` — 25 pixels right of the
centre — records the offset `(0, 0)` rather than the pointer-to-centre
offset `(25, 0)` (the `MAX_OFFSET = 20` clamp), and the node is placed at
exactly the pointer position, i.e. it jumps to be centred under the
cursor, contradicting the claim. -/
theorem C9_offset_clamp_counterexample :
    (∃ ds2, (runEvents ext0 cfg0 ⟨gF, none, 0⟩
        [.start ["F"], .move ["F"] ⟨125, 200⟩]).drag = some ds2 ∧
      ds2.pointerOffset = some ⟨0, 0⟩ ∧ ds2.pointerOffset ≠ some ⟨25, 0⟩) ∧
    (runEvents ext0 cfg0 ⟨gF, none, 0⟩
        [.start ["F"], .move ["F"] ⟨125, 200⟩]).graph.pos "F" = ⟨125, 200⟩ := by
  have h1 : runEvents ext0 cfg0 ⟨gF, none, 0⟩ [.start ["F"], .move ["F"] ⟨125, 200⟩] =
      step ext0 cfg0 (step ext0 cfg0 ⟨gF, none, 0⟩ (.start ["F"]))
        (.move ["F"] ⟨125, 200⟩) := rfl
  have h2 : step ext0 cfg0 ⟨gF, none, 0⟩ (.start ["F"]) = ⟨gF, some dsF, 0⟩ := rfl
  have h := step_move_free_spec ext0 cfg0 ⟨gF, some dsF, 0⟩ dsF "F" ⟨125, 200⟩
    rfl rfl (by decide)
  obtain ⟨⟨ds2, hds2, hoff2⟩, hpos⟩ := h.2 rfl
  have hcal : calibratedOffset ⟨125, 200⟩
      ((⟨gF, some dsF, 0⟩ : MachineState).graph.pos "F") = ⟨0, 0⟩ := by
    show calibratedOffset ⟨125, 200⟩ (gF.pos "F") = ⟨0, 0⟩
    norm_num [calibratedOffset, gF]
  constructor
  · refine ⟨ds2, by rw [h1, h2]; exact hds2, by rw [hoff2, hcal], ?_⟩
    rw [hoff2, hcal]
    intro hc
    have : (⟨0, 0⟩ : Pt) = ⟨25, 0⟩ := by injection hc
    have hx : (0 : ℚ) = 25 := congrArg Pt.x this
    norm_num at hx
  · rw [h1, h2]
    have hp := hpos rfl
    rw [hp, hcal]
    norm_num

/-- C9 amended.  The first drag-move records the offset between pointer and
node centre only when both axes are within `MAX_OFFSET = 20`; beyond that
it records `(0, 0)` (so an off-centre click beyond 20 pixels does centre
the node under the cursor); every free drag-move places the node at
pointer minus the recorded offset. -/
theorem C9_first_move_calibration (ext : Extents) (cfg : Config)
    (s : MachineState) (ds : DragState) (nodeId : NodeId) (ptr : Pt)
    (hds : s.drag = some ds) (hroot : ds.subtree.rootId = nodeId)
    (hnd : ds.subtree.rootId ∉ ds.subtree.descendantIds) :
    (∀ off, ds.pointerOffset = some off → ds.snappedOut = true →
      (step ext cfg s (.move [nodeId] ptr)).graph.pos nodeId =
        ⟨ptr.x - off.x, ptr.y - off.y⟩) ∧
    (ds.pointerOffset = none →
      (∃ ds2, (step ext cfg s (.move [nodeId] ptr)).drag = some ds2 ∧
        ds2.pointerOffset = some (calibratedOffset ptr (s.graph.pos nodeId))) ∧
      (ds.snappedOut = true →
        (step ext cfg s (.move [nodeId] ptr)).graph.pos nodeId =
          ⟨ptr.x - (calibratedOffset ptr (s.graph.pos nodeId)).x,
           ptr.y - (calibratedOffset ptr (s.graph.pos nodeId)).y⟩)) :=
  step_move_free_spec ext cfg s ds nodeId ptr hds hroot hnd

/-- Witness for the amended C9: a later move with recorded offset `(10, 5)`
places `F` at `pointer - (10, 5)`, and a first move 10 pixels off-centre
records exactly `(10, 5)`. -/
theorem C9_first_move_calibration_witness :
    (step ext0 cfg0 ⟨gF, some dsF2, 0⟩ (.move ["F"] ⟨300, 400⟩)).graph.pos "F" =
      ⟨290, 395⟩ ∧
    (∃ ds2, (step ext0 cfg0 ⟨gF, some dsF, 0⟩ (.move ["F"] ⟨110, 205⟩)).drag =
        some ds2 ∧ ds2.pointerOffset = some ⟨10, 5⟩) := by
  constructor
  · have h1 := (C9_first_move_calibration ext0 cfg0 ⟨gF, some dsF2, 0⟩ dsF2 "F"
      ⟨300, 400⟩ rfl rfl (by decide)).1 ⟨10, 5⟩ rfl rfl
    rw [h1]
    norm_num
  · have h2 := (C9_first_move_calibration ext0 cfg0 ⟨gF, some dsF, 0⟩ dsF "F"
      ⟨110, 205⟩ rfl rfl (by decide)).2 rfl
    obtain ⟨⟨ds2, hd, hoff⟩, _⟩ := h2
    refine ⟨ds2, hd, ?_⟩
    rw [hoff]
    have : calibratedOffset ⟨110, 205⟩
        ((⟨gF, some dsF, 0⟩ : MachineState).graph.pos "F") = ⟨10, 5⟩ := by
      show calibratedOffset ⟨110, 205⟩ (gF.pos "F") = ⟨10, 5⟩
      norm_num [calibratedOffset, gF]
    rw [this]

/-- Flag-free batches (no `uHighlighted` field) preserve any property of
the highlighted nodes' ids. -/
theorem applyUpdates_highlighted_pred (P : NodeId → Prop) (g : GraphState)
    (us : List NodeUpdate) (hus : ∀ u ∈ us, u.uHighlighted = none)
    (h : ∀ n ∈ g.nodes, n.highlighted = true → P n.id) :
    ∀ n ∈ (applyUpdates g us).nodes, n.highlighted = true → P n.id := by
  induction us generalizing g with
  | nil => exact h
  | cons u us ih =>
      rw [applyUpdates_cons]
      refine ih (applyUpdate g u) (fun v hv => hus v (List.mem_cons_of_mem _ hv)) ?_
      intro n hn hh
      by_cases hmem : g.nodes.any (fun m => m.id = u.id)
      · rw [applyUpdate_nodes_of_mem _ _ hmem] at hn
        rcases List.mem_map.mp hn with ⟨m, hm, rfl⟩
        have hmh : m.highlighted = true := by
          have : (patchNode u m).highlighted = m.highlighted := by
            unfold patchNode
            split
            · rw [hus u (List.mem_cons_self ..)]
              rfl
            · rfl
          rw [← this]
          exact hh
        rw [patchNode_id]
        exact h m hm hmh
      · rw [applyUpdate_nodes_of_notMem _ _ hmem] at hn
        rcases List.mem_append.mp hn with hg | hnew
        · exact h n hg hh
        · rw [List.mem_singleton.mp hnew] at hh
          rw [hus u (List.mem_cons_self ..)] at hh
          cases hh

theorem setNodeHighlight_false_pred (P : NodeId → Prop) (g : GraphState)
    (i : NodeId) (h : ∀ n ∈ g.nodes, n.highlighted = true → P n.id) :
    ∀ n ∈ (setNodeHighlight g i false).nodes, n.highlighted = true →
      P n.id ∧ n.id ≠ i := by
  unfold setNodeHighlight
  split
  · next hfind =>
      rcases Option.isSome_iff_exists.mp hfind with ⟨n0, hn0⟩
      intro n hn hh
      rw [show applyUpdates g [(⟨i, none, none, none, some false⟩ : NodeUpdate)] =
          applyUpdate g ⟨i, none, none, none, some false⟩ from rfl] at hn
      have hmem : g.nodes.any
          (fun m => m.id = (⟨i, none, none, none, some false⟩ : NodeUpdate).id) := by
        refine List.any_eq_true.mpr ⟨n0, List.mem_of_find?_eq_some hn0, ?_⟩
        simpa using List.find?_some hn0
      rw [applyUpdate_nodes_of_mem _ _ hmem] at hn
      rcases List.mem_map.mp hn with ⟨m, hm, rfl⟩
      unfold patchNode at hh ⊢
      by_cases hmi : m.id = i
      · rw [if_pos (by simpa using hmi)] at hh
        cases hh
      · rw [if_neg (by simpa using hmi)] at hh
        rw [if_neg (by simpa using hmi)]
        exact ⟨h m hm hh, hmi⟩
  · next hfind =>
      intro n hn hh
      refine ⟨h n hn hh, ?_⟩
      have hnone : g.nodes.find? (fun m => m.id = i) = none := by
        cases hf : g.nodes.find? (fun m => m.id = i) with
        | none => rfl
        | some v => rw [hf] at hfind; exact absurd rfl hfind
      simpa using List.find?_eq_none.mp hnone n hn

theorem setNodeHighlight_true_pred (P : NodeId → Prop) (g : GraphState)
    (i : NodeId) (h : ∀ n ∈ g.nodes, n.highlighted = true → P n.id) :
    ∀ n ∈ (setNodeHighlight g i true).nodes, n.highlighted = true →
      P n.id ∨ n.id = i := by
  unfold setNodeHighlight
  split
  · next hfind =>
      rcases Option.isSome_iff_exists.mp hfind with ⟨n0, hn0⟩
      intro n hn hh
      rw [show applyUpdates g [(⟨i, none, none, none, some true⟩ : NodeUpdate)] =
          applyUpdate g ⟨i, none, none, none, some true⟩ from rfl] at hn
      have hmem : g.nodes.any
          (fun m => m.id = (⟨i, none, none, none, some true⟩ : NodeUpdate).id) := by
        refine List.any_eq_true.mpr ⟨n0, List.mem_of_find?_eq_some hn0, ?_⟩
        simpa using List.find?_some hn0
      rw [applyUpdate_nodes_of_mem _ _ hmem] at hn
      rcases List.mem_map.mp hn with ⟨m, hm, rfl⟩
      rw [patchNode_id]
      unfold patchNode at hh
      by_cases hmi : m.id = i
      · exact Or.inr hmi
      · rw [if_neg (by simpa using hmi)] at hh
        exact Or.inl (h m hm hh)
  · intro n hn hh
    exact Or.inl (h n hn hh)

/-- After the highlight transition, every highlighted node carries the new
highlight id: at most one node is highlighted per move event. -/
theorem updateHighlight_inv (g : GraphState) (prev newH : Option NodeId)
    (h : ∀ n ∈ g.nodes, n.highlighted = true → some n.id = prev) :
    ∀ n ∈ (updateHighlight g prev newH).nodes, n.highlighted = true →
      some n.id = newH := by
  unfold updateHighlight
  cases prev with
  | none =>
      cases newH with
      | none => exact h
      | some hN =>
          dsimp only
          rw [if_pos (by simp)]
          intro n hn hh
          rcases setNodeHighlight_true_pred (fun id => some id = none) g hN h n hn hh
            with hP | hid
          · exact absurd hP (by simp)
          · rw [hid]
  | some p =>
      by_cases hne : newH ≠ some p
      · have h2 := setNodeHighlight_false_pred (fun id => some id = some p) g p h
        cases newH with
        | none =>
            dsimp only
            rw [if_pos hne]
            intro n hn hh
            obtain ⟨hP, hnp⟩ := h2 n hn hh
            exact absurd (Option.some.inj hP) hnp
        | some hN =>
            dsimp only
            rw [if_pos hne, if_pos (by simpa using hne)]
            intro n hn hh
            rcases setNodeHighlight_true_pred
                (fun id => (some id = some p ∧ id ≠ p)) _ hN h2 n hn hh
              with ⟨hP, hnp⟩ | hid
            · exact absurd (Option.some.inj hP) hnp
            · rw [hid]
      · have hp : newH = some p := not_not.mp hne
        subst hp
        dsimp only
        rw [if_neg hne, if_neg (by simp)]
        exact h

/-- The selected drop target is the first id of the snapped-node list
(insertion order: edge sources and targets in edge order, then
`isRoot`-flagged nodes) that is outside the dragged subtree and whose box
overlaps the dragged node's box. -/
theorem handleFreeDragging_highlight_sel (ext : Extents) (cfg : Config)
    (g : GraphState) (ds : DragState) (nodeId : NodeId) (ptr : Pt) :
    (handleFreeDragging ext cfg g ds nodeId ptr).2.highlightedNodeId =
      (getSnappedNodeIds
        (applyUpdates g (createSubtreeMoveUpdates ds.subtree
          (ptr.x - (ds.pointerOffset.getD ⟨0, 0⟩).x)
          (ptr.y - (ds.pointerOffset.getD ⟨0, 0⟩).y) none)).nodes
        (applyUpdates g (createSubtreeMoveUpdates ds.subtree
          (ptr.x - (ds.pointerOffset.getD ⟨0, 0⟩).x)
          (ptr.y - (ds.pointerOffset.getD ⟨0, 0⟩).y) none)).edges).find?
        (fun sid =>
          sid ∉ getSubtreeNodeIds ds.subtree ∧
          boxesOverlap
            (nodeBox ext (applyUpdates g (createSubtreeMoveUpdates ds.subtree
              (ptr.x - (ds.pointerOffset.getD ⟨0, 0⟩).x)
              (ptr.y - (ds.pointerOffset.getD ⟨0, 0⟩).y) none)).pos nodeId)
            (nodeBox ext (applyUpdates g (createSubtreeMoveUpdates ds.subtree
              (ptr.x - (ds.pointerOffset.getD ⟨0, 0⟩).x)
              (ptr.y - (ds.pointerOffset.getD ⟨0, 0⟩).y) none)).pos sid) = true) := by
  simp only [handleFreeDragging]
  repeat' split
  all_goals rfl

theorem handleFreeDragging_highlight_inv (ext : Extents) (cfg : Config)
    (g : GraphState) (ds : DragState) (nodeId : NodeId) (ptr : Pt)
    (hinv : ∀ n ∈ g.nodes, n.highlighted = true → some n.id = ds.highlightedNodeId) :
    ∀ n ∈ (handleFreeDragging ext cfg g ds nodeId ptr).1.nodes,
      n.highlighted = true →
      some n.id = (handleFreeDragging ext cfg g ds nodeId ptr).2.highlightedNodeId := by
  have h1 := applyUpdates_highlighted_pred
    (fun id => some id = ds.highlightedNodeId) g
    (createSubtreeMoveUpdates ds.subtree
      (ptr.x - (ds.pointerOffset.getD ⟨0, 0⟩).x)
      (ptr.y - (ds.pointerOffset.getD ⟨0, 0⟩).y) none)
    (fun u hu => (createSubtreeMoveUpdates_flags _ _ _ _ hu).2) hinv
  simp only [handleFreeDragging]
  repeat' split
  all_goals exact updateHighlight_inv _ _ _ h1

/-- C10.  During a free move, the single highlighted drop target is the
first id in the snapped-candidate list — built from the edge list in edge
order (source then target per edge) followed by `isRoot`-flagged nodes —
that lies outside the dragged subtree and whose bounding box overlaps the
dragged node's box; in particular it is not chosen by pointer distance or
overlap area.  After the move, at most one node is highlighted: every
highlighted node carries the selected id. -/
theorem C10_first_overlap_highlight (ext : Extents) (cfg : Config)
    (g : GraphState) (ds : DragState) (nodeId : NodeId) (ptr : Pt)
    (hinv : ∀ n ∈ g.nodes, n.highlighted = true → some n.id = ds.highlightedNodeId) :
    (handleFreeDragging ext cfg g ds nodeId ptr).2.highlightedNodeId =
      (getSnappedNodeIds
        (applyUpdates g (createSubtreeMoveUpdates ds.subtree
          (ptr.x - (ds.pointerOffset.getD ⟨0, 0⟩).x)
          (ptr.y - (ds.pointerOffset.getD ⟨0, 0⟩).y) none)).nodes
        (applyUpdates g (createSubtreeMoveUpdates ds.subtree
          (ptr.x - (ds.pointerOffset.getD ⟨0, 0⟩).x)
          (ptr.y - (ds.pointerOffset.getD ⟨0, 0⟩).y) none)).edges).find?
        (fun sid =>
          sid ∉ getSubtreeNodeIds ds.subtree ∧
          boxesOverlap
            (nodeBox ext (applyUpdates g (createSubtreeMoveUpdates ds.subtree
              (ptr.x - (ds.pointerOffset.getD ⟨0, 0⟩).x)
              (ptr.y - (ds.pointerOffset.getD ⟨0, 0⟩).y) none)).pos nodeId)
            (nodeBox ext (applyUpdates g (createSubtreeMoveUpdates ds.subtree
              (ptr.x - (ds.pointerOffset.getD ⟨0, 0⟩).x)
              (ptr.y - (ds.pointerOffset.getD ⟨0, 0⟩).y) none)).pos sid) = true) ∧
    (∀ n ∈ (handleFreeDragging ext cfg g ds nodeId ptr).1.nodes,
      n.highlighted = true →
      some n.id = (handleFreeDragging ext cfg g ds nodeId ptr).2.highlightedNodeId) :=
  ⟨handleFreeDragging_highlight_sel ext cfg g ds nodeId ptr,
   handleFreeDragging_highlight_inv ext cfg g ds nodeId ptr hinv⟩

/-- Witness for C10: with candidates `[P, A, B]` (edge order) and the
dragged `D` overlapping both `A` and `B` while `B`'s centre is nearer to
the pointer, `A` is highlighted. -/
theorem C10_first_overlap_highlight_witness :
    (handleFreeDragging ext0 cfg0 gC10 dsD "D" ⟨40, 0⟩).2.highlightedNodeId =
      some "A" := by
  have h := C10_first_overlap_highlight ext0 cfg0 gC10 dsD "D" ⟨40, 0⟩ (by decide)
  rw [h.1]
  norm_num [getSnappedNodeIds, insertOnce, getSubtreeNodeIds, List.find?,
    boxesOverlap, nodeBox, applyUpdates, applyUpdate, createSubtreeMoveUpdates,
    Subtree.relOf, gC10, dsD, ext0, TOP_BAR_NODE_ID]
  norm_num +decide [List.find?]

/-! ## Further helpers: rigid-move frames, root flags, drag-end branches -/

/-- Positions outside the subtree are untouched by a rigid-move batch. -/
theorem createSubtree_pos_frame (g : GraphState) (st : Subtree) (nx ny : ℚ)
    (rp : Option Bool) (i : NodeId) (hi : i ∉ getSubtreeNodeIds st) :
    (applyUpdates g (createSubtreeMoveUpdates st nx ny rp)).pos i = g.pos i := by
  refine applyUpdates_pos_frame _ _ _ ?_
  intro u hu hc
  exact hi (hc ▸ mem_createSubtreeMoveUpdates_ids _ _ _ _ _ hu)

/-- A batch none of whose items targets `i` preserves any constant `isRoot`
value on the nodes carrying `i`. -/
theorem applyUpdates_isRoot_frame (g : GraphState) (us : List NodeUpdate)
    (i : NodeId) (b : Bool) (hus : ∀ u ∈ us, u.id ≠ i)
    (h : ∀ n ∈ g.nodes, n.id = i → n.isRoot = b) :
    ∀ n ∈ (applyUpdates g us).nodes, n.id = i → n.isRoot = b := by
  induction us generalizing g with
  | nil => exact h
  | cons u us ih =>
      rw [applyUpdates_cons]
      refine ih (applyUpdate g u) (fun v hv => hus v (List.mem_cons_of_mem _ hv)) ?_
      intro n hn hni
      by_cases hmem : g.nodes.any (fun m => m.id = u.id)
      · rw [applyUpdate_nodes_of_mem _ _ hmem] at hn
        rcases List.mem_map.mp hn with ⟨m, hm, rfl⟩
        have hmi : m.id = i := by rw [← patchNode_id u m]; exact hni
        unfold patchNode
        rw [if_neg (by rw [hmi]; exact fun hc => hus u (List.mem_cons_self ..) hc.symm)]
        exact h m hm hmi
      · rw [applyUpdate_nodes_of_notMem _ _ hmem] at hn
        rcases List.mem_append.mp hn with hg | hnew
        · exact h n hg hni
        · rw [List.mem_singleton.mp hnew] at hni
          exact absurd hni (hus u (List.mem_cons_self ..))

/-- After one update carrying `isRoot := some b`, every node with the
update's id has `isRoot = b`. -/
theorem applyUpdate_isRoot_set (g : GraphState) (u : NodeUpdate) (b : Bool)
    (hu : u.uIsRoot = some b) :
    ∀ n ∈ (applyUpdate g u).nodes, n.id = u.id → n.isRoot = b := by
  intro n hn hni
  by_cases hmem : g.nodes.any (fun m => m.id = u.id)
  · rw [applyUpdate_nodes_of_mem _ _ hmem] at hn
    rcases List.mem_map.mp hn with ⟨m, hm, rfl⟩
    have hmi : m.id = u.id := by rw [← patchNode_id u m]; exact hni
    unfold patchNode
    rw [if_pos hmi, hu]
    rfl
  · rw [applyUpdate_nodes_of_notMem _ _ hmem] at hn
    rcases List.mem_append.mp hn with hg | hnew
    · exact absurd (List.any_eq_true.mpr ⟨n, hg, by simp [hni]⟩) hmem
    · rw [List.mem_singleton.mp hnew, hu]
      rfl

/-- A rigid-move batch carrying `rootProps = { isRoot := b }` leaves every
node with the root's id flagged `b`. -/
theorem applyUpdates_createSubtree_rootFlag (g : GraphState) (st : Subtree)
    (newX newY : ℚ) (b : Bool) (hroot : st.rootId ∉ st.descendantIds) :
    ∀ n ∈ (applyUpdates g (createSubtreeMoveUpdates st newX newY (some b))).nodes,
      n.id = st.rootId → n.isRoot = b := by
  unfold createSubtreeMoveUpdates
  rw [applyUpdates_cons]
  refine applyUpdates_isRoot_frame _ _ _ b ?_ ?_
  · intro u hu hui
    rcases List.mem_filterMap.mp hu with ⟨did, hdid, hmap⟩
    cases hrel : st.relOf did with
    | none => rw [hrel] at hmap; cases hmap
    | some d =>
        rw [hrel] at hmap
        cases hmap
        exact hroot (hui ▸ hdid)
  · exact applyUpdate_isRoot_set g _ b rfl

/-- Descendant position after a rigid-move batch: exactly root plus the
captured offset (needs distinct ids in the snapshot so no later entry
shadows the descendant's write). -/
theorem applyUpdates_createSubtree_descPos (g : GraphState) (st : Subtree)
    (newX newY : ℚ) (rp : Option Bool) (d : NodeId) (p : Pt)
    (hnd : (getSubtreeNodeIds st).Nodup)
    (hd : d ∈ st.descendantIds) (hrel : st.relOf d = some p) :
    (applyUpdates g (createSubtreeMoveUpdates st newX newY rp)).pos d =
      ⟨newX + p.x, newY + p.y⟩ := by
  rcases List.append_of_mem hd with ⟨l1, l2, hsplit⟩
  have hndd : (l1 ++ d :: l2).Nodup := by
    rw [← hsplit]
    exact (List.nodup_cons.mp (by simpa [getSubtreeNodeIds] using hnd)).2
  have hdl2 : d ∉ l2 :=
    (List.nodup_cons.mp (List.Nodup.of_append_right hndd)).1
  unfold createSubtreeMoveUpdates
  rw [hsplit, List.filterMap_append, List.filterMap_cons, hrel]
  simp only [Option.map_some']
  rw [show (⟨st.rootId, some newX, some newY, rp, none⟩ : NodeUpdate) ::
      (l1.filterMap (fun id => (st.relOf id).map (fun q =>
        NodeUpdate.mk id (some (newX + q.x)) (some (newY + q.y)) none none)) ++
      (⟨d, some (newX + p.x), some (newY + p.y), none, none⟩ : NodeUpdate) ::
      l2.filterMap (fun id => (st.relOf id).map (fun q =>
        NodeUpdate.mk id (some (newX + q.x)) (some (newY + q.y)) none none))) =
      ((⟨st.rootId, some newX, some newY, rp, none⟩ : NodeUpdate) ::
      l1.filterMap (fun id => (st.relOf id).map (fun q =>
        NodeUpdate.mk id (some (newX + q.x)) (some (newY + q.y)) none none))) ++
      (⟨d, some (newX + p.x), some (newY + p.y), none, none⟩ : NodeUpdate) ::
      l2.filterMap (fun id => (st.relOf id).map (fun q =>
        NodeUpdate.mk id (some (newX + q.x)) (some (newY + q.y)) none none))
    from by rw [List.cons_append]]
  refine applyUpdates_pos_lastWrite g _ _ _ _ _ rfl rfl ?_
  intro v hv
  rcases List.mem_filterMap.mp hv with ⟨id2, hid2, hmap⟩
  cases hrel2 : st.relOf id2 with
  | none => rw [hrel2] at hmap; cases hmap
  | some q =>
      rw [hrel2] at hmap
      cases hmap
      intro hc
      exact hdl2 ((show id2 = d from hc) ▸ hid2)

/-- `dragStart` never fires the hierarchy notification. -/
theorem handleDragStart_count (s : MachineState) (ids : List NodeId) :
    (handleDragStart s ids).hierarchyChanges = s.hierarchyChanges := by
  unfold handleDragStart
  rcases ids with _ | ⟨n, _ | ⟨m, t⟩⟩
  · rfl
  · dsimp only
    repeat' split
    all_goals rfl
  · rfl

/-- The exact per-gesture-end notification count: `dragEnd` fires once iff
the session is snapped out and either the root band is armed or a drop
target is highlighted. -/
theorem handleDragEnd_count (cfg : Config) (s : MachineState) (ds : DragState)
    (nodeId : NodeId) (hds : s.drag = some ds)
    (hroot : ds.subtree.rootId = nodeId) :
    (handleDragEnd cfg s [nodeId]).hierarchyChanges =
      s.hierarchyChanges +
        (if ds.snappedOut = true ∧
            (ds.isOverTopBar = true ∨ ds.highlightedNodeId.isSome = true)
         then 1 else 0) := by
  unfold handleDragEnd
  rw [hds]
  dsimp only
  rw [if_neg (by rw [hroot]; exact fun hc => hc rfl)]
  cases hsn : ds.snappedOut <;> cases htb : ds.isOverTopBar <;>
    cases hhl : ds.highlightedNodeId <;>
    simp [hsn, htb, hhl]

/-- The create-root branch of `dragEnd`, as an equation. -/
theorem handleDragEnd_eq_createRoot (cfg : Config) (s : MachineState)
    (ds : DragState) (nodeId : NodeId) (hds : s.drag = some ds)
    (hroot : ds.subtree.rootId = nodeId) (hsn : ds.snappedOut = true)
    (htb : ds.isOverTopBar = true) (hhl : ds.highlightedNodeId = none) :
    handleDragEnd cfg s [nodeId] =
      ⟨handleCreateRoot cfg s.graph ds, none, s.hierarchyChanges + 1⟩ := by
  unfold handleDragEnd
  rw [hds]
  dsimp only
  rw [if_neg (by rw [hroot]; exact fun hc => hc rfl), hhl, hsn, htb]
  rfl

/-- A free move with no previous highlight whose drop-target search comes up
empty: the graph only receives the rigid subtree move, and the session's
root-band flag is exactly the box-top-versus-band comparison. -/
theorem handleFreeDragging_eq_noneNone (ext : Extents) (cfg : Config)
    (g : GraphState) (ds : DragState) (nodeId : NodeId) (ptr : Pt)
    (hprev : ds.highlightedNodeId = none)
    (hfind : (getSnappedNodeIds
        (applyUpdates g (createSubtreeMoveUpdates ds.subtree
          (ptr.x - (ds.pointerOffset.getD ⟨0, 0⟩).x)
          (ptr.y - (ds.pointerOffset.getD ⟨0, 0⟩).y) none)).nodes
        (applyUpdates g (createSubtreeMoveUpdates ds.subtree
          (ptr.x - (ds.pointerOffset.getD ⟨0, 0⟩).x)
          (ptr.y - (ds.pointerOffset.getD ⟨0, 0⟩).y) none)).edges).find?
        (fun sid =>
          sid ∉ getSubtreeNodeIds ds.subtree ∧
          boxesOverlap
            (nodeBox ext (applyUpdates g (createSubtreeMoveUpdates ds.subtree
              (ptr.x - (ds.pointerOffset.getD ⟨0, 0⟩).x)
              (ptr.y - (ds.pointerOffset.getD ⟨0, 0⟩).y) none)).pos nodeId)
            (nodeBox ext (applyUpdates g (createSubtreeMoveUpdates ds.subtree
              (ptr.x - (ds.pointerOffset.getD ⟨0, 0⟩).x)
              (ptr.y - (ds.pointerOffset.getD ⟨0, 0⟩).y) none)).pos sid) = true)
      = none) :
    handleFreeDragging ext cfg g ds nodeId ptr =
      (applyUpdates g (createSubtreeMoveUpdates ds.subtree
          (ptr.x - (ds.pointerOffset.getD ⟨0, 0⟩).x)
          (ptr.y - (ds.pointerOffset.getD ⟨0, 0⟩).y) none),
       ⟨ds.originalX, ds.originalY, ds.snappedOut, none,
        decide
           ((nodeBox ext (applyUpdates g (createSubtreeMoveUpdates ds.subtree
              (ptr.x - (ds.pointerOffset.getD ⟨0, 0⟩).x)
              (ptr.y - (ds.pointerOffset.getD ⟨0, 0⟩).y) none)).pos nodeId).top <
            (findRootNodesMinY
              (applyUpdates g (createSubtreeMoveUpdates ds.subtree
                (ptr.x - (ds.pointerOffset.getD ⟨0, 0⟩).x)
                (ptr.y - (ds.pointerOffset.getD ⟨0, 0⟩).y) none)).nodes
              (applyUpdates g (createSubtreeMoveUpdates ds.subtree
                (ptr.x - (ds.pointerOffset.getD ⟨0, 0⟩).x)
                (ptr.y - (ds.pointerOffset.getD ⟨0, 0⟩).y) none)).edges
              (applyUpdates g (createSubtreeMoveUpdates ds.subtree
                (ptr.x - (ds.pointerOffset.getD ⟨0, 0⟩).x)
                (ptr.y - (ds.pointerOffset.getD ⟨0, 0⟩).y) none)).pos).getD 0 +
              (cfg.topBarHeight - cfg.rootYInTopBar)),
        ds.subtree, ds.pointerOffset⟩) := by
  simp only [handleFreeDragging]
  rw [hfind, hprev]
  rfl

/-- C7.  On drag-end with the root band armed (and no highlighted drop
target), the create-root mutation flags the dragged node `isRoot`, keeps its
current x unchanged (no horizontal collision avoidance), places it at the
first `isRoot`-flagged node's y — or at the canvas image of the top-bar
centre when no flagged root exists — moves every captured descendant rigidly
with it, fires the notification once, and closes the session. -/
theorem C7_create_root_effect (ext : Extents) (cfg : Config) (s : MachineState)
    (ds : DragState) (nodeId : NodeId)
    (hds : s.drag = some ds) (hroot : ds.subtree.rootId = nodeId)
    (hsn : ds.snappedOut = true) (htb : ds.isOverTopBar = true)
    (hhl : ds.highlightedNodeId = none)
    (hnd : (getSubtreeNodeIds ds.subtree).Nodup) :
    (step ext cfg s (.finish [nodeId])).graph.pos nodeId =
      ⟨(s.graph.pos nodeId).x,
       match (s.graph.nodes.filter (fun n => n.isRoot)).head? with
       | some r => (s.graph.pos r.id).y
       | none => cfg.domToCanvasY (cfg.topBarHeight / 2)⟩ ∧
    (∀ n ∈ (step ext cfg s (.finish [nodeId])).graph.nodes,
      n.id = nodeId → n.isRoot = true) ∧
    (∀ d ∈ ds.subtree.descendantIds, ∀ p, ds.subtree.relOf d = some p →
      (step ext cfg s (.finish [nodeId])).graph.pos d =
        ⟨(s.graph.pos nodeId).x + p.x,
         (match (s.graph.nodes.filter (fun n => n.isRoot)).head? with
          | some r => (s.graph.pos r.id).y
          | none => cfg.domToCanvasY (cfg.topBarHeight / 2)) + p.y⟩) ∧
    (step ext cfg s (.finish [nodeId])).hierarchyChanges =
      s.hierarchyChanges + 1 ∧
    (step ext cfg s (.finish [nodeId])).drag = none := by
  have hend : step ext cfg s (.finish [nodeId]) =
      ⟨handleCreateRoot cfg s.graph ds, none, s.hierarchyChanges + 1⟩ :=
    handleDragEnd_eq_createRoot cfg s ds nodeId hds hroot hsn htb hhl
  have hnotmem : ds.subtree.rootId ∉ ds.subtree.descendantIds :=
    (List.nodup_cons.mp (by simpa [getSubtreeNodeIds] using hnd)).1
  have hcr : handleCreateRoot cfg s.graph ds =
      applyUpdates s.graph (createSubtreeMoveUpdates ds.subtree
        ((s.graph.pos ds.subtree.rootId).x)
        (match (s.graph.nodes.filter (fun n => n.isRoot)).head? with
         | some r => (s.graph.pos r.id).y
         | none => cfg.domToCanvasY (cfg.topBarHeight / 2)) (some true)) := rfl
  refine ⟨?_, ?_, ?_, ?_, ?_⟩
  · rw [hend]
    show (handleCreateRoot cfg s.graph ds).pos nodeId = _
    rw [hcr, ← hroot]
    exact applyUpdates_createSubtree_rootPos _ _ _ _ _ hnotmem
  · rw [hend]
    intro n hn hni
    rw [← hroot] at hni
    revert hni
    revert hn
    show n ∈ (handleCreateRoot cfg s.graph ds).nodes → _
    rw [hcr]
    intro hn hni
    exact applyUpdates_createSubtree_rootFlag _ _ _ _ true hnotmem n hn hni
  · intro d hd p hp
    rw [hend]
    show (handleCreateRoot cfg s.graph ds).pos d = _
    rw [hcr, ← hroot]
    exact applyUpdates_createSubtree_descPos _ _ _ _ _ d p hnd hd hp
  · rw [hend]
  · rw [hend]

/-- Witness for C7: dropping the free `F` of `g7` with the band armed makes
it a root at `(0, 0)` and fires the notification once. -/
theorem C7_create_root_effect_witness :
    (step ext0 cfg0 ⟨g7, some ds7, 0⟩ (.finish ["F"])).graph.pos "F" =
      ⟨0, 0⟩ ∧
    (step ext0 cfg0 ⟨g7, some ds7, 0⟩ (.finish ["F"])).hierarchyChanges = 1 := by
  have h := C7_create_root_effect ext0 cfg0 ⟨g7, some ds7, 0⟩ ds7 "F"
    rfl rfl rfl rfl rfl (by decide)
  refine ⟨?_, h.2.2.2.1⟩
  rw [h.1]
  rfl

/-- C7 counterexample (overlap part of the claim).  The full gesture that
drags the free `F` of `g7` into the root band and drops it leaves `F` a
root at exactly the existing root `R`'s position: the create-root placement
keeps the dragged x with no collision avoidance, so the new root can
overlap an existing root, contradicting the claim's "never overlaps any
existing root". -/
theorem C7_root_overlap_counterexample :
    (runEvents ext0 cfg0 ⟨g7, none, 0⟩
        [.start ["F"], .move ["F"] ⟨0, -60⟩, .finish ["F"]]).graph.pos "F" =
      ⟨0, 0⟩ ∧
    (runEvents ext0 cfg0 ⟨g7, none, 0⟩
        [.start ["F"], .move ["F"] ⟨0, -60⟩, .finish ["F"]]).graph.pos "R" =
      ⟨0, 0⟩ ∧
    (runEvents ext0 cfg0 ⟨g7, none, 0⟩
        [.start ["F"], .move ["F"] ⟨0, -60⟩, .finish ["F"]]).graph.nodes =
      [⟨"R", true, false⟩, ⟨"F", true, false⟩] ∧
    boxesOverlap
      (nodeBox ext0 (runEvents ext0 cfg0 ⟨g7, none, 0⟩
        [.start ["F"], .move ["F"] ⟨0, -60⟩, .finish ["F"]]).graph.pos "F")
      (nodeBox ext0 (runEvents ext0 cfg0 ⟨g7, none, 0⟩
        [.start ["F"], .move ["F"] ⟨0, -60⟩, .finish ["F"]]).graph.pos "R") =
      true := by
  have hrun : runEvents ext0 cfg0 ⟨g7, none, 0⟩
      [.start ["F"], .move ["F"] ⟨0, -60⟩, .finish ["F"]] =
      step ext0 cfg0 (step ext0 cfg0 (step ext0 cfg0 ⟨g7, none, 0⟩
        (.start ["F"])) (.move ["F"] ⟨0, -60⟩)) (.finish ["F"]) := rfl
  have hstart : step ext0 cfg0 ⟨g7, none, 0⟩ (.start ["F"]) =
      ⟨g7, some ds70, 0⟩ := rfl
  have hcal : calibratedOffset ⟨0, -60⟩
      ((⟨g7, some ds70, 0⟩ : MachineState).graph.pos "F") = ⟨0, 0⟩ := by
    show calibratedOffset ⟨0, -60⟩ (g7.pos "F") = ⟨0, 0⟩
    rw [show g7.pos "F" = ⟨0, 300⟩ from rfl]
    norm_num [calibratedOffset]
  have hstep2 := step_move_eq_noOffset ext0 cfg0 ⟨g7, some ds70, 0⟩ ds70 "F"
    ⟨0, -60⟩ rfl rfl rfl
  rw [if_pos (show ds70.snappedOut = true from rfl), hcal,
    show ({ds70 with pointerOffset := some (⟨0, 0⟩ : Pt)} : DragState) = ds71
      from rfl] at hstep2
  dsimp only at hstep2
  -- facts about the post-move graph
  have hpF : g71.pos "F" =
      ⟨(⟨0, -60⟩ : Pt).x - (ds71.pointerOffset.getD ⟨0, 0⟩).x,
       (⟨0, -60⟩ : Pt).y - (ds71.pointerOffset.getD ⟨0, 0⟩).y⟩ :=
    applyUpdates_createSubtree_rootPos _ _ _ _ _ (by decide)
  have hpF2 : g71.pos "F" = ⟨0, -60⟩ := by
    rw [hpF]
    norm_num [ds71, Pt.mk.injEq]
  have hpR : g71.pos "R" = ⟨0, 0⟩ := rfl
  have hn71 : g71.nodes = g7.nodes := rfl
  have he71 : g71.edges = [] := rfl
  have hmin : findRootNodesMinY g71.nodes g71.edges g71.pos = some 0 := by
    rw [hn71, he71]
    show some (g71.pos "R").y = some 0
    rw [hpR]
  have hfind : (getSnappedNodeIds g71.nodes g71.edges).find?
      (fun sid => sid ∉ getSubtreeNodeIds ds71.subtree ∧
        boxesOverlap (nodeBox ext0 g71.pos "F")
          (nodeBox ext0 g71.pos sid) = true) = none := by
    rw [hn71, he71,
      show getSnappedNodeIds g7.nodes ([] : List VisEdge) = ["R"] from rfl]
    refine List.find?_eq_none.mpr ?_
    intro a ha
    have ha2 : a = "R" := by simpa using ha
    subst ha2
    simp only [decide_eq_true_eq, not_and]
    intro hmem
    simp only [nodeBox, hpF2, hpR, boxesOverlap, ext0]
    norm_num
  have hfree := handleFreeDragging_eq_noneNone ext0 cfg0 g7 ds71 "F" ⟨0, -60⟩
    rfl hfind
  rw [hfree] at hstep2
  have hband : decide ((nodeBox ext0 g71.pos "F").top <
      (findRootNodesMinY g71.nodes g71.edges g71.pos).getD 0 +
        (cfg0.topBarHeight - cfg0.rootYInTopBar)) = true := by
    rw [hmin]
    simp only [decide_eq_true_eq, nodeBox, hpF2]
    norm_num [ext0, cfg0, Option.getD_some]
  have hstep3 : step ext0 cfg0 ⟨g7, some ds70, 0⟩ (.move ["F"] ⟨0, -60⟩) =
      ⟨g71, some ⟨0, 300, true, none,
        decide ((nodeBox ext0 g71.pos "F").top <
          (findRootNodesMinY g71.nodes g71.edges g71.pos).getD 0 +
            (cfg0.topBarHeight - cfg0.rootYInTopBar)),
        ⟨"F", [], []⟩, some ⟨0, 0⟩⟩, 0⟩ := hstep2
  rw [hband, show (⟨0, 300, true, none, true, ⟨"F", [], []⟩,
    some ⟨0, 0⟩⟩ : DragState) = ds7 from rfl] at hstep3
  have hdrag2 : (step ext0 cfg0 ⟨g7, some ds70, 0⟩
      (.move ["F"] ⟨0, -60⟩)).drag = some ds7 := by rw [hstep3]
  have hgE2 : (step ext0 cfg0 ⟨g7, some ds70, 0⟩
      (.move ["F"] ⟨0, -60⟩)).graph = g71 := by rw [hstep3]
  have hend := handleDragEnd_eq_createRoot cfg0
    (step ext0 cfg0 ⟨g7, some ds70, 0⟩ (.move ["F"] ⟨0, -60⟩)) ds7 "F"
    hdrag2 rfl rfl rfl rfl
  rw [hgE2] at hend
  have hcrF : (handleCreateRoot cfg0 g71 ds7).pos "F" =
      ⟨(g71.pos "F").x, (g71.pos "R").y⟩ :=
    applyUpdates_createSubtree_rootPos _ _ _ _ _ (by decide)
  have hcrR : (handleCreateRoot cfg0 g71 ds7).pos "R" = g71.pos "R" :=
    createSubtree_pos_frame _ _ _ _ _ "R" (by decide)
  have hcrnodes : (handleCreateRoot cfg0 g71 ds7).nodes =
      [⟨"R", true, false⟩, ⟨"F", true, false⟩] := rfl
  rw [hrun, hstart]
  refine ⟨?_, ?_, ?_, ?_⟩
  · show (handleDragEnd cfg0 (step ext0 cfg0 ⟨g7, some ds70, 0⟩
      (.move ["F"] ⟨0, -60⟩)) ["F"]).graph.pos "F" = ⟨0, 0⟩
    rw [hend]
    show (handleCreateRoot cfg0 g71 ds7).pos "F" = ⟨0, 0⟩
    rw [hcrF, hpF2, hpR]
  · show (handleDragEnd cfg0 (step ext0 cfg0 ⟨g7, some ds70, 0⟩
      (.move ["F"] ⟨0, -60⟩)) ["F"]).graph.pos "R" = ⟨0, 0⟩
    rw [hend]
    show (handleCreateRoot cfg0 g71 ds7).pos "R" = ⟨0, 0⟩
    rw [hcrR, hpR]
  · show (handleDragEnd cfg0 (step ext0 cfg0 ⟨g7, some ds70, 0⟩
      (.move ["F"] ⟨0, -60⟩)) ["F"]).graph.nodes =
      [⟨"R", true, false⟩, ⟨"F", true, false⟩]
    rw [hend]
    exact hcrnodes
  · show boxesOverlap
      (nodeBox ext0 (handleDragEnd cfg0 (step ext0 cfg0 ⟨g7, some ds70, 0⟩
        (.move ["F"] ⟨0, -60⟩)) ["F"]).graph.pos "F")
      (nodeBox ext0 (handleDragEnd cfg0 (step ext0 cfg0 ⟨g7, some ds70, 0⟩
        (.move ["F"] ⟨0, -60⟩)) ["F"]).graph.pos "R") = true
    rw [hend]
    show boxesOverlap (nodeBox ext0 (handleCreateRoot cfg0 g71 ds7).pos "F")
      (nodeBox ext0 (handleCreateRoot cfg0 g71 ds7).pos "R") = true
    simp only [nodeBox, hcrF, hcrR, hpF2, hpR]
    norm_num [boxesOverlap, ext0]

/-- C1 (amended).  The exact notification discipline, per event: a
`dragStart` never fires; a move without a session never fires; a free
(snapped-out) move never fires; an attached calibrated move fires exactly
when the vertical displacement crosses the threshold (the detachment); and
a `dragEnd` on the dragged node fires exactly when the session is snapped
out and either the root band is armed or a drop target is highlighted.  In
particular a gesture that detaches and then drops on another node or in
the root band fires twice, not once. -/
theorem C1_notification_per_event (ext : Extents) (cfg : Config) :
    (∀ s ids, (step ext cfg s (.start ids)).hierarchyChanges =
      s.hierarchyChanges) ∧
    (∀ s ids ptr, s.drag = none →
      (step ext cfg s (.move ids ptr)).hierarchyChanges =
        s.hierarchyChanges) ∧
    (∀ s ds ids ptr, s.drag = some ds → ds.snappedOut = true →
      (step ext cfg s (.move ids ptr)).hierarchyChanges =
        s.hierarchyChanges) ∧
    (∀ s ds nodeId ptr off, s.drag = some ds → ds.snappedOut = false →
      ds.subtree.rootId = nodeId → ds.pointerOffset = some off →
      (step ext cfg s (.move [nodeId] ptr)).hierarchyChanges =
        s.hierarchyChanges +
          (if cfg.snapOutThreshold < |ptr.y - off.y - ds.originalY|
           then 1 else 0)) ∧
    (∀ s ds nodeId, s.drag = some ds → ds.subtree.rootId = nodeId →
      (step ext cfg s (.finish [nodeId])).hierarchyChanges =
        s.hierarchyChanges +
          (if ds.snappedOut = true ∧
              (ds.isOverTopBar = true ∨ ds.highlightedNodeId.isSome = true)
           then 1 else 0)) := by
  refine ⟨?_, ?_, ?_, ?_, ?_⟩
  · intro s ids
    exact handleDragStart_count s ids
  · intro s ids ptr hd
    show (handleDragging ext cfg s ids ptr).hierarchyChanges = _
    unfold handleDragging
    rw [hd]
  · intro s ds ids ptr hds hsn
    exact (step_move_snapped ext cfg s ds ids ptr hds hsn).2.1
  · intro s ds nodeId ptr off hds hsn hroot hoff
    rw [step_move_eq_hasOffset ext cfg s ds nodeId ptr off hds hroot hoff,
      if_neg (by rw [hsn]; exact Bool.false_ne_true)]
    dsimp only
    by_cases hc : cfg.snapOutThreshold < |ptr.y - off.y - ds.originalY|
    · have hout : cfg.snapOutThreshold <
          |ptr.y - (ds.pointerOffset.getD ⟨0, 0⟩).y - ds.originalY| := by
        rw [hoff]; exact hc
      rw [handleConnectedDragging_eq_detach cfg s.graph ds nodeId ptr hout]
      simp [hc]
    · have hin : ¬ cfg.snapOutThreshold <
          |ptr.y - (ds.pointerOffset.getD ⟨0, 0⟩).y - ds.originalY| := by
        rw [hoff]; exact hc
      rw [handleConnectedDragging_eq_rubber cfg s.graph ds nodeId ptr hin]
      simp [hc]
  · intro s ds nodeId hds hroot
    exact handleDragEnd_count cfg s ds nodeId hds hroot

/-- Witness for C1: a crossing attached move fires (count 0 → 1); an
attached move within the threshold does not (count stays 0); a drag-end of
a snapped-out session with no armed band and no highlight does not (count
stays 3). -/
theorem C1_notification_per_event_witness :
    (step ext0 cfg0 ⟨gPAB, some dsA, 0⟩
      (.move ["A"] ⟨-100, 400⟩)).hierarchyChanges = 1 ∧
    (step ext0 cfg0 ⟨gPAB, some dsA, 0⟩
      (.move ["A"] ⟨-100, 120⟩)).hierarchyChanges = 0 ∧
    (step ext0 cfg0 ⟨gPAB, some dsA2, 3⟩
      (.finish ["A"])).hierarchyChanges = 3 := by
  refine ⟨?_, ?_, ?_⟩
  · have h := (C1_notification_per_event ext0 cfg0).2.2.2.1
      ⟨gPAB, some dsA, 0⟩ dsA "A" ⟨-100, 400⟩ ⟨0, 0⟩ rfl rfl rfl rfl
    rw [h]
    norm_num [dsA, cfg0]
  · have h := (C1_notification_per_event ext0 cfg0).2.2.2.1
      ⟨gPAB, some dsA, 0⟩ dsA "A" ⟨-100, 120⟩ ⟨0, 0⟩ rfl rfl rfl rfl
    rw [h]
    norm_num [dsA, cfg0]
  · have h := (C1_notification_per_event ext0 cfg0).2.2.2.2
      ⟨gPAB, some dsA2, 3⟩ dsA2 "A" rfl rfl
    rw [h]
    decide

/-- Component-wise equality of graph states. -/
theorem GraphState.ext2 (g h : GraphState) (hn : g.nodes = h.nodes)
    (he : g.edges = h.edges) (hp : ∀ i, g.pos i = h.pos i) : g = h := by
  cases g with
  | mk n e p =>
      cases h with
      | mk n2 e2 p2 =>
          obtain rfl : n = n2 := hn
          obtain rfl : e = e2 := he
          obtain rfl : p = p2 := funext hp
          rfl

/-- C1 counterexample.  The gesture on `gPAB` that starts on the attached
`A`, detaches it with a move past the threshold, then moves it over `B` and
drops it fires the hierarchy notification twice — once at detachment and
once at the attach on drop — contradicting the claim's "exactly once in
total". -/
theorem C1_double_fire_counterexample :
    (runEvents ext0 cfg0 ⟨gPAB, none, 0⟩
      [.start ["A"], .move ["A"] ⟨-100, 400⟩, .move ["A"] ⟨100, 100⟩,
       .finish ["A"]]).hierarchyChanges = 2 := by
  have hrun : runEvents ext0 cfg0 ⟨gPAB, none, 0⟩
      [.start ["A"], .move ["A"] ⟨-100, 400⟩, .move ["A"] ⟨100, 100⟩,
       .finish ["A"]] =
      step ext0 cfg0 (step ext0 cfg0 (step ext0 cfg0 (step ext0 cfg0
        ⟨gPAB, none, 0⟩ (.start ["A"])) (.move ["A"] ⟨-100, 400⟩))
        (.move ["A"] ⟨100, 100⟩)) (.finish ["A"]) := rfl
  have hstart : step ext0 cfg0 ⟨gPAB, none, 0⟩ (.start ["A"]) =
      ⟨gPAB, some dsA0, 0⟩ := rfl
  have hcal : calibratedOffset ⟨-100, 400⟩
      ((⟨gPAB, some dsA0, 0⟩ : MachineState).graph.pos "A") = ⟨0, 0⟩ := by
    show calibratedOffset ⟨-100, 400⟩ (gPAB.pos "A") = ⟨0, 0⟩
    rw [show gPAB.pos "A" = ⟨-100, 100⟩ from rfl]
    norm_num [calibratedOffset]
  have hstep2 := step_move_eq_noOffset ext0 cfg0 ⟨gPAB, some dsA0, 0⟩ dsA0 "A"
    ⟨-100, 400⟩ rfl rfl rfl
  rw [if_neg (show ¬ dsA0.snappedOut = true by decide), hcal,
    show ({dsA0 with pointerOffset := some (⟨0, 0⟩ : Pt)} : DragState) = dsA
      from rfl] at hstep2
  dsimp only at hstep2
  have hout : cfg0.snapOutThreshold <
      |(⟨-100, 400⟩ : Pt).y - ((dsA.pointerOffset).getD ⟨0, 0⟩).y -
        dsA.originalY| := by
    norm_num [cfg0, dsA]
  rw [handleConnectedDragging_eq_detach cfg0 gPAB dsA "A" ⟨-100, 400⟩ hout]
    at hstep2
  have hdrag2 : (step ext0 cfg0 ⟨gPAB, some dsA0, 0⟩
      (.move ["A"] ⟨-100, 400⟩)).drag = some dsA2 := by
    rw [hstep2]
    rfl
  have hcount2 : (step ext0 cfg0 ⟨gPAB, some dsA0, 0⟩
      (.move ["A"] ⟨-100, 400⟩)).hierarchyChanges = 1 := by
    rw [hstep2]
    rfl
  have hgraph2 : (step ext0 cfg0 ⟨gPAB, some dsA0, 0⟩
      (.move ["A"] ⟨-100, 400⟩)).graph = gDet := by
    rw [hstep2]
    dsimp only
    refine GraphState.ext2 _ _ rfl rfl ?_
    intro i
    by_cases hid : i = "A"
    · subst hid
      rw [show gDet.pos "A" = ⟨-100, 400⟩ from rfl]
      refine (applyUpdates_createSubtree_rootPos _ _ _ _ _ (by decide)).trans ?_
      norm_num [dsA, Pt.mk.injEq]
    · have hgd : gDet.pos i = gPAB.pos i := by
        simp only [gDet]
        rw [if_neg hid]
      rw [hgd]
      refine (createSubtree_pos_frame _ _ _ _ _ i ?_).trans ?_
      · show i ∉ ("A" :: ([] : List NodeId))
        simpa using hid
      · have hcore : ∀ j,
            (clearRootFlag (detachParentEdge gPAB "A") "A").pos j =
              gPAB.pos j := by
          intro j
          rw [clearRootFlag_pos, detachParentEdge_pos]
        rw [restoreOutside_pos _ _ _ hcore i, hcore i]
  have hstep3 := step_move_eq_hasOffset ext0 cfg0
    (step ext0 cfg0 ⟨gPAB, some dsA0, 0⟩ (.move ["A"] ⟨-100, 400⟩)) dsA2 "A"
    ⟨100, 100⟩ ⟨0, 0⟩ hdrag2 rfl rfl
  rw [if_pos (show dsA2.snappedOut = true from rfl), hgraph2] at hstep3
  have hn3 : gMove2.nodes = gPAB.nodes := rfl
  have he3 : gMove2.edges = [⟨"pb", "P", "B"⟩] := rfl
  have hpA3 : gMove2.pos "A" =
      ⟨(⟨100, 100⟩ : Pt).x - (dsA2.pointerOffset.getD ⟨0, 0⟩).x,
       (⟨100, 100⟩ : Pt).y - (dsA2.pointerOffset.getD ⟨0, 0⟩).y⟩ :=
    applyUpdates_createSubtree_rootPos _ _ _ _ _ (by decide)
  have hpA3b : gMove2.pos "A" = ⟨100, 100⟩ := by
    rw [hpA3]
    norm_num [dsA2, Pt.mk.injEq]
  have hpP3 : gMove2.pos "P" = ⟨0, 0⟩ :=
    (createSubtree_pos_frame _ _ _ _ _ "P" (by decide)).trans rfl
  have hpB3 : gMove2.pos "B" = ⟨100, 100⟩ :=
    (createSubtree_pos_frame _ _ _ _ _ "B" (by decide)).trans rfl
  have hfind3 : (getSnappedNodeIds gMove2.nodes gMove2.edges).find?
      (fun sid => sid ∉ getSubtreeNodeIds dsA2.subtree ∧
        boxesOverlap (nodeBox ext0 gMove2.pos "A")
          (nodeBox ext0 gMove2.pos sid) = true) = some "B" := by
    rw [hn3, he3, show getSnappedNodeIds gPAB.nodes [⟨"pb", "P", "B"⟩] =
      ["P", "B"] from rfl]
    have hP : ¬ ("P" ∉ getSubtreeNodeIds dsA2.subtree ∧
        boxesOverlap (nodeBox ext0 gMove2.pos "A")
          (nodeBox ext0 gMove2.pos "P") = true) := by
      simp only [not_and]
      intro hmem
      simp only [nodeBox, hpA3b, hpP3, boxesOverlap, ext0]
      norm_num
    have hB : "B" ∉ getSubtreeNodeIds dsA2.subtree ∧
        boxesOverlap (nodeBox ext0 gMove2.pos "A")
          (nodeBox ext0 gMove2.pos "B") = true := by
      refine ⟨by decide, ?_⟩
      simp only [nodeBox, hpA3b, hpB3, boxesOverlap, ext0]
      norm_num
    rw [List.find?_cons_of_neg _ (by simpa using hP),
      List.find?_cons_of_pos _ (by simpa using hB)]
  have hhl3 : (handleFreeDragging ext0 cfg0 gDet dsA2 "A"
      ⟨100, 100⟩).2.highlightedNodeId = some "B" := by
    rw [handleFreeDragging_highlight_sel]
    exact hfind3
  have hsess := handleFreeDragging_session ext0 cfg0 gDet dsA2 "A" ⟨100, 100⟩
  have hsn3 : (handleFreeDragging ext0 cfg0 gDet dsA2 "A"
      ⟨100, 100⟩).2.snappedOut = true := hsess.1.trans rfl
  have hsub3 : (handleFreeDragging ext0 cfg0 gDet dsA2 "A"
      ⟨100, 100⟩).2.subtree = dsA2.subtree := hsess.2.1
  have hcount3 : (step ext0 cfg0 (step ext0 cfg0 ⟨gPAB, some dsA0, 0⟩
      (.move ["A"] ⟨-100, 400⟩)) (.move ["A"] ⟨100, 100⟩)).hierarchyChanges =
      1 := by
    rw [hstep3]
    exact hcount2
  have hdrag3 : (step ext0 cfg0 (step ext0 cfg0 ⟨gPAB, some dsA0, 0⟩
      (.move ["A"] ⟨-100, 400⟩)) (.move ["A"] ⟨100, 100⟩)).drag =
      some (handleFreeDragging ext0 cfg0 gDet dsA2 "A" ⟨100, 100⟩).2 := by
    rw [hstep3]
  have hfin := handleDragEnd_count cfg0
    (step ext0 cfg0 (step ext0 cfg0 ⟨gPAB, some dsA0, 0⟩
      (.move ["A"] ⟨-100, 400⟩)) (.move ["A"] ⟨100, 100⟩))
    (handleFreeDragging ext0 cfg0 gDet dsA2 "A" ⟨100, 100⟩).2 "A"
    hdrag3 (by rw [hsub3]; rfl)
  rw [hrun, hstart]
  show (handleDragEnd cfg0 (step ext0 cfg0 (step ext0 cfg0
    ⟨gPAB, some dsA0, 0⟩ (.move ["A"] ⟨-100, 400⟩)) (.move ["A"] ⟨100, 100⟩))
    ["A"]).hierarchyChanges = 2
  rw [hfin, hcount3, hsn3, hhl3]
  simp

/-! ## The layout pass -/

/-- C6 counterexample.  In `gC6` the claim-sense roots are the edge-based
`A` and the `isRoot`-flagged `E` — more than one root — yet with target
root y `0` the layout leaves `A` at `y = 50`: the multi-root per-tree
alignment only triggers on the edge-based root list, which has length one
here, so the single-branch global shift (driven by the flagged `E`'s top)
is applied and the root `A` does not land on the target y. -/
theorem C6_flagged_root_not_aligned_counterexample :
    (∃ e ∈ gC6.edges, e.fromId = "A") ∧ (∀ e ∈ gC6.edges, e.toId ≠ "A") ∧
    (∃ n ∈ gC6.nodes, n.id = "E" ∧ n.isRoot = true) ∧
    (arrangeNodes 100 150 0 gC6).map (fun g2 => g2.pos "A") = .ok ⟨0, 50⟩ ∧
    (arrangeNodes 100 150 0 gC6).map (fun g2 => g2.pos "E") = .ok ⟨0, 0⟩ := by
  refine ⟨⟨⟨"ab", "A", "B"⟩, by decide, rfl⟩, by decide,
    ⟨⟨"E", true, false⟩, by decide, rfl, rfl⟩, ?_, ?_⟩ <;>
    · norm_num +decide [arrangeNodes, gC6, getRootNodeIds, connectedIdsList,
        childIdsList, insertOnce, foldMinY, foldMaxY, connUpdates, freeUpdatesOf,
        calculateFreeNodesGrid, applyUpdates, applyUpdate, Except.map,
        TOP_BAR_NODE_ID]
      rfl

theorem mem_insertOnce {xs : List NodeId} {x i : NodeId}
    (h : i ∈ insertOnce xs x) : i ∈ xs ∨ i = x := by
  unfold insertOnce at h
  split at h
  · exact Or.inl h
  · rcases List.mem_append.mp h with hx | hx
    · exact Or.inl hx
    · exact Or.inr (List.mem_singleton.mp hx)

theorem insertOnce_nodup {xs : List NodeId} {x : NodeId} (h : xs.Nodup) :
    (insertOnce xs x).Nodup := by
  unfold insertOnce
  split
  · exact h
  · next hx =>
      refine List.Nodup.append h (List.nodup_singleton x) ?_
      intro a ha hax
      rw [List.mem_singleton.mp hax] at ha
      exact hx ha

theorem connectedIdsList_nodup (edges : List VisEdge) :
    (connectedIdsList edges).Nodup := by
  suffices hgen : ∀ (acc : List NodeId), acc.Nodup →
      (edges.foldl (fun acc e => insertOnce (insertOnce acc e.fromId) e.toId)
        acc).Nodup by
    exact hgen [] List.nodup_nil
  induction edges with
  | nil => intro acc h; exact h
  | cons e es ih =>
      intro acc h
      exact ih _ (insertOnce_nodup (insertOnce_nodup h))

theorem mem_connectedIdsList_endpoint {edges : List VisEdge} {i : NodeId}
    (h : i ∈ connectedIdsList edges) :
    ∃ e ∈ edges, e.fromId = i ∨ e.toId = i := by
  have hgen : ∀ (es : List VisEdge) (acc : List NodeId),
      i ∈ es.foldl (fun acc e => insertOnce (insertOnce acc e.fromId) e.toId)
        acc →
      i ∈ acc ∨ ∃ e ∈ es, e.fromId = i ∨ e.toId = i := by
    intro es
    induction es with
    | nil => intro acc hm; exact Or.inl hm
    | cons e es2 ih =>
        intro acc hm
        rw [List.foldl_cons] at hm
        rcases ih _ hm with hc | ⟨e2, he2, hi2⟩
        · rcases mem_insertOnce hc with hc2 | rfl
          · rcases mem_insertOnce hc2 with hc3 | rfl
            · exact Or.inl hc3
            · exact Or.inr ⟨e, List.mem_cons_self .., Or.inl rfl⟩
          · exact Or.inr ⟨e, List.mem_cons_self .., Or.inr rfl⟩
        · exact Or.inr ⟨e2, List.mem_cons_of_mem _ he2, hi2⟩
  rcases hgen edges [] h with hc | hc
  · cases hc
  · exact hc

theorem getRootNodeIds_nodup (edges : List VisEdge) :
    (getRootNodeIds edges).Nodup :=
  (connectedIdsList_nodup edges).filter _

theorem mem_getRootNodeIds_connected {edges : List VisEdge} {r : NodeId}
    (h : r ∈ getRootNodeIds edges) : r ∈ connectedIdsList edges :=
  List.mem_of_mem_filter h

theorem getRootNodeIds_not_target {edges : List VisEdge} {r : NodeId}
    (h : r ∈ getRootNodeIds edges) : ∀ e ∈ edges, e.toId ≠ r := by
  intro e he hc
  have h2 : r ∉ childIdsList edges := by
    simpa using (List.mem_filter.mp h).2
  exact h2 (by rw [← hc]; exact List.mem_map_of_mem _ he)

/-- The `.ok` outcome of the defensive descendant walk: distinct ids, none
of them the start node, all of them edge targets. -/
theorem getAllDescendantIds_ok_spec {r : NodeId} {edges : List VisEdge}
    {ds : List NodeId} (h : getAllDescendantIds r edges = .ok ds) :
    ds.Nodup ∧ r ∉ ds ∧ ∀ d ∈ ds, ∃ e ∈ edges, e.toId = d := by
  obtain ⟨hnd, htg⟩ := bfsDesc_ok_spec edges (descFuel edges) [r] [r] ds h
    (by simp)
  have hcons : (r :: ds).Nodup := by simpa using hnd
  exact ⟨(List.nodup_cons.mp hcons).2, (List.nodup_cons.mp hcons).1, htg⟩

theorem mem_enumFrom_snd {α : Type} :
    ∀ (l : List α) (n : Nat) (p : Nat × α), p ∈ l.enumFrom n → p.2 ∈ l := by
  intro l
  induction l with
  | nil => intro n p h; cases h
  | cons a t ih =>
      intro n p h
      rcases List.mem_cons.mp h with rfl | h2
      · exact List.mem_cons_self ..
      · exact List.mem_cons_of_mem _ (ih (n + 1) p h2)

/-- Pointwise value of the descendant-override fold of `shiftStep`. -/
theorem shiftFold_apply (yS : ℚ) (ds : List NodeId)
    (base : NodeId → Option ℚ) (id : NodeId) :
    (ds.foldl (fun acc d => fun i => if i = d then some yS else acc i) base) id =
      if id ∈ ds then some yS else base id := by
  induction ds generalizing base with
  | nil => simp
  | cons d ds ih =>
      rw [List.foldl_cons, ih]
      by_cases hid : id ∈ ds
      · simp [hid]
      · by_cases hd : id = d
        · simp [hid, hd]
        · simp [hid, hd]

/-- Elimination of one successful `shiftStep`. -/
theorem shiftStep_ok_elim {ty : ℚ} {g : GraphState}
    {sh sh2 : NodeId → Option ℚ} {r : NodeId}
    (h : shiftStep ty g sh r = .ok sh2) :
    ∃ ds, getAllDescendantIds r g.edges = .ok ds ∧
      ∀ id, sh2 id = if id ∈ ds then some (ty - (g.pos r).y)
        else if id = r then some (ty - (g.pos r).y) else sh id := by
  unfold shiftStep at h
  cases hds : getAllDescendantIds r g.edges with
  | error e =>
      rw [hds] at h
      exact absurd h (by simp [Bind.bind, Except.bind])
  | ok ds =>
      rw [hds] at h
      refine ⟨ds, rfl, ?_⟩
      have h2 : sh2 = ds.foldl
          (fun acc d => fun i => if i = d then some (ty - (g.pos r).y) else acc i)
          (fun id => if id = r then some (ty - (g.pos r).y) else sh id) := by
        have h3 := h
        simp only [Bind.bind, Except.bind, pure, Except.pure] at h3
        exact (Except.ok.inj h3).symm
      intro id
      rw [h2, shiftFold_apply]

/-- The multi-root shift fold: (i) every entry is either untouched or some
root's shift; (ii) ids no root writes keep their entry; (iii) an id that is
a given root (or one of its descendants) and is not touched by any other
root carries exactly that root's shift. -/
theorem shifts_fold_spec (ty : ℚ) (g : GraphState) :
    ∀ (roots : List NodeId) (acc sh : NodeId → Option ℚ),
      roots.foldlM (shiftStep ty g) acc = .ok sh →
      ((∀ id, sh id = acc id ∨ ∃ r ∈ roots, sh id = some (ty - (g.pos r).y)) ∧
       (∀ id, (∀ r ∈ roots, id ≠ r ∧
           ∀ ds, getAllDescendantIds r g.edges = .ok ds → id ∉ ds) →
         sh id = acc id) ∧
       (∀ r ∈ roots, ∀ ds, getAllDescendantIds r g.edges = .ok ds →
         ∀ d, (d = r ∨ d ∈ ds) →
         (∀ r2 ∈ roots, r2 ≠ r → d ≠ r2 ∧
           ∀ ds2, getAllDescendantIds r2 g.edges = .ok ds2 → d ∉ ds2) →
         sh d = some (ty - (g.pos r).y))) := by
  intro roots
  induction roots with
  | nil =>
      intro acc sh h
      have hsh : sh = acc := by
        simp only [List.foldlM, pure, Except.pure] at h
        exact (Except.ok.inj h).symm
      subst hsh
      refine ⟨fun id => Or.inl rfl, fun id _ => rfl, ?_⟩
      intro r hr
      cases hr
  | cons r0 rest ih =>
      intro acc sh h
      simp only [List.foldlM] at h
      cases hstep : shiftStep ty g acc r0 with
      | error e =>
          rw [hstep] at h
          exact absurd h (by simp [Bind.bind, Except.bind])
      | ok acc1 =>
          rw [hstep] at h
          simp only [Bind.bind, Except.bind] at h
          obtain ⟨hB, hC, hD⟩ := ih acc1 sh h
          obtain ⟨ds0, hds0, hval0⟩ := shiftStep_ok_elim hstep
          refine ⟨?_, ?_, ?_⟩
          · intro id
            rcases hB id with h1 | ⟨r2, hr2, hv⟩
            · rw [h1, hval0 id]
              by_cases h2 : id ∈ ds0
              · exact Or.inr ⟨r0, List.mem_cons_self .., by simp [h2]⟩
              · by_cases h3 : id = r0
                · exact Or.inr ⟨r0, List.mem_cons_self .., by simp [h2, h3]⟩
                · exact Or.inl (by simp [h2, h3])
            · exact Or.inr ⟨r2, List.mem_cons_of_mem _ hr2, hv⟩
          · intro id hid
            have h1 : sh id = acc1 id :=
              hC id (fun r2 hr2 => hid r2 (List.mem_cons_of_mem _ hr2))
            rw [h1, hval0 id]
            obtain ⟨hne, hnds⟩ := hid r0 (List.mem_cons_self ..)
            rw [if_neg (hnds ds0 hds0), if_neg hne]
          · intro r hr ds hds d hd hother
            rcases List.mem_cons.mp hr with rfl | hrest
            · by_cases hr0rest : r ∈ rest
              · exact hD r hr0rest ds hds d hd
                  (fun r2 hr2 hne => hother r2 (List.mem_cons_of_mem _ hr2) hne)
              · have hframe : sh d = acc1 d := by
                  refine hC d ?_
                  intro r2 hr2
                  exact hother r2 (List.mem_cons_of_mem _ hr2)
                    (fun hc => hr0rest (hc ▸ hr2))
                rw [hframe, hval0 d]
                rw [hds0] at hds
                cases hds
                rcases hd with rfl | hdds
                · by_cases h2 : d ∈ ds0
                  · rw [if_pos h2]
                  · rw [if_neg h2, if_pos rfl]
                · rw [if_pos hdds]
            · exact hD r hrest ds hds d hd
                (fun r2 hr2 hne => hother r2 (List.mem_cons_of_mem _ hr2) hne)

theorem mem_insertOnce_self (xs : List NodeId) (x : NodeId) :
    x ∈ insertOnce xs x := by
  unfold insertOnce
  split
  · assumption
  · simp

theorem mem_insertOnce_mono {xs : List NodeId} {i : NodeId} (x : NodeId)
    (h : i ∈ xs) : i ∈ insertOnce xs x := by
  unfold insertOnce
  split
  · exact h
  · exact List.mem_append_left _ h

theorem endpoint_mem_connectedIdsList {edges : List VisEdge} {e : VisEdge}
    (he : e ∈ edges) :
    e.fromId ∈ connectedIdsList edges ∧ e.toId ∈ connectedIdsList edges := by
  have hmono : ∀ (es : List VisEdge) (acc : List NodeId) (i : NodeId),
      i ∈ acc →
      i ∈ es.foldl (fun acc e => insertOnce (insertOnce acc e.fromId) e.toId)
        acc := by
    intro es
    induction es with
    | nil => intro acc i h; exact h
    | cons e2 es2 ih =>
        intro acc i h
        rw [List.foldl_cons]
        exact ih _ i (mem_insertOnce_mono _ (mem_insertOnce_mono _ h))
  have hgen : ∀ (es : List VisEdge) (acc : List NodeId), e ∈ es →
      e.fromId ∈ es.foldl
        (fun acc e => insertOnce (insertOnce acc e.fromId) e.toId) acc ∧
      e.toId ∈ es.foldl
        (fun acc e => insertOnce (insertOnce acc e.fromId) e.toId) acc := by
    intro es
    induction es with
    | nil => intro acc h; cases h
    | cons e2 es2 ih =>
        intro acc h
        rcases List.mem_cons.mp h with rfl | h2
        · rw [List.foldl_cons]
          constructor
          · exact hmono _ _ _ (mem_insertOnce_mono _ (mem_insertOnce_self _ _))
          · exact hmono _ _ _ (mem_insertOnce_self _ _)
        · rw [List.foldl_cons]
          exact ih _ h2
  exact hgen edges [] he

/-- Every root's descendant walk succeeded when the shift fold did. -/
theorem shifts_fold_desc_ok {ty : ℚ} {g : GraphState} :
    ∀ (roots : List NodeId) (acc sh : NodeId → Option ℚ),
      roots.foldlM (shiftStep ty g) acc = .ok sh →
      ∀ r ∈ roots, ∃ ds, getAllDescendantIds r g.edges = .ok ds := by
  intro roots
  induction roots with
  | nil =>
      intro acc sh h r hr
      cases hr
  | cons r0 rest ih =>
      intro acc sh h r hr
      simp only [List.foldlM] at h
      cases hstep : shiftStep ty g acc r0 with
      | error e =>
          rw [hstep] at h
          exact absurd h (by simp [Bind.bind, Except.bind])
      | ok acc1 =>
          rw [hstep] at h
          simp only [Bind.bind, Except.bind] at h
          rcases List.mem_cons.mp hr with rfl | hrest
          · obtain ⟨ds0, hds0, _⟩ := shiftStep_ok_elim hstep
            exact ⟨ds0, hds0⟩
          · exact ih acc1 sh h r hrest

theorem mem_connUpdates {g : GraphState} {rootIds : List NodeId}
    {cNodes : List VisNode} {shift : NodeId → ℚ} {u : NodeUpdate}
    (h : u ∈ connUpdates g rootIds cNodes shift) :
    ∃ n ∈ cNodes, u.id = n.id := by
  rcases List.mem_map.mp h with ⟨n, hn, rfl⟩
  exact ⟨n, hn, rfl⟩

theorem mem_freeUpdatesOf {startY fs : ℚ} {cols : Nat}
    {fNodes : List VisNode} {u : NodeUpdate}
    (h : u ∈ freeUpdatesOf startY fs cols fNodes) :
    ∃ m ∈ fNodes, u.id = m.id := by
  rcases List.mem_map.mp h with ⟨p, hp, rfl⟩
  exact ⟨p.2, mem_enumFrom_snd _ _ _ (by simpa [List.enum] using hp), rfl⟩

/-- The final position of a connected node under the layout batch: kept x,
shifted y (the trailing updates must avoid its id). -/
theorem applyUpdates_connUpdates_pos (g : GraphState) (rootIds : List NodeId)
    (cNodes : List VisNode) (shift : NodeId → ℚ) (rest : List NodeUpdate)
    (n : VisNode) (hcn : n ∈ cNodes)
    (hnd : (cNodes.map (fun m => m.id)).Nodup)
    (hrest : ∀ u ∈ rest, u.id ≠ n.id) :
    (applyUpdates g (connUpdates g rootIds cNodes shift ++ rest)).pos n.id =
      ⟨(g.pos n.id).x, (g.pos n.id).y + shift n.id⟩ := by
  rcases List.append_of_mem hcn with ⟨l1, l2, rfl⟩
  have hnotl2 : ∀ m ∈ l2, m.id ≠ n.id := by
    intro m hm hc
    have h2 : ((l1 ++ n :: l2).map (fun m => m.id)).Nodup := hnd
    rw [List.map_append, List.map_cons] at h2
    have h3 := (List.nodup_cons.mp (h2.sublist (List.sublist_append_right _ _))).1
    exact h3 (hc ▸ List.mem_map_of_mem _ hm)
  simp only [connUpdates, List.map_append, List.map_cons]
  rw [List.append_assoc, List.cons_append]
  refine applyUpdates_pos_lastWrite g _ _ _ _ _ rfl rfl ?_
  intro v hv
  rcases List.mem_append.mp hv with hv2 | hv2
  · rcases List.mem_map.mp hv2 with ⟨m, hm, rfl⟩
    exact hnotl2 m hm
  · exact hrest v hv2

/-- The final position of a free node under the layout batch: its grid
cell. -/
theorem applyUpdates_freeUpdates_pos (g : GraphState) (pre : List NodeUpdate)
    (startY fs : ℚ) (cols : Nat) (fNodes : List VisNode)
    (k : Nat) (m : VisNode) (hkm : (k, m) ∈ fNodes.enum)
    (hnd : (fNodes.map (fun x => x.id)).Nodup) :
    (applyUpdates g (pre ++ freeUpdatesOf startY fs cols fNodes)).pos m.id =
      ⟨-(((cols : ℚ) - 1) * fs) / 2 + ((k % cols : Nat) : ℚ) * fs,
       startY + ((k / cols : Nat) : ℚ) * fs⟩ := by
  rcases List.append_of_mem hkm with ⟨E1, E2, hsplit⟩
  have hids : ((E1 ++ (k, m) :: E2).map (fun p => p.2.id)).Nodup := by
    have h1 : (fNodes.enum.map (fun p => p.2.id)).Nodup := by
      have h2 : fNodes.enum.map (fun p => p.2.id) =
          (fNodes.enum.map Prod.snd).map (fun x => x.id) := by
        rw [List.map_map]
        rfl
      rw [h2, List.enum_map_snd]
      exact hnd
    rw [hsplit] at h1
    exact h1
  have hnotE2 : ∀ p ∈ E2, p.2.id ≠ m.id := by
    intro p hp hc
    rw [List.map_append, List.map_cons] at hids
    have h3 := (List.nodup_cons.mp
      (hids.sublist (List.sublist_append_right _ _))).1
    exact h3 (hc ▸ List.mem_map_of_mem _ hp)
  unfold freeUpdatesOf
  rw [hsplit, List.map_append, List.map_cons, ← List.append_assoc]
  refine applyUpdates_pos_lastWrite g _ _ _ _ _ rfl rfl ?_
  intro v hv
  rcases List.mem_map.mp hv with ⟨p, hp, rfl⟩
  exact hnotE2 p hp

/-- C6 (amended).  When the **edge-based** root list has several entries,
the layout aligns every edge-based dataset root exactly at the target root
y (keeping its x), and every descendant reached from exactly one root is
shifted by exactly its root's shift.  (`isRoot`-flagged nodes without
edges are not in that list and are not aligned — see the
counterexample.) -/
theorem C6_multi_root_alignment (ftm fs ty : ℚ) (g g2 : GraphState)
    (hnd : (nodeIds g).Nodup)
    (hlen : 1 < (getRootNodeIds g.edges).length)
    (hok : arrangeNodes ftm fs ty g = .ok g2) :
    ∀ r ∈ getRootNodeIds g.edges, r ∈ nodeIds g →
      g2.pos r = ⟨(g.pos r).x, ty⟩ ∧
      (∀ ds, getAllDescendantIds r g.edges = .ok ds →
        ∀ d ∈ ds, d ∈ nodeIds g →
          (∀ r2 ∈ getRootNodeIds g.edges, r2 ≠ r →
            ∀ ds2, getAllDescendantIds r2 g.edges = .ok ds2 → d ∉ ds2) →
          g2.pos d = ⟨(g.pos d).x, (g.pos d).y + (ty - (g.pos r).y)⟩) := by
  intro r hr hrn
  rcases List.mem_map.mp hrn with ⟨n, hn, hni⟩
  have hconn : r ∈ connectedIdsList g.edges := mem_getRootNodeIds_connected hr
  have hmemfilter : n ∈ g.nodes.filter
      (fun m => m.id ∈ connectedIdsList g.edges ∨ m.isRoot = true) :=
    List.mem_filter.mpr ⟨hn, by simp [hni, hconn]⟩
  have hndc : ((g.nodes.filter
      (fun m => m.id ∈ connectedIdsList g.edges ∨ m.isRoot = true)).map
        (fun m => m.id)).Nodup :=
    List.Nodup.sublist ((List.filter_sublist _).map _) hnd
  have hguard : ¬ ((g.nodes.filter
      (fun m => m.id ∈ connectedIdsList g.edges ∨ m.isRoot = true)).isEmpty =
        true ∧
      (g.nodes.filter
        (fun m => ¬ m.id ∈ connectedIdsList g.edges ∧ m.isRoot = false)).isEmpty =
        true) := by
    intro hcontra
    have h1 := hcontra.1
    rw [List.isEmpty_iff] at h1
    rw [h1] at hmemfilter
    cases hmemfilter
  simp only [arrangeNodes] at hok
  rw [if_neg hguard, if_pos hlen] at hok
  cases hfold : (getRootNodeIds g.edges).foldlM (shiftStep ty g)
      (fun _ => none) with
  | error e =>
      rw [hfold] at hok
      exact absurd hok (by simp [Bind.bind, Except.bind])
  | ok sh =>
      rw [hfold] at hok
      simp only [Bind.bind, Except.bind, pure, Except.pure] at hok
      cases hok
      obtain ⟨hB, hC, hD⟩ := shifts_fold_spec ty g (getRootNodeIds g.edges)
        _ sh hfold
      obtain ⟨ds0, hds0⟩ := shifts_fold_desc_ok _ _ _ hfold r hr
      have hother : ∀ r2 ∈ getRootNodeIds g.edges, r2 ≠ r → r ≠ r2 ∧
          ∀ ds2, getAllDescendantIds r2 g.edges = .ok ds2 → r ∉ ds2 := by
        intro r2 hr2 hne
        refine ⟨Ne.symm hne, ?_⟩
        intro ds2 hds2 hrds2
        obtain ⟨_, _, htg⟩ := getAllDescendantIds_ok_spec hds2
        obtain ⟨e, he, hte⟩ := htg r hrds2
        exact getRootNodeIds_not_target hr e he hte
      have hshr : sh r = some (ty - (g.pos r).y) :=
        hD r hr ds0 hds0 r (Or.inl rfl) hother
      have hfrees : ∀ (sY fsv : ℚ) (cols : Nat) (u : NodeUpdate),
          u ∈ freeUpdatesOf sY fsv cols (g.nodes.filter
            (fun m => ¬ m.id ∈ connectedIdsList g.edges ∧ m.isRoot = false)) →
          ∀ i, i ∈ connectedIdsList g.edges → u.id ≠ i := by
        intro sY fsv cols u hu i hiconn hc
        obtain ⟨m, hm, hum⟩ := mem_freeUpdatesOf hu
        have hpredm := (List.mem_filter.mp hm).2
        simp only [decide_eq_true_eq] at hpredm
        exact hpredm.1 ((hum ▸ hc : m.id = i) ▸ hiconn)
      constructor
      · rw [← hni]
        rw [applyUpdates_connUpdates_pos g _ _ _ _ n hmemfilter hndc
          (fun u hu => hfrees _ _ _ u hu (n.id) (hni ▸ hconn))]
        rw [hni, hshr]
        refine congrArg _ ?_
        rw [Option.getD_some]
        ring
      · intro ds hds d hd hdn hother2
        rcases List.mem_map.mp hdn with ⟨nd, hnd2, hndi⟩
        have hdtg : ∃ e ∈ g.edges, e.toId = d :=
          (getAllDescendantIds_ok_spec hds).2.2 d hd
        have hdconn : d ∈ connectedIdsList g.edges := by
          obtain ⟨e, he, hte⟩ := hdtg
          exact hte ▸ (endpoint_mem_connectedIdsList he).2
        have hmemfilter2 : nd ∈ g.nodes.filter
            (fun m => m.id ∈ connectedIdsList g.edges ∨ m.isRoot = true) :=
          List.mem_filter.mpr ⟨hnd2, by simp [hndi, hdconn]⟩
        have hshd : sh d = some (ty - (g.pos r).y) := by
          refine hD r hr ds hds d (Or.inr hd) ?_
          intro r2 hr2 hne
          refine ⟨?_, fun ds2 hds2 => hother2 r2 hr2 hne ds2 hds2⟩
          intro hc
          obtain ⟨e, he, hte⟩ := hdtg
          exact getRootNodeIds_not_target (hc ▸ hr2) e he hte
        rw [← hndi]
        rw [applyUpdates_connUpdates_pos g _ _ _ _ nd hmemfilter2 hndc
          (fun u hu => hfrees _ _ _ u hu (nd.id) (hndi ▸ hdconn))]
        rw [hndi, hshd]
        refine congrArg _ ?_
        rw [Option.getD_some]

/-- Witness for C6: two trees whose roots start at `y = 10` and `y = 30`
both land exactly on the target root y `0`, and `R1`'s child `C` is
shifted by `R1`'s shift `-10`. -/
theorem C6_multi_root_alignment_witness :
    ∃ g2, arrangeNodes 100 150 0 gC6w = .ok g2 ∧
      g2.pos "R1" = ⟨0, 0⟩ ∧ g2.pos "R2" = ⟨50, 0⟩ ∧ g2.pos "C" = ⟨0, 100⟩ := by
  refine ⟨_, rfl, ?_, ?_, ?_⟩
  · have h := (C6_multi_root_alignment 100 150 0 gC6w _ (by decide) (by decide)
      rfl) "R1" (by decide) (by decide)
    rw [h.1]
    rfl
  · have h := (C6_multi_root_alignment 100 150 0 gC6w _ (by decide) (by decide)
      rfl) "R2" (by decide) (by decide)
    rw [h.1]
    rfl
  · have h := (C6_multi_root_alignment 100 150 0 gC6w _ (by decide) (by decide)
      rfl) "R1" (by decide) (by decide)
    have hother2 : ∀ r2 ∈ getRootNodeIds gC6w.edges, r2 ≠ "R1" →
        ∀ ds2, getAllDescendantIds r2 gC6w.edges = .ok ds2 → "C" ∉ ds2 := by
      intro r2 hr2 hne ds2 hds2
      have hr2e : r2 = "R1" ∨ r2 = "R2" := by
        have : r2 ∈ ["R1", "R2"] := by
          rw [show getRootNodeIds gC6w.edges = ["R1", "R2"] from rfl] at hr2
          exact hr2
        simpa using this
      rcases hr2e with rfl | rfl
      · exact absurd rfl hne
      · have h4 : ds2 = ["D"] :=
          Except.ok.inj ((hds2.symm).trans
            (rfl : getAllDescendantIds "R2" gC6w.edges = .ok ["D"]))
        rw [h4]
        decide
    rw [h.2 ["C"] rfl "C" (by decide) (by decide) hother2]
    norm_num +decide [gC6w, Pt.mk.injEq]

/-! ## Structure of the node list under a layout batch (towards C8) -/

theorem applyUpdate_nodeIds_of_mem (g : GraphState) (u : NodeUpdate)
    (h : g.nodes.any (fun n => n.id = u.id)) :
    nodeIds (applyUpdate g u) = nodeIds g := by
  unfold nodeIds
  rw [applyUpdate_nodes_of_mem _ _ h, List.map_map]
  refine List.map_congr_left ?_
  intro n _
  simp [patchNode_id]

theorem applyUpdates_nodeIds (g : GraphState) (us : List NodeUpdate)
    (hmem : ∀ u ∈ us, u.id ∈ nodeIds g) :
    nodeIds (applyUpdates g us) = nodeIds g := by
  induction us generalizing g with
  | nil => rfl
  | cons u us ih =>
      rw [applyUpdates_cons]
      have h1 : nodeIds (applyUpdate g u) = nodeIds g :=
        applyUpdate_nodeIds_of_mem g u
          (any_id_of_mem_nodeIds (hmem u (List.mem_cons_self ..)))
      rw [ih (applyUpdate g u)
        (by rw [h1]; exact fun v hv => hmem v (List.mem_cons_of_mem _ hv)), h1]

/-- With every target present, a batch acts on the node list as a pointwise
map: the composite of its patches. -/
theorem applyUpdates_nodes_foldPatch (g : GraphState) (us : List NodeUpdate)
    (hmem : ∀ u ∈ us, u.id ∈ nodeIds g) :
    (applyUpdates g us).nodes =
      g.nodes.map (fun n => us.foldl (fun m u => patchNode u m) n) := by
  induction us generalizing g with
  | nil =>
      simp only [List.foldl_nil]
      rw [applyUpdates_nil, List.map_id']
  | cons u us ih =>
      rw [applyUpdates_cons]
      have hany := any_id_of_mem_nodeIds (hmem u (List.mem_cons_self ..))
      rw [ih (applyUpdate g u)
        (by rw [applyUpdate_nodeIds_of_mem g u hany]
            exact fun v hv => hmem v (List.mem_cons_of_mem _ hv))]
      rw [applyUpdate_nodes_of_mem _ _ hany, List.map_map]
      rfl

theorem foldPatch_id (us : List NodeUpdate) :
    ∀ n : VisNode, (us.foldl (fun m u => patchNode u m) n).id = n.id := by
  induction us with
  | nil => intro n; rfl
  | cons u us ih =>
      intro n
      rw [List.foldl_cons, ih, patchNode_id]

theorem foldPatch_highlighted (us : List NodeUpdate)
    (hh : ∀ u ∈ us, u.uHighlighted = none) :
    ∀ n : VisNode,
      (us.foldl (fun m u => patchNode u m) n).highlighted = n.highlighted := by
  induction us with
  | nil => intro n; rfl
  | cons u us ih =>
      intro n
      rw [List.foldl_cons, ih (fun v hv => hh v (List.mem_cons_of_mem _ hv))]
      unfold patchNode
      split
      · rw [hh u (List.mem_cons_self ..)]
        rfl
      · rfl

/-- The `isRoot` flag under the composite patch of a layout batch: it can
only be promoted, and only for nodes with an edge; it is never cleared.
The hypothesis captures how the layout batch's `isRoot` writes relate to
the original node carrying the same id. -/
theorem foldPatch_isRoot (g : GraphState) (us : List NodeUpdate)
    (hB : ∀ u ∈ us, ∀ b, u.uIsRoot = some b →
      ∀ n ∈ g.nodes, n.id = u.id →
        (b = true → n.isRoot = true ∨ n.id ∈ connectedIdsList g.edges) ∧
        (n.isRoot = true → b = true)) :
    ∀ n ∈ g.nodes, ∀ m : VisNode, m.id = n.id →
      (m.isRoot = true → n.isRoot = true ∨ n.id ∈ connectedIdsList g.edges) →
      (n.isRoot = true → m.isRoot = true) →
      (((us.foldl (fun m u => patchNode u m) m).isRoot = true →
          n.isRoot = true ∨ n.id ∈ connectedIdsList g.edges) ∧
       (n.isRoot = true →
          (us.foldl (fun m u => patchNode u m) m).isRoot = true)) := by
  induction us with
  | nil => intro n _ m _ h1 h2; exact ⟨h1, h2⟩
  | cons u us ih =>
      intro n hn m hmid h1 h2
      rw [List.foldl_cons]
      refine ih (fun v hv => hB v (List.mem_cons_of_mem _ hv)) n hn
        (patchNode u m) (by rw [patchNode_id]; exact hmid) ?_ ?_
      · intro hpr
        unfold patchNode at hpr
        split at hpr
        · cases hu : u.uIsRoot with
          | none => rw [hu] at hpr; exact h1 (by simpa using hpr)
          | some b =>
              rw [hu] at hpr
              have hb : b = true := by simpa using hpr
              subst hb
              exact (hB u (List.mem_cons_self ..) true hu n hn
                (by next hc => rw [← hc]; exact hmid.symm)).1 rfl
        · exact h1 hpr
      · intro hnr
        unfold patchNode
        split
        · cases hu : u.uIsRoot with
          | none => simpa using h2 hnr
          | some b =>
              have hb : b = true :=
                (hB u (List.mem_cons_self ..) b hu n hn
                  (by next hc => rw [← hc]; exact hmid.symm)).2 hnr
              subst hb
              simp
        · exact h2 hnr

theorem foldMinY_eq_q (pos : NodeId → Pt) (ns : List VisNode) :
    foldMinY pos ns = foldMinQ (ns.map (fun n => (pos n.id).y)) := by
  unfold foldMinY foldMinQ
  rw [List.foldl_map]

theorem foldMinQ_shift (c : ℚ) (ys : List ℚ) :
    foldMinQ (ys.map (fun y => y + c)) = (foldMinQ ys).map (fun y => y + c) := by
  have hgen : ∀ (l : List ℚ) (acc : Option ℚ),
      (l.map (fun y => y + c)).foldl
        (fun acc y => match acc with
          | none => some y
          | some m => if y < m then some y else some m)
        (acc.map (fun y => y + c)) =
      (l.foldl
        (fun acc y => match acc with
          | none => some y
          | some m => if y < m then some y else some m) acc).map
        (fun y => y + c) := by
    intro l
    induction l with
    | nil => intro acc; rfl
    | cons y ys ih =>
        intro acc
        rw [List.map_cons, List.foldl_cons, List.foldl_cons]
        cases acc with
        | none => exact ih (some y)
        | some m =>
            simp only [Option.map_some']
            by_cases h : y < m
            · rw [if_pos h, if_pos (show y + c < m + c by linarith)]
              simpa using ih (some y)
            · rw [if_neg h, if_neg (show ¬ y + c < m + c by
                push_neg at h ⊢; linarith)]
              simpa using ih (some m)
  exact hgen ys none

theorem foldMaxY_shift (c : ℚ) (ys : List ℚ) :
    foldMaxY (ys.map (fun y => y + c)) = (foldMaxY ys).map (fun y => y + c) := by
  have hgen : ∀ (l : List ℚ) (acc : Option ℚ),
      (l.map (fun y => y + c)).foldl
        (fun acc y => match acc with
          | none => some y
          | some m => if y > m then some y else some m)
        (acc.map (fun y => y + c)) =
      (l.foldl
        (fun acc y => match acc with
          | none => some y
          | some m => if y > m then some y else some m) acc).map
        (fun y => y + c) := by
    intro l
    induction l with
    | nil => intro acc; rfl
    | cons y ys ih =>
        intro acc
        rw [List.map_cons, List.foldl_cons, List.foldl_cons]
        cases acc with
        | none => exact ih (some y)
        | some m =>
            simp only [Option.map_some']
            by_cases h : y > m
            · rw [if_pos h, if_pos (show y + c > m + c by
                simp only [gt_iff_lt] at h ⊢; linarith)]
              simpa using ih (some y)
            · rw [if_neg h, if_neg (show ¬ y + c > m + c by
                simp only [gt_iff_lt, not_lt] at h ⊢; linarith)]
              simpa using ih (some m)
  exact hgen ys none

theorem foldMinQ_cons_some (y : ℚ) (ys : List ℚ) :
    ∃ v, foldMinQ (y :: ys) = some v := by
  have hgen : ∀ (l : List ℚ) (a : ℚ),
      ∃ v, l.foldl
        (fun acc y => match acc with
          | none => some y
          | some m => if y < m then some y else some m) (some a) = some v := by
    intro l
    induction l with
    | nil => intro a; exact ⟨a, rfl⟩
    | cons z zs ih =>
        intro a
        rw [List.foldl_cons]
        by_cases h : z < a
        · simpa [h] using ih z
        · simpa [h] using ih a
  unfold foldMinQ
  rw [List.foldl_cons]
  exact hgen ys y

theorem enumFrom_map_pair {α β : Type} (f : α → β) :
    ∀ (l : List α) (n : Nat),
      (l.map f).enumFrom n = (l.enumFrom n).map (fun p => (p.1, f p.2)) := by
  intro l
  induction l with
  | nil => intro n; rfl
  | cons a t ih =>
      intro n
      simp only [List.map_cons, List.enumFrom, ih]

theorem foldMaxY_cons_some (y : ℚ) (ys : List ℚ) :
    ∃ v, foldMaxY (y :: ys) = some v := by
  have hgen : ∀ (l : List ℚ) (a : ℚ),
      ∃ v, l.foldl
        (fun acc y => match acc with
          | none => some y
          | some m => if y > m then some y else some m) (some a) = some v := by
    intro l
    induction l with
    | nil => intro a; exact ⟨a, rfl⟩
    | cons z zs ih =>
        intro a
        rw [List.foldl_cons]
        by_cases h : z > a
        · simpa [h] using ih z
        · simpa [h] using ih a
  unfold foldMaxY
  rw [List.foldl_cons]
  exact hgen ys y

theorem mem_connUpdates_full {g : GraphState} {rootIds : List NodeId}
    {cNodes : List VisNode} {shift : NodeId → ℚ} {u : NodeUpdate}
    (h : u ∈ connUpdates g rootIds cNodes shift) :
    ∃ n ∈ cNodes,
      u = ⟨n.id, some (g.pos n.id).x, some ((g.pos n.id).y + shift n.id),
        some (decide (n.id ∈ rootIds) || n.isRoot), none⟩ := by
  rcases List.mem_map.mp h with ⟨n, hn, rfl⟩
  exact ⟨n, hn, rfl⟩

theorem mem_freeUpdatesOf_full {startY fs : ℚ} {cols : Nat}
    {fNodes : List VisNode} {u : NodeUpdate}
    (h : u ∈ freeUpdatesOf startY fs cols fNodes) :
    ∃ p ∈ fNodes.enum,
      u = ⟨p.2.id,
        some (-(((cols : ℚ) - 1) * fs) / 2 + ((p.1 % cols : Nat) : ℚ) * fs),
        some (startY + ((p.1 / cols : Nat) : ℚ) * fs), none, none⟩ := by
  rcases List.mem_map.mp h with ⟨p, hp, rfl⟩
  exact ⟨p, hp, rfl⟩

/-- Whenever every root's descendant walk succeeds, so does the whole shift
fold. -/
theorem shifts_fold_ok_of_desc_ok {ty : ℚ} {g : GraphState} :
    ∀ (roots : List NodeId) (acc : NodeId → Option ℚ),
      (∀ r ∈ roots, ∃ ds, getAllDescendantIds r g.edges = .ok ds) →
      ∃ sh, roots.foldlM (shiftStep ty g) acc = .ok sh := by
  intro roots
  induction roots with
  | nil => intro acc _; exact ⟨acc, rfl⟩
  | cons r0 rest ih =>
      intro acc hds
      obtain ⟨ds0, hds0⟩ := hds r0 (List.mem_cons_self ..)
      have hstep : shiftStep ty g acc r0 = .ok
          (ds0.foldl (fun a d => fun i =>
            if i = d then some (ty - (g.pos r0).y) else a i)
            (fun i => if i = r0 then some (ty - (g.pos r0).y) else acc i)) := by
        unfold shiftStep
        rw [hds0]
        rfl
      obtain ⟨sh, hsh⟩ := ih _ (fun r hr => hds r (List.mem_cons_of_mem _ hr))
      refine ⟨sh, ?_⟩
      simp only [List.foldlM]
      rw [hstep]
      simp only [Bind.bind, Except.bind]
      exact hsh

/-- Everything the idempotence proof needs about one application of the
layout batch, as a function of its parameters. -/
theorem layout_pass_facts (g : GraphState) (ri : List NodeId)
    (shift : NodeId → ℚ) (sY fsv : ℚ) (cols : Nat) (cN fN : List VisNode)
    (hcN : cN = g.nodes.filter
      (fun m => m.id ∈ connectedIdsList g.edges ∨ m.isRoot = true))
    (hfN : fN = g.nodes.filter
      (fun m => ¬ m.id ∈ connectedIdsList g.edges ∧ m.isRoot = false))
    (hri : ∀ r ∈ ri, r ∈ connectedIdsList g.edges)
    (hnd : (nodeIds g).Nodup) :
    (applyUpdates g
      (connUpdates g ri cN shift ++ freeUpdatesOf sY fsv cols fN)).edges =
        g.edges ∧
    nodeIds (applyUpdates g
      (connUpdates g ri cN shift ++ freeUpdatesOf sY fsv cols fN)) =
        nodeIds g ∧
    (∃ F : VisNode → VisNode,
      (applyUpdates g
        (connUpdates g ri cN shift ++ freeUpdatesOf sY fsv cols fN)).nodes =
          g.nodes.map F ∧
      (∀ n, (F n).id = n.id) ∧
      (∀ n ∈ g.nodes,
        ((F n).isRoot = true →
          n.isRoot = true ∨ n.id ∈ connectedIdsList g.edges) ∧
        (n.isRoot = true → (F n).isRoot = true))) ∧
    (∀ n ∈ cN,
      (applyUpdates g
        (connUpdates g ri cN shift ++ freeUpdatesOf sY fsv cols fN)).pos n.id =
      ⟨(g.pos n.id).x, (g.pos n.id).y + shift n.id⟩) ∧
    (∀ k m, (k, m) ∈ fN.enum →
      (applyUpdates g
        (connUpdates g ri cN shift ++ freeUpdatesOf sY fsv cols fN)).pos m.id =
      ⟨-(((cols : ℚ) - 1) * fsv) / 2 + ((k % cols : Nat) : ℚ) * fsv,
       sY + ((k / cols : Nat) : ℚ) * fsv⟩) := by
  have hinj : ∀ n ∈ g.nodes, ∀ m ∈ g.nodes, n.id = m.id → n = m := by
    intro n hn m hm hid
    exact List.inj_on_of_nodup_map hnd hn hm hid
  have hmemb : ∀ u ∈ connUpdates g ri cN shift ++ freeUpdatesOf sY fsv cols fN,
      u.id ∈ nodeIds g := by
    intro u hu
    rcases List.mem_append.mp hu with hu2 | hu2
    · obtain ⟨n, hn, hid⟩ := mem_connUpdates hu2
      rw [hcN] at hn
      exact hid ▸ List.mem_map_of_mem _ (List.mem_of_mem_filter hn)
    · obtain ⟨n, hn, hid⟩ := mem_freeUpdatesOf hu2
      rw [hfN] at hn
      exact hid ▸ List.mem_map_of_mem _ (List.mem_of_mem_filter hn)
  refine ⟨applyUpdates_edges .., applyUpdates_nodeIds _ _ hmemb, ?_, ?_, ?_⟩
  · refine ⟨fun n => (connUpdates g ri cN shift ++
      freeUpdatesOf sY fsv cols fN).foldl (fun m u => patchNode u m) n,
      applyUpdates_nodes_foldPatch _ _ hmemb, foldPatch_id _, ?_⟩
    intro n hn
    refine foldPatch_isRoot g _ ?_ n hn n rfl Or.inl (fun h => h)
    intro u hu b hub m hm hmid
    rcases List.mem_append.mp hu with hu2 | hu2
    · obtain ⟨n0, hn0, rfl⟩ := mem_connUpdates_full hu2
      have hb : b = (decide (n0.id ∈ ri) || n0.isRoot) := by
        exact (Option.some.inj hub).symm
      rw [hcN] at hn0
      have hmn0 : m = n0 :=
        hinj m hm n0 (List.mem_of_mem_filter hn0) hmid
      subst hmn0
      subst hb
      constructor
      · intro hbt
        rcases Bool.or_eq_true_iff.mp hbt with hdec | hroot
        · exact Or.inr (hmid ▸ hri m.id (by simpa using hdec))
        · exact Or.inl hroot
      · intro hmr
        simp [hmr]
    · obtain ⟨p, hp, rfl⟩ := mem_freeUpdatesOf_full hu2
      cases hub
  · intro n hn
    have hndc : (cN.map (fun m => m.id)).Nodup := by
      rw [hcN]
      exact List.Nodup.sublist ((List.filter_sublist _).map _) hnd
    refine applyUpdates_connUpdates_pos g ri cN shift _ n hn hndc ?_
    intro u hu hc
    obtain ⟨m, hm, hid⟩ := mem_freeUpdatesOf hu
    rw [hfN] at hm
    rw [hcN] at hn
    have hmn : m = n := hinj m (List.mem_of_mem_filter hm)
      n (List.mem_of_mem_filter hn) (by rw [← hid, hc])
    subst hmn
    have hpf := (List.mem_filter.mp hm).2
    have hpc := (List.mem_filter.mp hn).2
    simp only [decide_eq_true_eq] at hpf hpc
    rcases hpc with hconn | hroot
    · exact hpf.1 hconn
    · rw [hpf.2] at hroot
      cases hroot
  · intro k m hkm
    have hndf : (fN.map (fun x => x.id)).Nodup := by
      rw [hfN]
      exact List.Nodup.sublist ((List.filter_sublist _).map _) hnd
    exact applyUpdates_freeUpdates_pos g _ sY fsv cols fN k m hkm hndf

/-- A layout batch whose connected shifts are zero and whose grid writes
match the current positions changes no position. -/
theorem layout_batch_writeSame (g1 : GraphState) (ri2 : List NodeId)
    (cN2 fN2 : List VisNode) (shift2 : NodeId → ℚ) (sY2 fsv : ℚ) (cols2 : Nat)
    (hshiftzero : ∀ n ∈ cN2, shift2 n.id = 0)
    (hfree : ∀ k m, (k, m) ∈ fN2.enum →
      g1.pos m.id =
        ⟨-(((cols2 : ℚ) - 1) * fsv) / 2 + ((k % cols2 : Nat) : ℚ) * fsv,
         sY2 + ((k / cols2 : Nat) : ℚ) * fsv⟩) :
    ∀ i, (applyUpdates g1
      (connUpdates g1 ri2 cN2 shift2 ++ freeUpdatesOf sY2 fsv cols2 fN2)).pos i =
      g1.pos i := by
  refine applyUpdates_pos_writeSame g1 _ ?_
  intro u hu
  rcases List.mem_append.mp hu with hu2 | hu2
  · obtain ⟨n, hn, rfl⟩ := mem_connUpdates_full hu2
    show (⟨(g1.pos n.id).x, (g1.pos n.id).y + shift2 n.id⟩ : Pt) = g1.pos n.id
    rw [hshiftzero n hn, add_zero]
  · obtain ⟨p, hp, rfl⟩ := mem_freeUpdatesOf_full hu2
    show (⟨-(((cols2 : ℚ) - 1) * fsv) / 2 + ((p.1 % cols2 : Nat) : ℚ) * fsv,
      sY2 + ((p.1 / cols2 : Nat) : ℚ) * fsv⟩ : Pt) = g1.pos p.2.id
    exact (hfree p.1 p.2 hp).symm

/-- C8.  Running the layout twice produces exactly the positions of the
first run. -/
theorem C8_layout_idempotent (ftm fs ty : ℚ) (g g1 : GraphState)
    (hnd : (nodeIds g).Nodup)
    (hedge : ∀ e ∈ g.edges, e.fromId ∈ nodeIds g ∧ e.toId ∈ nodeIds g)
    (hok : arrangeNodes ftm fs ty g = .ok g1) :
    ∃ g2, arrangeNodes ftm fs ty g1 = .ok g2 ∧ ∀ i, g2.pos i = g1.pos i := by
  by_cases hguard : (g.nodes.filter
      (fun m => m.id ∈ connectedIdsList g.edges ∨ m.isRoot = true)).isEmpty =
        true ∧
      (g.nodes.filter
        (fun m => ¬ m.id ∈ connectedIdsList g.edges ∧
          m.isRoot = false)).isEmpty = true
  · have heval : arrangeNodes ftm fs ty g = .ok g := by
      simp only [arrangeNodes]
      rw [if_pos hguard]
      rfl
    have hg1 : g = g1 := Except.ok.inj (heval.symm.trans hok)
    subst hg1
    exact ⟨g, heval, fun i => rfl⟩
  · by_cases hlen : 1 < (getRootNodeIds g.edges).length
    · -- multi-root branch
      cases hfold : (getRootNodeIds g.edges).foldlM (shiftStep ty g)
          (fun _ => none) with
      | error e =>
          exfalso
          have heval : arrangeNodes ftm fs ty g = .error e := by
            simp only [arrangeNodes]
            rw [if_neg hguard, if_pos hlen, hfold]
            rfl
          rw [heval] at hok
          cases hok
      | ok sh1 =>
          have heval : arrangeNodes ftm fs ty g = .ok (applyUpdates g
              (connUpdates g (getRootNodeIds g.edges)
                (g.nodes.filter (fun m => m.id ∈ connectedIdsList g.edges ∨
                  m.isRoot = true))
                (fun id => (sh1 id).getD 0) ++
              freeUpdatesOf
                ((foldMaxY ((g.nodes.filter
                    (fun m => m.id ∈ connectedIdsList g.edges ∨
                      m.isRoot = true)).map
                  (fun n => (g.pos n.id).y + (sh1 n.id).getD 0))).getD
                  ((foldMaxY ((g.nodes.filter
                      (fun m => m.id ∈ connectedIdsList g.edges ∨
                        m.isRoot = true)).map
                    (fun n => (g.pos n.id).y))).getD 0) + ftm)
                fs
                ((calculateFreeNodesGrid
                  (g.nodes.filter
                    (fun m => ¬ m.id ∈ connectedIdsList g.edges ∧
                      m.isRoot = false)).length).1)
                (g.nodes.filter
                  (fun m => ¬ m.id ∈ connectedIdsList g.edges ∧
                    m.isRoot = false)))) := by
            simp only [arrangeNodes]
            rw [if_neg hguard, if_pos hlen, hfold]
            rfl
          have hg1 : g1 = _ := (Except.ok.inj (heval.symm.trans hok)).symm
          obtain ⟨hE0, hE1, ⟨F, hF, hFid, hFroot⟩, hP1, hP2⟩ :=
            layout_pass_facts g (getRootNodeIds g.edges)
              (fun id => (sh1 id).getD 0)
              ((foldMaxY ((g.nodes.filter
                  (fun m => m.id ∈ connectedIdsList g.edges ∨
                    m.isRoot = true)).map
                (fun n => (g.pos n.id).y + (sh1 n.id).getD 0))).getD
                ((foldMaxY ((g.nodes.filter
                    (fun m => m.id ∈ connectedIdsList g.edges ∨
                      m.isRoot = true)).map
                  (fun n => (g.pos n.id).y))).getD 0) + ftm)
              fs
              ((calculateFreeNodesGrid
                (g.nodes.filter
                  (fun m => ¬ m.id ∈ connectedIdsList g.edges ∧
                    m.isRoot = false)).length).1)
              (g.nodes.filter (fun m => m.id ∈ connectedIdsList g.edges ∨
                m.isRoot = true))
              (g.nodes.filter (fun m => ¬ m.id ∈ connectedIdsList g.edges ∧
                m.isRoot = false))
              rfl rfl (fun r hr => mem_getRootNodeIds_connected hr) hnd
          rw [← hg1] at hE0 hE1 hF hP1 hP2
          -- root alignment after pass one
          obtain ⟨hB, hC, hD⟩ := shifts_fold_spec ty g _ _ sh1 hfold
          have hdesc : ∀ r ∈ getRootNodeIds g.edges,
              ∃ ds, getAllDescendantIds r g.edges = .ok ds :=
            shifts_fold_desc_ok _ _ _ hfold
          have halign : ∀ r ∈ getRootNodeIds g.edges, (g1.pos r).y = ty := by
            intro r hr
            have hconn := mem_getRootNodeIds_connected hr
            obtain ⟨e, he, hep⟩ := mem_connectedIdsList_endpoint hconn
            have hrn : r ∈ nodeIds g := by
              rcases hep with hep | hep
              · exact hep ▸ (hedge e he).1
              · exact hep ▸ (hedge e he).2
            rcases List.mem_map.mp hrn with ⟨nr, hnr, hnri⟩
            have hnrc : nr ∈ g.nodes.filter
                (fun m => m.id ∈ connectedIdsList g.edges ∨ m.isRoot = true) :=
              List.mem_filter.mpr ⟨hnr, by simp [hnri, hconn]⟩
            have hp := hP1 nr hnrc
            rw [hnri] at hp
            obtain ⟨ds0, hds0⟩ := hdesc r hr
            have hother : ∀ r2 ∈ getRootNodeIds g.edges, r2 ≠ r → r ≠ r2 ∧
                ∀ ds2, getAllDescendantIds r2 g.edges = .ok ds2 → r ∉ ds2 := by
              intro r2 hr2 hne
              refine ⟨Ne.symm hne, ?_⟩
              intro ds2 hds2 hrds2
              obtain ⟨_, _, htg⟩ := getAllDescendantIds_ok_spec hds2
              obtain ⟨e2, he2, hte2⟩ := htg r hrds2
              exact getRootNodeIds_not_target hr e2 he2 hte2
            have hshr : sh1 r = some (ty - (g.pos r).y) :=
              hD r hr ds0 hds0 r (Or.inl rfl) hother
            rw [hp]
            show (g.pos r).y + (sh1 r).getD 0 = ty
            rw [hshr, Option.getD_some]
            ring
          -- filter transfer to the second pass
          have hpredc : ∀ n ∈ g.nodes,
              (decide ((F n).id ∈ connectedIdsList g.edges ∨
                (F n).isRoot = true) : Bool) =
              decide (n.id ∈ connectedIdsList g.edges ∨ n.isRoot = true) := by
            intro n hn
            refine decide_eq_decide.mpr ?_
            rw [hFid n]
            constructor
            · rintro (hc | hr)
              · exact Or.inl hc
              · rcases (hFroot n hn).1 hr with h | h
                · exact Or.inr h
                · exact Or.inl h
            · rintro (hc | hr)
              · exact Or.inl hc
              · exact Or.inr ((hFroot n hn).2 hr)
          have hpredf : ∀ n ∈ g.nodes,
              (decide (¬ (F n).id ∈ connectedIdsList g.edges ∧
                (F n).isRoot = false) : Bool) =
              decide (¬ n.id ∈ connectedIdsList g.edges ∧
                n.isRoot = false) := by
            intro n hn
            refine decide_eq_decide.mpr ?_
            rw [hFid n]
            constructor
            · rintro ⟨hc, hr⟩
              refine ⟨hc, ?_⟩
              cases hb : n.isRoot
              · rfl
              · rw [(hFroot n hn).2 hb] at hr
                cases hr
            · rintro ⟨hc, hr⟩
              refine ⟨hc, ?_⟩
              cases hb : (F n).isRoot
              · rfl
              · rcases (hFroot n hn).1 hb with h | h
                · rw [h] at hr
                  cases hr
                · exact absurd h hc
          have hCN1 : g1.nodes.filter
              (fun m => m.id ∈ connectedIdsList g1.edges ∨ m.isRoot = true) =
              (g.nodes.filter
                (fun m => m.id ∈ connectedIdsList g.edges ∨
                  m.isRoot = true)).map F := by
            rw [hE0, hF, List.filter_map]
            congr 1
            exact List.filter_congr hpredc
          have hFN1 : g1.nodes.filter
              (fun m => ¬ m.id ∈ connectedIdsList g1.edges ∧
                m.isRoot = false) =
              (g.nodes.filter
                (fun m => ¬ m.id ∈ connectedIdsList g.edges ∧
                  m.isRoot = false)).map F := by
            rw [hE0, hF, List.filter_map]
            congr 1
            exact List.filter_congr hpredf
          -- second pass: same branch, successful fold, zero shifts
          have hlen2 : 1 < (getRootNodeIds g1.edges).length := by
            rw [hE0]; exact hlen
          have hguard2 : ¬ ((g1.nodes.filter
              (fun m => m.id ∈ connectedIdsList g1.edges ∨
                m.isRoot = true)).isEmpty = true ∧
              (g1.nodes.filter
                (fun m => ¬ m.id ∈ connectedIdsList g1.edges ∧
                  m.isRoot = false)).isEmpty = true) := by
            rw [hCN1, hFN1]
            intro hcontra
            obtain ⟨h1, h2⟩ := hcontra
            rw [List.isEmpty_iff] at h1 h2
            refine hguard ⟨?_, ?_⟩
            · rw [List.isEmpty_iff]
              exact List.map_eq_nil_iff.mp h1
            · rw [List.isEmpty_iff]
              exact List.map_eq_nil_iff.mp h2
          have hdesc2 : ∀ r ∈ getRootNodeIds g1.edges,
              ∃ ds, getAllDescendantIds r g1.edges = .ok ds := by
            rw [hE0]
            exact hdesc
          obtain ⟨sh2, hfold2⟩ := shifts_fold_ok_of_desc_ok
            (getRootNodeIds g1.edges) (fun _ => none) hdesc2
          have hsh2 : ∀ id, (sh2 id).getD 0 = 0 := by
            intro id
            obtain ⟨hB2, _, _⟩ := shifts_fold_spec ty g1 _ _ sh2 hfold2
            rcases hB2 id with h1 | ⟨r, hr, hv⟩
            · rw [h1]
              rfl
            · rw [hv, Option.getD_some,
                show (g1.pos r).y = ty from halign r (by rw [← hE0]; exact hr)]
              ring
          have heval2 : arrangeNodes ftm fs ty g1 = .ok (applyUpdates g1
              (connUpdates g1 (getRootNodeIds g1.edges)
                (g1.nodes.filter (fun m => m.id ∈ connectedIdsList g1.edges ∨
                  m.isRoot = true))
                (fun id => (sh2 id).getD 0) ++
              freeUpdatesOf
                ((foldMaxY ((g1.nodes.filter
                    (fun m => m.id ∈ connectedIdsList g1.edges ∨
                      m.isRoot = true)).map
                  (fun n => (g1.pos n.id).y + (sh2 n.id).getD 0))).getD
                  ((foldMaxY ((g1.nodes.filter
                      (fun m => m.id ∈ connectedIdsList g1.edges ∨
                        m.isRoot = true)).map
                    (fun n => (g1.pos n.id).y))).getD 0) + ftm)
                fs
                ((calculateFreeNodesGrid
                  (g1.nodes.filter
                    (fun m => ¬ m.id ∈ connectedIdsList g1.edges ∧
                      m.isRoot = false)).length).1)
                (g1.nodes.filter
                  (fun m => ¬ m.id ∈ connectedIdsList g1.edges ∧
                    m.isRoot = false)))) := by
            simp only [arrangeNodes]
            rw [if_neg hguard2, if_pos hlen2, hfold2]
            rfl
          -- the second batch's parameters coincide with the first's
          have hlist : (g1.nodes.filter
              (fun m => m.id ∈ connectedIdsList g1.edges ∨
                m.isRoot = true)).map
              (fun n => (g1.pos n.id).y + (sh2 n.id).getD 0) =
              (g.nodes.filter
                (fun m => m.id ∈ connectedIdsList g.edges ∨
                  m.isRoot = true)).map
              (fun n => (g.pos n.id).y + (sh1 n.id).getD 0) := by
            rw [hCN1, List.map_map]
            refine List.map_congr_left ?_
            intro n hn
            show (g1.pos (F n).id).y + (sh2 (F n).id).getD 0 = _
            rw [hFid n, hsh2, add_zero, hP1 n hn]
          have hlisty : (g1.nodes.filter
              (fun m => m.id ∈ connectedIdsList g1.edges ∨
                m.isRoot = true)).map (fun n => (g1.pos n.id).y) =
              (g.nodes.filter
                (fun m => m.id ∈ connectedIdsList g.edges ∨
                  m.isRoot = true)).map
              (fun n => (g.pos n.id).y + (sh1 n.id).getD 0) := by
            rw [hCN1, List.map_map]
            refine List.map_congr_left ?_
            intro n hn
            show (g1.pos (F n).id).y = _
            rw [hFid n, hP1 n hn]
          have hcols : (calculateFreeNodesGrid
              (g1.nodes.filter
                (fun m => ¬ m.id ∈ connectedIdsList g1.edges ∧
                  m.isRoot = false)).length).1 =
              (calculateFreeNodesGrid
                (g.nodes.filter
                  (fun m => ¬ m.id ∈ connectedIdsList g.edges ∧
                    m.isRoot = false)).length).1 := by
            rw [hFN1, List.length_map]
          have hstart : (foldMaxY ((g1.nodes.filter
                (fun m => m.id ∈ connectedIdsList g1.edges ∨
                  m.isRoot = true)).map
              (fun n => (g1.pos n.id).y + (sh2 n.id).getD 0))).getD
              ((foldMaxY ((g1.nodes.filter
                  (fun m => m.id ∈ connectedIdsList g1.edges ∨
                    m.isRoot = true)).map
                (fun n => (g1.pos n.id).y))).getD 0) + ftm =
              (foldMaxY ((g.nodes.filter
                  (fun m => m.id ∈ connectedIdsList g.edges ∨
                    m.isRoot = true)).map
                (fun n => (g.pos n.id).y + (sh1 n.id).getD 0))).getD
                ((foldMaxY ((g.nodes.filter
                    (fun m => m.id ∈ connectedIdsList g.edges ∨
                      m.isRoot = true)).map
                  (fun n => (g.pos n.id).y))).getD 0) + ftm := by
            rw [hlist, hlisty]
            cases hCNe : (g.nodes.filter
                (fun m => m.id ∈ connectedIdsList g.edges ∨
                  m.isRoot = true)) with
            | nil => rfl
            | cons c cs =>
                rw [List.map_cons]
                obtain ⟨v, hv⟩ := foldMaxY_cons_some
                  ((g.pos c.id).y + (sh1 c.id).getD 0)
                  (cs.map (fun n => (g.pos n.id).y + (sh1 n.id).getD 0))
                rw [hv]
                rfl
          have hfree2 : ∀ k m, (k, m) ∈ (g1.nodes.filter
              (fun x => ¬ x.id ∈ connectedIdsList g1.edges ∧
                x.isRoot = false)).enum →
              g1.pos m.id =
                ⟨-((((calculateFreeNodesGrid
                    (g1.nodes.filter
                      (fun x => ¬ x.id ∈ connectedIdsList g1.edges ∧
                        x.isRoot = false)).length).1 : ℚ) - 1) * fs) / 2 +
                  ((k % (calculateFreeNodesGrid
                    (g1.nodes.filter
                      (fun x => ¬ x.id ∈ connectedIdsList g1.edges ∧
                        x.isRoot = false)).length).1 : Nat) : ℚ) * fs,
                 ((foldMaxY ((g1.nodes.filter
                      (fun m => m.id ∈ connectedIdsList g1.edges ∨
                        m.isRoot = true)).map
                    (fun n => (g1.pos n.id).y + (sh2 n.id).getD 0))).getD
                    ((foldMaxY ((g1.nodes.filter
                        (fun m => m.id ∈ connectedIdsList g1.edges ∨
                          m.isRoot = true)).map
                      (fun n => (g1.pos n.id).y))).getD 0) + ftm) +
                  ((k / (calculateFreeNodesGrid
                    (g1.nodes.filter
                      (fun x => ¬ x.id ∈ connectedIdsList g1.edges ∧
                        x.isRoot = false)).length).1 : Nat) : ℚ) * fs⟩ := by
            intro k m hkm
            rw [hFN1] at hkm
            have henum : ((g.nodes.filter
                (fun m => ¬ m.id ∈ connectedIdsList g.edges ∧
                  m.isRoot = false)).map F).enum =
                (g.nodes.filter
                  (fun m => ¬ m.id ∈ connectedIdsList g.edges ∧
                    m.isRoot = false)).enum.map
                  (fun q => (q.1, F q.2)) := by
              simp only [List.enum]
              exact enumFrom_map_pair F _ 0
            rw [henum] at hkm
            rcases List.mem_map.mp hkm with ⟨q, hq, heq⟩
            have hk : q.1 = k := congrArg Prod.fst heq
            have hm : F q.2 = m := congrArg Prod.snd heq
            subst hk
            subst hm
            rw [hFid]
            rw [hP2 q.1 q.2 hq]
            rw [hcols, hstart]
          refine ⟨_, heval2, ?_⟩
          refine layout_batch_writeSame g1 _ _ _ _ _ _ _ ?_ ?_
          · intro n _
            exact hsh2 n.id
          · exact hfree2
    · -- single-root branch
      have heval : arrangeNodes ftm fs ty g = .ok (applyUpdates g
          (connUpdates g (getRootNodeIds g.edges)
            (g.nodes.filter (fun m => m.id ∈ connectedIdsList g.edges ∨
              m.isRoot = true))
            (fun _ => ty - (foldMinY g.pos
              (g.nodes.filter (fun m => m.id ∈ connectedIdsList g.edges ∨
                m.isRoot = true))).getD 0) ++
          freeUpdatesOf
            ((foldMaxY ((g.nodes.filter
                (fun m => m.id ∈ connectedIdsList g.edges ∨
                  m.isRoot = true)).map
              (fun n => (g.pos n.id).y))).getD 0 +
              (ty - (foldMinY g.pos
                (g.nodes.filter (fun m => m.id ∈ connectedIdsList g.edges ∨
                  m.isRoot = true))).getD 0) + ftm)
            fs
            ((calculateFreeNodesGrid
              (g.nodes.filter
                (fun m => ¬ m.id ∈ connectedIdsList g.edges ∧
                  m.isRoot = false)).length).1)
            (g.nodes.filter
              (fun m => ¬ m.id ∈ connectedIdsList g.edges ∧
                m.isRoot = false)))) := by
        simp only [arrangeNodes]
        rw [if_neg hguard, if_neg hlen]
        rfl
      have hg1 : g1 = _ := (Except.ok.inj (heval.symm.trans hok)).symm
      obtain ⟨hE0, hE1, ⟨F, hF, hFid, hFroot⟩, hP1, hP2⟩ :=
        layout_pass_facts g (getRootNodeIds g.edges)
          (fun _ => ty - (foldMinY g.pos
            (g.nodes.filter (fun m => m.id ∈ connectedIdsList g.edges ∨
              m.isRoot = true))).getD 0)
          ((foldMaxY ((g.nodes.filter
              (fun m => m.id ∈ connectedIdsList g.edges ∨
                m.isRoot = true)).map
            (fun n => (g.pos n.id).y))).getD 0 +
            (ty - (foldMinY g.pos
              (g.nodes.filter (fun m => m.id ∈ connectedIdsList g.edges ∨
                m.isRoot = true))).getD 0) + ftm)
          fs
          ((calculateFreeNodesGrid
            (g.nodes.filter
              (fun m => ¬ m.id ∈ connectedIdsList g.edges ∧
                m.isRoot = false)).length).1)
          (g.nodes.filter (fun m => m.id ∈ connectedIdsList g.edges ∨
            m.isRoot = true))
          (g.nodes.filter (fun m => ¬ m.id ∈ connectedIdsList g.edges ∧
            m.isRoot = false))
          rfl rfl (fun r hr => mem_getRootNodeIds_connected hr) hnd
      rw [← hg1] at hE0 hE1 hF hP1 hP2
      have hpredc : ∀ n ∈ g.nodes,
          (decide ((F n).id ∈ connectedIdsList g.edges ∨
            (F n).isRoot = true) : Bool) =
          decide (n.id ∈ connectedIdsList g.edges ∨ n.isRoot = true) := by
        intro n hn
        refine decide_eq_decide.mpr ?_
        rw [hFid n]
        constructor
        · rintro (hc | hr)
          · exact Or.inl hc
          · rcases (hFroot n hn).1 hr with h | h
            · exact Or.inr h
            · exact Or.inl h
        · rintro (hc | hr)
          · exact Or.inl hc
          · exact Or.inr ((hFroot n hn).2 hr)
      have hpredf : ∀ n ∈ g.nodes,
          (decide (¬ (F n).id ∈ connectedIdsList g.edges ∧
            (F n).isRoot = false) : Bool) =
          decide (¬ n.id ∈ connectedIdsList g.edges ∧
            n.isRoot = false) := by
        intro n hn
        refine decide_eq_decide.mpr ?_
        rw [hFid n]
        constructor
        · rintro ⟨hc, hr⟩
          refine ⟨hc, ?_⟩
          cases hb : n.isRoot
          · rfl
          · rw [(hFroot n hn).2 hb] at hr
            cases hr
        · rintro ⟨hc, hr⟩
          refine ⟨hc, ?_⟩
          cases hb : (F n).isRoot
          · rfl
          · rcases (hFroot n hn).1 hb with h | h
            · rw [h] at hr
              cases hr
            · exact absurd h hc
      have hCN1 : g1.nodes.filter
          (fun m => m.id ∈ connectedIdsList g1.edges ∨ m.isRoot = true) =
          (g.nodes.filter
            (fun m => m.id ∈ connectedIdsList g.edges ∨
              m.isRoot = true)).map F := by
        rw [hE0, hF, List.filter_map]
        congr 1
        exact List.filter_congr hpredc
      have hFN1 : g1.nodes.filter
          (fun m => ¬ m.id ∈ connectedIdsList g1.edges ∧
            m.isRoot = false) =
          (g.nodes.filter
            (fun m => ¬ m.id ∈ connectedIdsList g.edges ∧
              m.isRoot = false)).map F := by
        rw [hE0, hF, List.filter_map]
        congr 1
        exact List.filter_congr hpredf
      have hlen2 : ¬ 1 < (getRootNodeIds g1.edges).length := by
        rw [hE0]; exact hlen
      have hguard2 : ¬ ((g1.nodes.filter
          (fun m => m.id ∈ connectedIdsList g1.edges ∨
            m.isRoot = true)).isEmpty = true ∧
          (g1.nodes.filter
            (fun m => ¬ m.id ∈ connectedIdsList g1.edges ∧
              m.isRoot = false)).isEmpty = true) := by
        rw [hCN1, hFN1]
        intro hcontra
        obtain ⟨h1, h2⟩ := hcontra
        rw [List.isEmpty_iff] at h1 h2
        refine hguard ⟨?_, ?_⟩
        · rw [List.isEmpty_iff]
          exact List.map_eq_nil_iff.mp h1
        · rw [List.isEmpty_iff]
          exact List.map_eq_nil_iff.mp h2
      have heval2 : arrangeNodes ftm fs ty g1 = .ok (applyUpdates g1
          (connUpdates g1 (getRootNodeIds g1.edges)
            (g1.nodes.filter (fun m => m.id ∈ connectedIdsList g1.edges ∨
              m.isRoot = true))
            (fun _ => ty - (foldMinY g1.pos
              (g1.nodes.filter (fun m => m.id ∈ connectedIdsList g1.edges ∨
                m.isRoot = true))).getD 0) ++
          freeUpdatesOf
            ((foldMaxY ((g1.nodes.filter
                (fun m => m.id ∈ connectedIdsList g1.edges ∨
                  m.isRoot = true)).map
              (fun n => (g1.pos n.id).y))).getD 0 +
              (ty - (foldMinY g1.pos
                (g1.nodes.filter (fun m => m.id ∈ connectedIdsList g1.edges ∨
                  m.isRoot = true))).getD 0) + ftm)
            fs
            ((calculateFreeNodesGrid
              (g1.nodes.filter
                (fun m => ¬ m.id ∈ connectedIdsList g1.edges ∧
                  m.isRoot = false)).length).1)
            (g1.nodes.filter
              (fun m => ¬ m.id ∈ connectedIdsList g1.edges ∧
                m.isRoot = false)))) := by
        simp only [arrangeNodes]
        rw [if_neg hguard2, if_neg hlen2]
        rfl
      have hcols : (calculateFreeNodesGrid
          (g1.nodes.filter
            (fun m => ¬ m.id ∈ connectedIdsList g1.edges ∧
              m.isRoot = false)).length).1 =
          (calculateFreeNodesGrid
            (g.nodes.filter
              (fun m => ¬ m.id ∈ connectedIdsList g.edges ∧
                m.isRoot = false)).length).1 := by
        rw [hFN1, List.length_map]
      have hlisty1 : (g1.nodes.filter
          (fun m => m.id ∈ connectedIdsList g1.edges ∨
            m.isRoot = true)).map (fun n => (g1.pos n.id).y) =
          ((g.nodes.filter
            (fun m => m.id ∈ connectedIdsList g.edges ∨
              m.isRoot = true)).map (fun n => (g.pos n.id).y)).map
          (fun y => y + (ty - (foldMinY g.pos
            (g.nodes.filter (fun m => m.id ∈ connectedIdsList g.edges ∨
              m.isRoot = true))).getD 0)) := by
        rw [hCN1, List.map_map, List.map_map]
        refine List.map_congr_left ?_
        intro n hn
        show (g1.pos (F n).id).y = _
        rw [hFid n, hP1 n hn]
        rfl
      have h1 : foldMinY g1.pos (g1.nodes.filter
          (fun m => m.id ∈ connectedIdsList g1.edges ∨ m.isRoot = true)) =
          (foldMinY g.pos (g.nodes.filter
            (fun m => m.id ∈ connectedIdsList g.edges ∨
              m.isRoot = true))).map
          (fun y => y + (ty - (foldMinY g.pos
            (g.nodes.filter (fun m => m.id ∈ connectedIdsList g.edges ∨
              m.isRoot = true))).getD 0)) := by
        rw [foldMinY_eq_q, hlisty1, foldMinQ_shift, ← foldMinY_eq_q]
      have h2 : foldMaxY ((g1.nodes.filter
          (fun m => m.id ∈ connectedIdsList g1.edges ∨
            m.isRoot = true)).map (fun n => (g1.pos n.id).y)) =
          (foldMaxY ((g.nodes.filter
            (fun m => m.id ∈ connectedIdsList g.edges ∨
              m.isRoot = true)).map (fun n => (g.pos n.id).y))).map
          (fun y => y + (ty - (foldMinY g.pos
            (g.nodes.filter (fun m => m.id ∈ connectedIdsList g.edges ∨
              m.isRoot = true))).getD 0)) := by
        rw [hlisty1, foldMaxY_shift]
      cases hCNe : g.nodes.filter
          (fun m => m.id ∈ connectedIdsList g.edges ∨ m.isRoot = true) with
      | nil =>
          have hmin1 : foldMinY g.pos (g.nodes.filter
              (fun m => m.id ∈ connectedIdsList g.edges ∨
                m.isRoot = true)) = none := by
            rw [hCNe]
            rfl
          have hmax1 : foldMaxY ((g.nodes.filter
              (fun m => m.id ∈ connectedIdsList g.edges ∨
                m.isRoot = true)).map (fun n => (g.pos n.id).y)) = none := by
            rw [hCNe]
            rfl
          have hstart : (foldMaxY ((g1.nodes.filter
              (fun m => m.id ∈ connectedIdsList g1.edges ∨
                m.isRoot = true)).map (fun n => (g1.pos n.id).y))).getD 0 +
              (ty - (foldMinY g1.pos
                (g1.nodes.filter (fun m => m.id ∈ connectedIdsList g1.edges ∨
                  m.isRoot = true))).getD 0) + ftm =
              (foldMaxY ((g.nodes.filter
                (fun m => m.id ∈ connectedIdsList g.edges ∨
                  m.isRoot = true)).map (fun n => (g.pos n.id).y))).getD 0 +
              (ty - (foldMinY g.pos
                (g.nodes.filter (fun m => m.id ∈ connectedIdsList g.edges ∨
                  m.isRoot = true))).getD 0) + ftm := by
            rw [h1, h2, hmin1, hmax1]
            rfl
          refine ⟨_, heval2, ?_⟩
          refine layout_batch_writeSame g1 _ _ _ _ _ _ _ ?_ ?_
          · intro n hn
            rw [hCN1, hCNe] at hn
            simp at hn
          · intro k m hkm
            rw [hFN1] at hkm
            have henum : ((g.nodes.filter
                (fun m => ¬ m.id ∈ connectedIdsList g.edges ∧
                  m.isRoot = false)).map F).enum =
                (g.nodes.filter
                  (fun m => ¬ m.id ∈ connectedIdsList g.edges ∧
                    m.isRoot = false)).enum.map
                  (fun q => (q.1, F q.2)) := by
              simp only [List.enum]
              exact enumFrom_map_pair F _ 0
            rw [henum] at hkm
            rcases List.mem_map.mp hkm with ⟨q, hq, heq⟩
            have hk : q.1 = k := congrArg Prod.fst heq
            have hm : F q.2 = m := congrArg Prod.snd heq
            subst hk
            subst hm
            rw [hFid]
            rw [hP2 q.1 q.2 hq]
            rw [hcols, hstart]
      | cons c0 cs =>
          obtain ⟨v, hv⟩ := foldMinQ_cons_some ((g.pos c0.id).y)
            (cs.map (fun n => (g.pos n.id).y))
          have hminv : foldMinY g.pos (g.nodes.filter
              (fun m => m.id ∈ connectedIdsList g.edges ∨
                m.isRoot = true)) = some v := by
            rw [foldMinY_eq_q, hCNe, List.map_cons]
            exact hv
          obtain ⟨w, hw⟩ := foldMaxY_cons_some ((g.pos c0.id).y)
            (cs.map (fun n => (g.pos n.id).y))
          have hmaxw : foldMaxY ((g.nodes.filter
              (fun m => m.id ∈ connectedIdsList g.edges ∨
                m.isRoot = true)).map (fun n => (g.pos n.id).y)) = some w := by
            rw [hCNe, List.map_cons]
            exact hw
          have htop2 : (foldMinY g1.pos
              (g1.nodes.filter (fun m => m.id ∈ connectedIdsList g1.edges ∨
                m.isRoot = true))).getD 0 = ty := by
            rw [h1, hminv]
            simp only [Option.map_some', Option.getD_some]
            ring
          have hstart : (foldMaxY ((g1.nodes.filter
              (fun m => m.id ∈ connectedIdsList g1.edges ∨
                m.isRoot = true)).map (fun n => (g1.pos n.id).y))).getD 0 +
              (ty - (foldMinY g1.pos
                (g1.nodes.filter (fun m => m.id ∈ connectedIdsList g1.edges ∨
                  m.isRoot = true))).getD 0) + ftm =
              (foldMaxY ((g.nodes.filter
                (fun m => m.id ∈ connectedIdsList g.edges ∨
                  m.isRoot = true)).map (fun n => (g.pos n.id).y))).getD 0 +
              (ty - (foldMinY g.pos
                (g.nodes.filter (fun m => m.id ∈ connectedIdsList g.edges ∨
                  m.isRoot = true))).getD 0) + ftm := by
            rw [h2, hmaxw, htop2, hminv]
            simp only [Option.map_some', Option.getD_some]
            ring
          refine ⟨_, heval2, ?_⟩
          refine layout_batch_writeSame g1 _ _ _ _ _ _ _ ?_ ?_
          · intro n hn
            show ty - (foldMinY g1.pos
              (g1.nodes.filter (fun m => m.id ∈ connectedIdsList g1.edges ∨
                m.isRoot = true))).getD 0 = 0
            rw [htop2]
            ring
          · intro k m hkm
            rw [hFN1] at hkm
            have henum : ((g.nodes.filter
                (fun m => ¬ m.id ∈ connectedIdsList g.edges ∧
                  m.isRoot = false)).map F).enum =
                (g.nodes.filter
                  (fun m => ¬ m.id ∈ connectedIdsList g.edges ∧
                    m.isRoot = false)).enum.map
                  (fun q => (q.1, F q.2)) := by
              simp only [List.enum]
              exact enumFrom_map_pair F _ 0
            rw [henum] at hkm
            rcases List.mem_map.mp hkm with ⟨q, hq, heq⟩
            have hk : q.1 = k := congrArg Prod.fst heq
            have hm : F q.2 = m := congrArg Prod.snd heq
            subst hk
            subst hm
            rw [hFid]
            rw [hP2 q.1 q.2 hq]
            rw [hcols, hstart]

/-- Witness for C8: on the two-tree fixture the first layout pass succeeds,
the second pass on its output succeeds, and every position is unchanged. -/
theorem C8_layout_idempotent_witness :
    ∃ g1, arrangeNodes 100 150 0 gC6w = .ok g1 ∧
      ∃ g2, arrangeNodes 100 150 0 g1 = .ok g2 ∧ ∀ i, g2.pos i = g1.pos i := by
  refine ⟨_, rfl, ?_⟩
  exact C8_layout_idempotent 100 150 0 gC6w _ (by decide) (by decide) rfl

/-! ## C4: the validator accepts exactly the cycle-free edge sets -/

theorem mem_vAdj {edges : List VisEdge} {v n : NodeId} :
    n ∈ vAdj edges v ↔ EdgeRel edges v n := by
  constructor
  · intro h
    rcases List.mem_map.mp h with ⟨e, he, rfl⟩
    have hf := List.mem_filter.mp he
    exact ⟨e, hf.1, by simpa using hf.2, rfl⟩
  · rintro ⟨e, he, hf, rfl⟩
    exact List.mem_map.mpr ⟨e, List.mem_filter.mpr ⟨he, by simpa using hf⟩, rfl⟩

theorem vAdj_mem_allNodes {edges : List VisEdge} {v n : NodeId}
    (h : n ∈ vAdj edges v) : n ∈ vAllNodes edges := by
  obtain ⟨e, he, hf, ht⟩ := mem_vAdj.mp h
  exact ht ▸ (endpoint_mem_connectedIdsList he).2

theorem reach_done {edges : List VisEdge} {st : NodeId → Nat}
    (hc : DoneClosed edges st) {x y : NodeId}
    (h : Relation.ReflTransGen (EdgeRel edges) x y) (hx : st x = 2) :
    st y = 2 := by
  induction h with
  | refl => exact hx
  | tail hab hbc ih => exact hc _ ih _ (mem_vAdj.mpr hbc)

theorem dfsNeighbors_ok_spec (edges : List VisEdge)
    (visit : NodeId → List NodeId → (NodeId → Nat) → Except VErr (NodeId → Nat))
    (hvisit : ∀ v path st st', st v = 0 → (∀ x, st x ≤ 2) →
      visit v path st = .ok st' →
      (∀ x, st x ≠ 0 → st' x = st x) ∧
      (∀ x, st' x = 1 ↔ st x = 1) ∧
      (∀ x, st' x ≤ 2) ∧
      st' v = 2 ∧
      (DoneClosed edges st → DoneClosed edges st') ∧
      (DoneClosed edges st →
        (∀ x, st x = 2 → ¬ Relation.TransGen (EdgeRel edges) x x) →
        ∀ x, st' x = 2 → ¬ Relation.TransGen (EdgeRel edges) x x)) :
    ∀ (ns path : List NodeId) (st st' : NodeId → Nat), (∀ x, st x ≤ 2) →
      dfsNeighbors visit ns path st = .ok st' →
      (∀ x, st x ≠ 0 → st' x = st x) ∧
      (∀ x, st' x = 1 ↔ st x = 1) ∧
      (∀ x, st' x ≤ 2) ∧
      (∀ n ∈ ns, st' n = 2) ∧
      (DoneClosed edges st → DoneClosed edges st') ∧
      (DoneClosed edges st →
        (∀ x, st x = 2 → ¬ Relation.TransGen (EdgeRel edges) x x) →
        ∀ x, st' x = 2 → ¬ Relation.TransGen (EdgeRel edges) x x) := by
  intro ns
  induction ns with
  | nil =>
      intro path st st' hle hok
      have h : st = st' := Except.ok.inj hok
      subst h
      exact ⟨fun x h => rfl, fun x => Iff.rfl, hle, by simp, id, fun h hb => hb⟩
  | cons n ns' ih =>
      intro path st st' hle hok
      have hok' : (if st n = 1 then
            Except.error (VErr.cycleFound (cycleOfPath path n))
          else if st n = 0 then
            match visit n path st with
            | .error e => .error e
            | .ok stm => dfsNeighbors visit ns' path stm
          else dfsNeighbors visit ns' path st) = .ok st' := hok
      by_cases h1 : st n = 1
      · rw [if_pos h1] at hok'
        cases hok'
      · rw [if_neg h1] at hok'
        by_cases h0 : st n = 0
        · rw [if_pos h0] at hok'
          cases hV : visit n path st with
          | error e => rw [hV] at hok'; cases hok'
          | ok stm =>
              rw [hV] at hok'
              obtain ⟨a1, a2, ale, a4, ac, ab⟩ := hvisit n path st stm h0 hle hV
              obtain ⟨i1, i2, ile, iN, ic, ib⟩ := ih path stm st' ale hok'
              refine ⟨?_, ?_, ile, ?_, fun hc => ic (ac hc),
                fun hc hb => ib (ac hc) (ab hc hb)⟩
              · intro x hx
                rw [i1 x (by rw [a1 x hx]; exact hx), a1 x hx]
              · intro x
                rw [i2 x, a2 x]
              · intro m hm
                rcases List.mem_cons.mp hm with rfl | hm'
                · rw [i1 m (by omega)]
                  exact a4
                · exact iN m hm'
        · rw [if_neg h0] at hok'
          have h2 : st n = 2 := by have := hle n; omega
          obtain ⟨i1, i2, ile, iN, ic, ib⟩ := ih path st st' hle hok'
          refine ⟨i1, i2, ile, ?_, ic, ib⟩
          intro m hm
          rcases List.mem_cons.mp hm with rfl | hm'
          · rw [i1 m (by omega)]
            exact h2
          · exact iN m hm'

theorem dfsVisit_ok_spec (edges : List VisEdge) : ∀ (fuel : Nat)
    (v : NodeId) (path : List NodeId) (st st' : NodeId → Nat),
    st v = 0 → (∀ x, st x ≤ 2) →
    dfsVisit (vAdj edges) fuel v path st = .ok st' →
    (∀ x, st x ≠ 0 → st' x = st x) ∧
    (∀ x, st' x = 1 ↔ st x = 1) ∧
    (∀ x, st' x ≤ 2) ∧
    st' v = 2 ∧
    (DoneClosed edges st → DoneClosed edges st') ∧
    (DoneClosed edges st →
      (∀ x, st x = 2 → ¬ Relation.TransGen (EdgeRel edges) x x) →
      ∀ x, st' x = 2 → ¬ Relation.TransGen (EdgeRel edges) x x) := by
  intro fuel
  induction fuel with
  | zero =>
      intro v path st st' hv0 hle hok
      cases hok
  | succ fuel' ihf =>
      intro v path st st' hv0 hle hok
      have hok' : (match dfsNeighbors
            (fun n p s => dfsVisit (vAdj edges) fuel' n p s) (vAdj edges v)
            (path ++ [v]) (fun n => if n = v then 1 else st n) with
          | .error e => (.error e : Except VErr (NodeId → Nat))
          | .ok st2 => .ok (fun n => if n = v then 2 else st2 n)) =
          .ok st' := hok
      cases hN : dfsNeighbors (fun n p s => dfsVisit (vAdj edges) fuel' n p s)
          (vAdj edges v) (path ++ [v]) (fun n => if n = v then 1 else st n) with
      | error e => rw [hN] at hok'; cases hok'
      | ok st2 =>
          rw [hN] at hok'
          have hst' : st' = fun n => if n = v then 2 else st2 n :=
            (Except.ok.inj hok').symm
          subst hst'
          obtain ⟨b1, b2, ble, bN, bc, bb⟩ :=
            dfsNeighbors_ok_spec edges _
              (fun v2 p2 s2 s2' h02 hl2 hok2 => ihf v2 p2 s2 s2' h02 hl2 hok2)
              (vAdj edges v) (path ++ [v])
              (fun n => if n = v then 1 else st n) st2
              (fun x => by by_cases hxv : x = v
                           · simp [hxv]
                           · simp only [if_neg hxv]; exact hle x)
              hN
          have hs2v : st2 v = 1 := by
            have := b1 v (by simp)
            simpa using this
          have hc1 : DoneClosed edges st →
              DoneClosed edges (fun n => if n = v then 1 else st n) := by
            intro hc x hx2 y hy
            by_cases hxv : x = v
            · simp [hxv] at hx2
            · have hx2' : st x = 2 := by simpa [hxv] using hx2
              have hy2 := hc x hx2' y hy
              have hyv : y ≠ v := by
                intro h
                rw [h, hv0] at hy2
                cases hy2
              simpa [hyv] using hy2
          refine ⟨?_, ?_, ?_, by simp, ?_, ?_⟩
          · intro x hx
            by_cases hxv : x = v
            · exact absurd (hxv ▸ hv0) hx
            · have := b1 x (by simpa [hxv] using hx)
              simp only [if_neg hxv]
              rw [this]
              simp [hxv]
          · intro x
            by_cases hxv : x = v
            · simp [hxv, hv0]
            · have := b2 x
              simp only [if_neg hxv] at this ⊢
              rw [this]
          · intro x
            by_cases hxv : x = v
            · simp [hxv]
            · simp only [if_neg hxv]
              exact ble x
          · intro hc x hx2 y hy
            by_cases hxv : x = v
            · subst hxv
              have h2 := bN y hy
              by_cases hyv : y = x
              · simp [hyv]
              · simpa [hyv] using h2
            · have hx2' : st2 x = 2 := by simpa [hxv] using hx2
              have h2 := bc (hc1 hc) x hx2' y hy
              by_cases hyv : y = v
              · simp [hyv]
              · simpa [hyv] using h2
          · intro hc hb x hx2 hcyc
            by_cases hxv : x = v
            · subst hxv
              obtain ⟨m, hvm, hmv⟩ := Relation.TransGen.head'_iff.mp hcyc
              have hm2 : st2 m = 2 := bN m (mem_vAdj.mpr hvm)
              have hv2 : st2 x = 2 := reach_done (bc (hc1 hc)) hmv hm2
              rw [hs2v] at hv2
              cases hv2
            · have hx2' : st2 x = 2 := by simpa [hxv] using hx2
              refine bb (hc1 hc) ?_ x hx2' hcyc
              intro z hz2
              by_cases hzv : z = v
              · simp [hzv] at hz2
              · exact hb z (by simpa [hzv] using hz2)

theorem validateLoop_ok_spec (edges : List VisEdge) : ∀ (ns : List NodeId)
    (fuel : Nat) (st st' : NodeId → Nat),
    validateLoop (vAdj edges) fuel ns st = .ok st' →
    (∀ x, st x ≤ 2) → (∀ x, st x ≠ 1) →
    DoneClosed edges st →
    (∀ x, st x = 2 → ¬ Relation.TransGen (EdgeRel edges) x x) →
    (∀ x, st x ≠ 0 → st' x = st x) ∧
    (∀ n ∈ ns, st' n = 2) ∧
    (∀ x, st' x = 2 → ¬ Relation.TransGen (EdgeRel edges) x x) := by
  intro ns
  induction ns with
  | nil =>
      intro fuel st st' hok hle hones hc hb
      have h : st = st' := Except.ok.inj hok
      subst h
      exact ⟨fun x h => rfl, by simp, hb⟩
  | cons n ns' ih =>
      intro fuel st st' hok hle hones hc hb
      have hok' : (if st n = 0 then
            match dfsVisit (vAdj edges) fuel n [] st with
            | .error e => (.error e : Except VErr (NodeId → Nat))
            | .ok stm => validateLoop (vAdj edges) fuel ns' stm
          else validateLoop (vAdj edges) fuel ns' st) = .ok st' := hok
      by_cases h0 : st n = 0
      · rw [if_pos h0] at hok'
        cases hV : dfsVisit (vAdj edges) fuel n [] st with
        | error e => rw [hV] at hok'; cases hok'
        | ok stm =>
            rw [hV] at hok'
            obtain ⟨a1, a2, ale, a4, ac, ab⟩ :=
              dfsVisit_ok_spec edges fuel n [] st stm h0 hle hV
            obtain ⟨i1, iN, ib⟩ := ih fuel stm st' hok' ale
              (fun x hx => hones x ((a2 x).mp hx)) (ac hc) (ab hc hb)
            refine ⟨?_, ?_, ib⟩
            · intro x hx
              rw [i1 x (by rw [a1 x hx]; exact hx), a1 x hx]
            · intro m hm
              rcases List.mem_cons.mp hm with rfl | hm'
              · rw [i1 m (by omega)]
                exact a4
              · exact iN m hm'
      · rw [if_neg h0] at hok'
        have h2 : st n = 2 := by have := hle n; have := hones n; omega
        obtain ⟨i1, iN, ib⟩ := ih fuel st st' hok' hle hones hc hb
        refine ⟨i1, ?_, ib⟩
        intro m hm
        rcases List.mem_cons.mp hm with rfl | hm'
        · rw [i1 m (by omega)]
          exact h2
        · exact iN m hm'

theorem validate_ok_acyclic {edges : List VisEdge}
    (hok : validateNoCycles edges = .ok ()) : ¬ HasCycle edges := by
  rintro ⟨v, hcyc⟩
  obtain ⟨m, hvm, hmv⟩ := Relation.TransGen.head'_iff.mp hcyc
  obtain ⟨e, he, hf, ht⟩ := hvm
  have hvU : v ∈ vAllNodes edges := hf ▸ (endpoint_mem_connectedIdsList he).1
  have hok' : (match edges.find? (fun e => e.fromId = e.toId) with
      | some e => (.error (.selfLoop e.fromId) : Except VErr Unit)
      | none =>
          match validateLoop (vAdj edges) (validateFuel edges)
              (vAllNodes edges) (fun _ => 0) with
          | .error e => .error e
          | .ok _ => .ok ()) = .ok () := hok
  cases hfind : edges.find? (fun e => e.fromId = e.toId) with
  | some e2 => rw [hfind] at hok'; cases hok'
  | none =>
      rw [hfind] at hok'
      cases hloop : validateLoop (vAdj edges) (validateFuel edges)
          (vAllNodes edges) (fun _ => 0) with
      | error e2 => rw [hloop] at hok'; cases hok'
      | ok stF =>
          obtain ⟨f1, fN, fb⟩ := validateLoop_ok_spec edges (vAllNodes edges)
            (validateFuel edges) (fun _ => 0) stF hloop
            (fun x => by norm_num) (fun x => by norm_num)
            (fun x hx2 => absurd hx2 (by norm_num))
            (fun x hx2 => absurd hx2 (by norm_num))
          exact fb v (fN v hvU) hcyc

theorem zeroCount_pos (edges : List VisEdge) (st : NodeId → Nat) (v : NodeId)
    (hU : v ∈ vAllNodes edges) (hv0 : st v = 0) :
    1 ≤ zeroCount edges st := by
  have hm : v ∈ (vAllNodes edges).filter (fun x => st x = 0) :=
    List.mem_filter.mpr ⟨hU, by simp [hv0]⟩
  exact List.length_pos.mpr (List.ne_nil_of_mem hm)

theorem zeroCount_congr (edges : List VisEdge) {st st2 : NodeId → Nat}
    (h : ∀ x ∈ vAllNodes edges, st x = 0 ↔ st2 x = 0) :
    zeroCount edges st = zeroCount edges st2 :=
  congrArg List.length
    (List.filter_congr (fun x hx => decide_eq_decide.mpr (h x hx)))

theorem zeroCount_update (edges : List VisEdge) (v : NodeId)
    (st : NodeId → Nat) (k : Nat) (hU : v ∈ vAllNodes edges)
    (hv0 : st v = 0) (hk : k ≠ 0) :
    zeroCount edges (fun n => if n = v then k else st n) + 1 =
      zeroCount edges st := by
  have hnd : (vAllNodes edges).Nodup := connectedIdsList_nodup edges
  have hgen : ∀ (l : List NodeId), l.Nodup → v ∈ l →
      (l.filter (fun x => (if x = v then k else st x) = 0)).length + 1 =
      (l.filter (fun x => st x = 0)).length := by
    intro l
    induction l with
    | nil => intro _ h; cases h
    | cons u l' ihl =>
        intro hnd2 hv
        rw [List.nodup_cons] at hnd2
        by_cases huv : u = v
        · subst huv
          rw [List.filter_cons, List.filter_cons]
          rw [if_neg (by simpa using hk), if_pos (by simpa using hv0)]
          have htail : l'.filter (fun x => (if x = u then k else st x) = 0) =
              l'.filter (fun x => st x = 0) :=
            List.filter_congr (fun x hx => by
              have hxu : x ≠ u := fun h => hnd2.1 (h ▸ hx)
              simp [hxu])
          rw [htail, List.length_cons]
        · rcases List.mem_cons.mp hv with rfl | hv'
          · exact absurd rfl huv
          · rw [List.filter_cons, List.filter_cons]
            by_cases hu0 : st u = 0
            · rw [if_pos (by simpa [huv] using hu0),
                if_pos (by simpa using hu0)]
              rw [List.length_cons, List.length_cons]
              rw [← ihl hnd2.2 hv']
            · rw [if_neg (by simpa [huv] using hu0),
                if_neg (by simpa using hu0)]
              exact ihl hnd2.2 hv'
  exact hgen (vAllNodes edges) hnd hU

theorem dfsNeighbors_acyclic_ok (edges : List VisEdge)
    (hnc : ¬ HasCycle edges)
    (visit : NodeId → List NodeId → (NodeId → Nat) → Except VErr (NodeId → Nat))
    (B : Nat)
    (hvisit : ∀ (v : NodeId) (path : List NodeId) (st : NodeId → Nat),
      v ∈ vAllNodes edges → st v = 0 →
      (∀ x, st x = 1 → Relation.ReflTransGen (EdgeRel edges) x v) →
      zeroCount edges st ≤ B →
      ∃ st', visit v path st = .ok st' ∧
        (∀ x, st x ≠ 0 → st' x = st x) ∧
        (∀ x, st' x = 1 ↔ st x = 1) ∧
        zeroCount edges st' + 1 ≤ zeroCount edges st) :
    ∀ (w : NodeId) (ns path : List NodeId) (st : NodeId → Nat),
      (∀ n ∈ ns, EdgeRel edges w n) →
      (∀ x, st x = 1 → Relation.ReflTransGen (EdgeRel edges) x w) →
      zeroCount edges st ≤ B →
      ∃ st', dfsNeighbors visit ns path st = .ok st' ∧
        (∀ x, st x ≠ 0 → st' x = st x) ∧
        (∀ x, st' x = 1 ↔ st x = 1) ∧
        zeroCount edges st' ≤ zeroCount edges st := by
  intro w ns
  induction ns with
  | nil =>
      intro path st hns h1s hz
      exact ⟨st, rfl, fun x h => rfl, fun x => Iff.rfl, le_refl _⟩
  | cons n ns' ih =>
      intro path st hns h1s hz
      by_cases h1 : st n = 1
      · have hcyc : Relation.TransGen (EdgeRel edges) n n :=
          Relation.TransGen.tail'_iff.mpr
            ⟨w, h1s n h1, hns n (List.mem_cons_self ..)⟩
        exact absurd ⟨n, hcyc⟩ hnc
      · by_cases h0 : st n = 0
        · have hnU : n ∈ vAllNodes edges := by
            obtain ⟨e, he, hf, ht⟩ := hns n (List.mem_cons_self ..)
            exact ht ▸ (endpoint_mem_connectedIdsList he).2
          obtain ⟨stm, hV, a1, a2, a4⟩ := hvisit n path st hnU h0
            (fun x hx => (h1s x hx).tail (hns n (List.mem_cons_self ..)))
            hz
          obtain ⟨st', hokN, i1, i2, i4⟩ := ih path stm
            (fun m hm => hns m (List.mem_cons_of_mem _ hm))
            (fun x hx => h1s x ((a2 x).mp hx))
            (by omega)
          refine ⟨st', ?_, ?_, ?_, by omega⟩
          · show dfsNeighbors visit (n :: ns') path st = .ok st'
            simp only [dfsNeighbors]
            rw [if_neg h1, if_pos h0, hV]
            exact hokN
          · intro x hx
            rw [i1 x (by rw [a1 x hx]; exact hx), a1 x hx]
          · intro x
            rw [i2 x, a2 x]
        · obtain ⟨st', hokN, i1, i2, i4⟩ := ih path st
            (fun m hm => hns m (List.mem_cons_of_mem _ hm)) h1s hz
          refine ⟨st', ?_, i1, i2, i4⟩
          show dfsNeighbors visit (n :: ns') path st = .ok st'
          simp only [dfsNeighbors]
          rw [if_neg h1, if_neg h0]
          exact hokN

theorem dfsVisit_acyclic_ok (edges : List VisEdge) (hnc : ¬ HasCycle edges) :
    ∀ (fuel : Nat) (v : NodeId) (path : List NodeId) (st : NodeId → Nat),
      v ∈ vAllNodes edges → st v = 0 →
      (∀ x, st x = 1 → Relation.ReflTransGen (EdgeRel edges) x v) →
      zeroCount edges st ≤ fuel →
      ∃ st', dfsVisit (vAdj edges) fuel v path st = .ok st' ∧
        (∀ x, st x ≠ 0 → st' x = st x) ∧
        (∀ x, st' x = 1 ↔ st x = 1) ∧
        zeroCount edges st' + 1 ≤ zeroCount edges st := by
  intro fuel
  induction fuel with
  | zero =>
      intro v path st hU hv0 h1s hz
      have := zeroCount_pos edges st v hU hv0
      omega
  | succ fuel' ihf =>
      intro v path st hU hv0 h1s hz
      have hzup : zeroCount edges (fun n => if n = v then 1 else st n) + 1 =
          zeroCount edges st := zeroCount_update edges v st 1 hU hv0 one_ne_zero
      obtain ⟨st2, hN, b1, b2, b4⟩ :=
        dfsNeighbors_acyclic_ok edges hnc
          (fun n p s => dfsVisit (vAdj edges) fuel' n p s) fuel'
          (fun v2 p2 s2 hU2 h02 h1s2 hz2 => ihf v2 p2 s2 hU2 h02 h1s2 hz2)
          v (vAdj edges v) (path ++ [v]) (fun n => if n = v then 1 else st n)
          (fun n hn => mem_vAdj.mp hn)
          (fun x hx => by
            by_cases hxv : x = v
            · exact hxv ▸ Relation.ReflTransGen.refl
            · exact h1s x (by simpa [hxv] using hx))
          (by omega)
      have hs2v : st2 v = 1 := by
        have := b1 v (by simp)
        simpa using this
      refine ⟨fun n => if n = v then 2 else st2 n, ?_, ?_, ?_, ?_⟩
      · show dfsVisit (vAdj edges) (fuel' + 1) v path st = _
        simp only [dfsVisit]
        rw [hN]
      · intro x hx
        by_cases hxv : x = v
        · exact absurd (hxv ▸ hv0) hx
        · have := b1 x (by simpa [hxv] using hx)
          simp only [if_neg hxv]
          rw [this]
          simp [hxv]
      · intro x
        by_cases hxv : x = v
        · simp [hxv, hv0]
        · have := b2 x
          simp only [if_neg hxv] at this ⊢
          rw [this]
      · have hfin : zeroCount edges (fun n => if n = v then 2 else st2 n) =
            zeroCount edges st2 := by
          refine zeroCount_congr edges ?_
          intro x hx
          by_cases hxv : x = v
          · simp [hxv, hs2v]
          · simp [hxv]
        omega

theorem validateLoop_acyclic_ok (edges : List VisEdge)
    (hnc : ¬ HasCycle edges) : ∀ (ns : List NodeId) (fuel : Nat)
    (st : NodeId → Nat),
    (∀ n ∈ ns, n ∈ vAllNodes edges) →
    (∀ x, st x ≠ 1) →
    zeroCount edges st ≤ fuel →
    ∃ st', validateLoop (vAdj edges) fuel ns st = .ok st' := by
  intro ns
  induction ns with
  | nil =>
      intro fuel st _ _ _
      exact ⟨st, rfl⟩
  | cons n ns' ih =>
      intro fuel st hU hones hz
      by_cases h0 : st n = 0
      · obtain ⟨stm, hV, a1, a2, a4⟩ := dfsVisit_acyclic_ok edges hnc fuel n
          [] st (hU n (List.mem_cons_self ..)) h0
          (fun x hx => absurd hx (hones x)) hz
        obtain ⟨st', hok⟩ := ih fuel stm
          (fun m hm => hU m (List.mem_cons_of_mem _ hm))
          (fun x hx => hones x ((a2 x).mp hx)) (by omega)
        refine ⟨st', ?_⟩
        show validateLoop (vAdj edges) fuel (n :: ns') st = .ok st'
        simp only [validateLoop]
        rw [if_pos h0, hV]
        exact hok
      · obtain ⟨st', hok⟩ := ih fuel st
          (fun m hm => hU m (List.mem_cons_of_mem _ hm)) hones hz
        refine ⟨st', ?_⟩
        show validateLoop (vAdj edges) fuel (n :: ns') st = .ok st'
        simp only [validateLoop]
        rw [if_neg h0]
        exact hok

theorem validate_acyclic_ok {edges : List VisEdge}
    (hnc : ¬ HasCycle edges) : validateNoCycles edges = .ok () := by
  have hfind : edges.find? (fun e => e.fromId = e.toId) = none := by
    cases hf : edges.find? (fun e => e.fromId = e.toId) with
    | none => rfl
    | some e =>
        have hmem := List.mem_of_find?_eq_some hf
        have heq : e.fromId = e.toId := by simpa using List.find?_some hf
        exact absurd
          ⟨e.fromId, Relation.TransGen.single ⟨e, hmem, rfl, heq.symm⟩⟩ hnc
  have hz0 : zeroCount edges (fun _ => 0) ≤ validateFuel edges := by
    have hall : ((vAllNodes edges).filter
        (fun x => (fun _ => (0 : Nat)) x = 0)) = vAllNodes edges := by
      simp
    show ((vAllNodes edges).filter (fun x => (fun _ => (0 : Nat)) x = 0)).length ≤
      (vAllNodes edges).length + 1
    rw [hall]
    omega
  obtain ⟨st', hloop⟩ := validateLoop_acyclic_ok edges hnc (vAllNodes edges)
    (validateFuel edges) (fun _ => 0) (fun n h => h) (fun x => by norm_num) hz0
  show (match edges.find? (fun e => e.fromId = e.toId) with
      | some e => (.error (.selfLoop e.fromId) : Except VErr Unit)
      | none =>
          match validateLoop (vAdj edges) (validateFuel edges)
              (vAllNodes edges) (fun _ => 0) with
          | .error e => .error e
          | .ok _ => .ok ()) = .ok ()
  rw [hfind, hloop]

/-- C4.  The validator accepts an edge set exactly when it has no directed
cycle (a self-loop being a one-edge cycle); the forest in-degree clause is
not checked. -/
theorem C4_validator_cycles_only (edges : List VisEdge) :
    validateNoCycles edges = .ok () ↔ ¬ HasCycle edges :=
  ⟨validate_ok_acyclic, validate_acyclic_ok⟩

/-- C4 counterexample: node `C` has two incoming edges (parents `A` and
`B`), which the claim calls a fatal input error, yet the validator accepts
the edge set. -/
theorem C4_multi_parent_accepted_counterexample :
    validateNoCycles [⟨"e1", "A", "C"⟩, ⟨"e2", "B", "C"⟩] = .ok () ∧
    (([⟨"e1", "A", "C"⟩, ⟨"e2", "B", "C"⟩] : List VisEdge).filter
        (fun e => e.toId = "C")).length = 2 :=
  ⟨rfl, rfl⟩

end Org
